import Mathlib

/-!
# Indentation-sensitive lexer (`lexer.cpp`, `lexer.h`, `token.h`)

A shallow embedding of the `Lexer` class.  The object's fields become the
fields of the structure `Lexer`; every member function becomes a function that
takes the state and returns the new state next to its result.

* `std::string` input is a `List Char`, one `Char` per `char` of the buffer;
  token lexemes and the error message are `String`s.
* `int` values (`line`, `column`, indentation widths) are natural numbers:
  they start at 1 (or 0) and are only ever incremented, and signed overflow is
  undefined behaviour that needs more than `2^31` input characters.  The
  theorems whose conclusion is the value of such a counter carry the bound
  `intMax` that keeps the counter within the range of `int`.
* `std::stack<int>` is a list whose head is the top of the stack.
* The `while` loops of the scanners advance the cursor at every iteration, so
  they run at most `input.length - position` times; the loops are written by
  recursion on that bound.
* `getNextToken` and `handleIndentation` call each other and need not return;
  `getNextToken` therefore takes the permitted call depth as its first
  argument and answers `Outcome.outOfFuel` when that depth is exceeded.  A
  token returned at one depth is returned at every larger depth
  (`getNextToken_mono`), so `Outcome.outOfFuel` at every depth says that the
  call does not return.
* `top()` of an empty `std::stack` is undefined behaviour; `handleIndentation`
  answers `Outcome.emptyStack` there.
* The `Parser` class (`parser.cpp`, `parser.h`) is embedded the same way in the
  structure `Parser`; the loop of `Parser::parse` takes the permitted number of
  iterations and answers `none` when it is exceeded, and `parse_returns` shows
  that one iteration per character of the text is always enough.
-/

namespace PyLexer

/-- The enumeration `TokenType` of `token.h`. -/
inductive TokenType where
  | DEF | IF | ELIF | ELSE | WHILE | FOR | IN | RETURN | PASS | BREAK | CONTINUE
  | PLUS | MINUS | MULTIPLY | DIVIDE | ASSIGN | EQUALS | NOT_EQUALS
  | LESS_THAN | GREATER_THAN | LESS_EQUAL | GREATER_EQUAL
  | LPAREN | RPAREN | LBRACE | RBRACE | LBRACKET | RBRACKET | COLON | COMMA | DOT
  | IDENTIFIER | INTEGER | FLOAT | STRING | INDENT | DEDENT | NEWLINE | COMMENT
  | END_OF_FILE | ERROR
  deriving DecidableEq

/-- The struct `Token` of `token.h`. -/
structure Token where
  type : TokenType
  value : String
  line : Nat
  column : Nat
  deriving DecidableEq

/-- The data members of class `Lexer` (`lexer.h`); the head of
`indentationStack` is the top of the stack. -/
structure Lexer where
  input : List Char
  position : Nat
  line : Nat
  column : Nat
  indentationStack : List Nat
  errorOccurred : Bool
  errorMessage : String
  deriving DecidableEq

/-- The constructor `Lexer::Lexer(const string&)`. -/
def Lexer.new (input : List Char) : Lexer :=
  { input := input, position := 0, line := 1, column := 1,
    indentationStack := [0], errorOccurred := false, errorMessage := "" }

/-- The accessor `Lexer::hasError`. -/
def hasError (s : Lexer) : Bool := s.errorOccurred

/-- The accessor `Lexer::getErrorMessage`. -/
def getErrorMessage (s : Lexer) : String := s.errorMessage

/-- The character `'\0'` that `peek` and `advance` return at end of input. -/
def nul : Char := Char.ofNat 0

/-- The character `'\n'`. -/
def nl : Char := Char.ofNat 10

/-- The double quote character. -/
def dquote : Char := Char.ofNat 34

/-- The single quote character. -/
def squote : Char := Char.ofNat 39

/-- The member `Lexer::isAtEnd`. -/
def isAtEnd (s : Lexer) : Bool := decide (s.input.length ≤ s.position)

/-- The member `Lexer::peek`. -/
def peek (s : Lexer) : Char :=
  if isAtEnd s then nul else s.input.getD s.position nul

/-- The largest value of the 32-bit `int` of the source, `INT_MAX`. -/
def intMax : Nat := 2147483647

/-- The member `Lexer::advance`: the character consumed and the new state.  The increments
`line++` and `column++` are those of the source as long as the counter incremented is below
`intMax`. -/
def advance (s : Lexer) : Char × Lexer :=
  if isAtEnd s then (nul, s)
  else
    let current := s.input.getD s.position nul
    if current = nl then
      (current, { s with position := s.position + 1, line := s.line + 1, column := 1 })
    else
      (current, { s with position := s.position + 1, column := s.column + 1 })

/-- The loop of `Lexer::skipWhitespace`, at most `n` iterations. -/
def skipWhitespaceLoop : Nat → Lexer → Lexer
  | 0, s => s
  | n + 1, s =>
    if isAtEnd s then s
    else
      let c := peek s
      if c = ' ' ∨ c = '\r' ∨ c = '\t' then skipWhitespaceLoop n (advance s).2
      else s

/-- The member `Lexer::skipWhitespace`. -/
def skipWhitespace (s : Lexer) : Lexer :=
  skipWhitespaceLoop (s.input.length - s.position) s

/-- The member `Lexer::match`: whether `expected` was consumed, and the new state. -/
def matchChar (expected : Char) (s : Lexer) : Bool × Lexer :=
  if isAtEnd s ∨ s.input.getD s.position nul ≠ expected then (false, s)
  else (true, { s with position := s.position + 1, column := s.column + 1 })

/-- The member `Lexer::isDigit`. -/
def isDigit (c : Char) : Bool := decide ('0' ≤ c) && decide (c ≤ '9')

/-- The member `Lexer::isAlpha`. -/
def isAlpha (c : Char) : Bool :=
  (decide ('a' ≤ c) && decide (c ≤ 'z')) || (decide ('A' ≤ c) && decide (c ≤ 'Z')) || decide (c = '_')

/-- The member `Lexer::isAlphaNumeric`. -/
def isAlphaNumeric (c : Char) : Bool := isAlpha c || isDigit c

/-- The member `Lexer::setError`. -/
def setError (message : String) (s : Lexer) : Lexer :=
  { s with
    errorOccurred := true,
    errorMessage := "Line " ++ toString s.line ++ ", Column " ++ toString s.column ++ ": " ++ message }

/-- The member `Lexer::checkKeyword`: the lookup in the table of 11 keywords. -/
def checkKeyword (identifier : String) : TokenType :=
  if identifier = "def" then TokenType.DEF
  else if identifier = "if" then TokenType.IF
  else if identifier = "elif" then TokenType.ELIF
  else if identifier = "else" then TokenType.ELSE
  else if identifier = "while" then TokenType.WHILE
  else if identifier = "for" then TokenType.FOR
  else if identifier = "in" then TokenType.IN
  else if identifier = "return" then TokenType.RETURN
  else if identifier = "pass" then TokenType.PASS
  else if identifier = "break" then TokenType.BREAK
  else if identifier = "continue" then TokenType.CONTINUE
  else TokenType.IDENTIFIER

/-- The loop of `Lexer::handleIdentifier`, at most `n` iterations. -/
def identifierLoop : Nat → String → Lexer → String × Lexer
  | 0, identifier, s => (identifier, s)
  | n + 1, identifier, s =>
    if !isAtEnd s && isAlphaNumeric (peek s) then
      identifierLoop n (identifier.push (advance s).1) (advance s).2
    else (identifier, s)

/-- The member `Lexer::handleIdentifier`. -/
def handleIdentifier (s : Lexer) : Token × Lexer :=
  let startColumn := s.column
  let r := identifierLoop (s.input.length - s.position) "" s
  (⟨checkKeyword r.1, r.1, r.2.line, startColumn⟩, r.2)

/-- The loop of `Lexer::handleNumber`, at most `n` iterations: `Sum.inl` is the
early `return` of the ERROR token inside the loop, `Sum.inr` the normal exit
with the text collected, the `isFloat` flag and the state. -/
def numberLoop (startColumn : Nat) :
    Nat → String → Bool → Lexer → (Token × Lexer) ⊕ (String × Bool × Lexer)
  | 0, number, isFloat, s => Sum.inr (number, isFloat, s)
  | n + 1, number, isFloat, s =>
    if !isAtEnd s && (isDigit (peek s) || decide (peek s = '.')) then
      let c := peek s
      if c = '.' then
        if isFloat then
          let s1 := setError "Invalid number format: multiple decimal points" s
          Sum.inl (⟨TokenType.ERROR, number, s1.line, startColumn⟩, s1)
        else
          numberLoop startColumn n (number.push (advance s).1) true (advance s).2
      else
        numberLoop startColumn n (number.push (advance s).1) isFloat (advance s).2
    else Sum.inr (number, isFloat, s)

/-- The member `Lexer::handleNumber`. -/
def handleNumber (s : Lexer) : Token × Lexer :=
  let startColumn := s.column
  match numberLoop startColumn (s.input.length - s.position) "" false s with
  | Sum.inl r => r
  | Sum.inr (number, isFloat, s1) =>
    (⟨if isFloat then TokenType.FLOAT else TokenType.INTEGER, number, s1.line, startColumn⟩, s1)

/-- The loop of `Lexer::handleString`, at most `n` iterations: `Sum.inl` is the
early `return` of the ERROR token at a newline, `Sum.inr` the normal exit. -/
def stringLoop (startColumn : Nat) (quote : Char) :
    Nat → String → Lexer → (Token × Lexer) ⊕ (String × Lexer)
  | 0, str, s => Sum.inr (str, s)
  | n + 1, str, s =>
    if !isAtEnd s && decide (peek s ≠ quote) then
      if peek s = nl then
        let s1 := setError "Unterminated string literal" s
        Sum.inl (⟨TokenType.ERROR, str, s1.line, startColumn⟩, s1)
      else
        stringLoop startColumn quote n (str.push (advance s).1) (advance s).2
    else Sum.inr (str, s)

/-- The member `Lexer::handleString`. -/
def handleString (s : Lexer) : Token × Lexer :=
  let startColumn := s.column
  let quote := (advance s).1
  let s0 := (advance s).2
  match stringLoop startColumn quote (s0.input.length - s0.position) "" s0 with
  | Sum.inl r => r
  | Sum.inr (str, s1) =>
    if isAtEnd s1 then
      let s2 := setError "Unterminated string literal" s1
      (⟨TokenType.ERROR, str, s2.line, startColumn⟩, s2)
    else
      let s2 := (advance s1).2
      (⟨TokenType.STRING, str, s2.line, startColumn⟩, s2)

/-- The loop of `Lexer::handleIndentation`, at most `n` iterations: the width
counted so far and the state. -/
def indentLoop : Nat → Nat → Lexer → Nat × Lexer
  | 0, spaces, s => (spaces, s)
  | n + 1, spaces, s =>
    if peek s = ' ' ∨ peek s = '\t' then
      indentLoop n (if peek s = ' ' then spaces + 1 else spaces + 4) (advance s).2
    else (spaces, s)

/-- The loop of `Lexer::handleComment`, at most `n` iterations. -/
def commentLoop : Nat → Lexer → Lexer
  | 0, s => s
  | n + 1, s =>
    if !isAtEnd s && decide (peek s ≠ nl) then commentLoop n (advance s).2
    else s

/-- The member `Lexer::handleComment`. -/
def handleComment (s : Lexer) : Lexer :=
  commentLoop (s.input.length - s.position) s

/-- What a call of `getNextToken` or `handleIndentation` does: it returns a
token and leaves a state, or exceeds the permitted call depth, or takes
`top()` of an empty `std::stack` (undefined behaviour). -/
inductive Outcome where
  | ok (t : Token) (s : Lexer)
  | outOfFuel
  | emptyStack
  deriving DecidableEq

/-- The member `Lexer::handleIndentation`; `next` is the call `getNextToken()`
of its last line. -/
def handleIndentation (next : Lexer → Outcome) (s : Lexer) : Outcome :=
  let startColumn := s.column
  let r := indentLoop (s.input.length - s.position) 0 s
  let spaces := r.1
  let s1 := r.2
  match s1.indentationStack with
  | [] => Outcome.emptyStack
  | currentIndent :: below =>
    if spaces > currentIndent then
      Outcome.ok ⟨TokenType.INDENT, "", s1.line, startColumn⟩
        { s1 with indentationStack := spaces :: currentIndent :: below }
    else if spaces < currentIndent then
      Outcome.ok ⟨TokenType.DEDENT, "", s1.line, startColumn⟩
        { s1 with indentationStack := below }
    else next s1

/-- A one-character operator or delimiter case of the `switch`:
`advance(); return Token(type, text, line, startColumn);`. -/
def single (type : TokenType) (text : String) (startColumn : Nat) (s : Lexer) : Outcome :=
  let s1 := (advance s).2
  Outcome.ok ⟨type, text, s1.line, startColumn⟩ s1

/-- A case of the `switch` with one character of look-ahead:
`advance(); if (match('=')) return Token(two, ...); return Token(one, ...);`. -/
def double (two : TokenType) (twoText : String) (one : TokenType) (oneText : String)
    (startColumn : Nat) (s : Lexer) : Outcome :=
  let s1 := (advance s).2
  let m := matchChar '=' s1
  if m.1 then Outcome.ok ⟨two, twoText, m.2.line, startColumn⟩ m.2
  else Outcome.ok ⟨one, oneText, m.2.line, startColumn⟩ m.2

/-- The body of `Lexer::getNextToken`; `next` is the call `getNextToken()` it
makes on itself, directly after a comment and through `handleIndentation`. -/
def getNextTokenBody (next : Lexer → Outcome) (s0 : Lexer) : Outcome :=
  let s := skipWhitespace s0
  if isAtEnd s then Outcome.ok ⟨TokenType.END_OF_FILE, "", s.line, s.column⟩ s
  else
    let c := peek s
    let startColumn := s.column
    if s.column = 1 ∧ c ≠ nl then handleIndentation next s
    else if isAlpha c then Outcome.ok (handleIdentifier s).1 (handleIdentifier s).2
    else if isDigit c then Outcome.ok (handleNumber s).1 (handleNumber s).2
    else if c = nl then
      let s1 := (advance s).2
      Outcome.ok ⟨TokenType.NEWLINE, "\\n", s1.line - 1, startColumn⟩ s1
    else if c = '#' then next (handleComment s)
    else if c = dquote ∨ c = squote then Outcome.ok (handleString s).1 (handleString s).2
    else if c = '+' then single TokenType.PLUS "+" startColumn s
    else if c = '-' then single TokenType.MINUS "-" startColumn s
    else if c = '*' then single TokenType.MULTIPLY "*" startColumn s
    else if c = '/' then single TokenType.DIVIDE "/" startColumn s
    else if c = '=' then double TokenType.EQUALS "==" TokenType.ASSIGN "=" startColumn s
    else if c = '!' then
      let s1 := (advance s).2
      let m := matchChar '=' s1
      if m.1 then Outcome.ok ⟨TokenType.NOT_EQUALS, "!=", m.2.line, startColumn⟩ m.2
      else
        let s2 := setError "Expected '=' after '!'" m.2
        Outcome.ok ⟨TokenType.ERROR, "!", s2.line, startColumn⟩ s2
    else if c = '<' then double TokenType.LESS_EQUAL "<=" TokenType.LESS_THAN "<" startColumn s
    else if c = '>' then double TokenType.GREATER_EQUAL ">=" TokenType.GREATER_THAN ">" startColumn s
    else if c = '(' then single TokenType.LPAREN "(" startColumn s
    else if c = ')' then single TokenType.RPAREN ")" startColumn s
    else if c = Char.ofNat 123 then single TokenType.LBRACE "\x7b" startColumn s
    else if c = Char.ofNat 125 then single TokenType.RBRACE "\x7d" startColumn s
    else if c = '[' then single TokenType.LBRACKET "[" startColumn s
    else if c = ']' then single TokenType.RBRACKET "]" startColumn s
    else if c = ':' then single TokenType.COLON ":" startColumn s
    else if c = ',' then single TokenType.COMMA "," startColumn s
    else if c = '.' then single TokenType.DOT "." startColumn s
    else
      let s1 := setError ("Unexpected character: " ++ String.singleton c) s
      let s2 := (advance s1).2
      Outcome.ok ⟨TokenType.ERROR, String.singleton c, s2.line, startColumn⟩ s2

/-- The member `Lexer::getNextToken`, with the permitted depth of the calls
`getNextToken -> handleIndentation -> getNextToken` and
`getNextToken -> getNextToken` as first argument. -/
def getNextToken : Nat → Lexer → Outcome
  | 0, _ => Outcome.outOfFuel
  | fuel + 1, s0 => getNextTokenBody (getNextToken fuel) s0

/-- Pulls tokens with `getNextToken` (call depth `fuel` each) until an
END_OF_FILE token arrives, at most `calls` times: the tokens returned and the
final state, or `none` when a call does not return a token or `calls` is used up
before END_OF_FILE. -/
def pull (fuel : Nat) : Nat → Lexer → Option (List Token × Lexer)
  | 0, _ => none
  | calls + 1, s =>
    match getNextToken fuel s with
    | Outcome.ok t s1 =>
      if t.type = TokenType.END_OF_FILE then some ([t], s1)
      else
        match pull fuel calls s1 with
        | some (ts, s2) => some (t :: ts, s2)
        | none => none
    | _ => none

/-- The input not yet consumed: the characters from `position` on. -/
def rest (s : Lexer) : List Char := s.input.drop s.position

/-- The state after `advance` has consumed the character `c`. -/
def bump (c : Char) (s : Lexer) : Lexer :=
  if c = nl then { s with position := s.position + 1, line := s.line + 1, column := 1 }
  else { s with position := s.position + 1, column := s.column + 1 }

/-- The state after `k` characters other than newline have been consumed. -/
def shift (k : Nat) (s : Lexer) : Lexer :=
  { s with position := s.position + k, column := s.column + k }

/-- The characters `skipWhitespace` consumes: space, carriage return, tab. -/
def isBlank (c : Char) : Prop := c = ' ' ∨ c = '\r' ∨ c = '\t'

instance (c : Char) : Decidable (isBlank c) := by unfold isBlank; infer_instance

/-- The characters `handleNumber` keeps consuming: digits and the dot. -/
def isNumberChar (c : Char) : Bool := isDigit c || decide (c = '.')

/-- The longest prefix of the remaining input made of digits and dots. -/
def numberRun (s : Lexer) : List Char := (rest s).takeWhile isNumberChar

/-- The 20 operator and delimiter lexemes with their token kinds. -/
def operatorTable : List (String × TokenType) :=
  [("+", TokenType.PLUS), ("-", TokenType.MINUS), ("*", TokenType.MULTIPLY),
   ("/", TokenType.DIVIDE), ("=", TokenType.ASSIGN), ("==", TokenType.EQUALS),
   ("!=", TokenType.NOT_EQUALS), ("<", TokenType.LESS_THAN), ("<=", TokenType.LESS_EQUAL),
   (">", TokenType.GREATER_THAN), (">=", TokenType.GREATER_EQUAL),
   ("(", TokenType.LPAREN), (")", TokenType.RPAREN), ("\x7b", TokenType.LBRACE),
   ("\x7d", TokenType.RBRACE), ("[", TokenType.LBRACKET), ("]", TokenType.RBRACKET),
   (":", TokenType.COLON), (",", TokenType.COMMA), (".", TokenType.DOT)]

/-- The characters `handleString` takes into the lexeme after the opening quote
`q`: everything but `q` and newline. -/
def isStringChar (q : Char) (c : Char) : Bool := decide (c ≠ q) && decide (c ≠ nl)

/-- The lexeme of the string that opens at the cursor. -/
def stringRun (s : Lexer) : List Char := (rest s).tail.takeWhile (isStringChar (peek s))

/-- The input that follows the lexeme of the string that opens at the cursor. -/
def stringTail (s : Lexer) : List Char := (rest s).tail.dropWhile (isStringChar (peek s))

/-- The text `setError` stores for a description `d` detected at line `l`, column `c`. -/
def errorText (l c : Nat) (d : String) : String :=
  "Line " ++ toString l ++ ", Column " ++ toString c ++ ": " ++ d

/-- The message of an ERROR token `t` returned in state `s1` is well formed: one
of the three fixed descriptions at the line and column of `s1`, or the
unexpected-character description at the line and column of the token. -/
def MessageOk (t : Token) (s1 : Lexer) : Prop :=
  (∃ d, (d = "Invalid number format: multiple decimal points" ∨
          d = "Unterminated string literal" ∨ d = "Expected '=' after '!'") ∧
      s1.errorMessage = errorText s1.line s1.column d) ∨
  (∃ c : Char, t.value = String.singleton c ∧
      s1.errorMessage = errorText t.line t.column ("Unexpected character: " ++ String.singleton c) ∧
      s1.line = t.line ∧ s1.column = t.column + 1)

/-- The error discipline of one call made with error flag `e` and message `m`:
a token other than ERROR leaves both as they were, an ERROR token comes with
the flag set and a well-formed message. -/
def ErrorDiscipline (e : Bool) (m : String) (o : Outcome) : Prop :=
  ∀ t s1, o = Outcome.ok t s1 →
    (t.type ≠ TokenType.ERROR → s1.errorOccurred = e ∧ s1.errorMessage = m) ∧
    (t.type = TokenType.ERROR → s1.errorOccurred = true ∧ MessageOk t s1)

/-- The state after the ERROR token for `!` in the input ` !x`. -/
def afterBang : Lexer :=
  { input := " !x".toList, position := 2, line := 1, column := 3, indentationStack := [0],
    errorOccurred := true, errorMessage := "Line 1, Column 3: Expected '=' after '!'" }

/-- The state `s` with another error flag and error message. -/
def withError (e : Bool) (m : String) (s : Lexer) : Lexer :=
  { s with errorOccurred := e, errorMessage := m }

/-- Two states agree on input, offset, line, column and indentation stack. -/
def sameScan (s1 s2 : Lexer) : Prop :=
  s1.input = s2.input ∧ s1.position = s2.position ∧ s1.line = s2.line ∧
    s1.column = s2.column ∧ s1.indentationStack = s2.indentationStack

/-- Two calls end alike: both return the same token and leave states that agree
on everything but the error state, or both fail in the same way. -/
def sameOutcome : Outcome → Outcome → Prop
  | Outcome.ok t1 s1, Outcome.ok t2 s2 => t1 = t2 ∧ sameScan s1 s2
  | Outcome.outOfFuel, Outcome.outOfFuel => True
  | Outcome.emptyStack, Outcome.emptyStack => True
  | _, _ => False

/-- The state in which the `!` of the input `!x` has been consumed, with error
flag `e` and error message `m`. -/
def bangConsumed (e : Bool) (m : String) : Lexer :=
  { input := "!x".toList, position := 1, line := 1, column := 2, indentationStack := [0],
    errorOccurred := e, errorMessage := m }

/-- A line with nothing but spaces and tabs, optionally followed by a comment:
`indent` is the run of spaces and tabs, `comment` the text after the `#`. -/
structure BlankLine where
  indent : List Char
  comment : Option (List Char)

/-- The characters of a blank or comment-only line, its newline included. -/
def BlankLine.text (l : BlankLine) : List Char :=
  l.indent ++ (match l.comment with
    | none => []
    | some b => '#' :: b) ++ [nl]

/-- The line is well formed: the indentation is made of spaces and tabs and the
comment text holds no newline. -/
def BlankLine.wellFormed (l : BlankLine) : Prop :=
  (∀ c ∈ l.indent, c = ' ' ∨ c = '\t') ∧ ∀ b, l.comment = some b → nl ∉ b

/-- The comment of the line, if any, does not start at column 1. -/
def BlankLine.commentIndented (l : BlankLine) : Prop :=
  ∀ b, l.comment = some b → l.indent ≠ []

/-- The input made of the given lines. -/
def renderLines : List BlankLine → List Char
  | [] => []
  | l :: ls => l.text ++ renderLines ls

/-- The state after a line of `k` characters, its newline included, has been
consumed. -/
def lineConsumed (k : Nat) (s : Lexer) : Lexer :=
  { s with position := s.position + k, line := s.line + 1, column := 1 }

/-- The characters that are not letters, underscore or digits and still start
a token, a comment or whitespace: newline, `#`, the quotes, space, tab, carriage
return and the operator and delimiter characters. -/
def dispatchChars : List Char :=
  [nl, '#', dquote, squote, ' ', '\t', '\r', '+', '-', '*', '/', '=', '!', '<', '>', '(', ')',
   Char.ofNat 123, Char.ofNat 125, '[', ']', ':', ',', '.']

/-- The longest prefix of the remaining input made of letters, digits and
underscores. -/
def identifierRun (s : Lexer) : List Char := (rest s).takeWhile isAlphaNumeric

/-- The 11 keywords with their token kinds. -/
def keywordTable : List (String × TokenType) :=
  [("def", TokenType.DEF), ("if", TokenType.IF), ("elif", TokenType.ELIF),
   ("else", TokenType.ELSE), ("while", TokenType.WHILE), ("for", TokenType.FOR),
   ("in", TokenType.IN), ("return", TokenType.RETURN), ("pass", TokenType.PASS),
   ("break", TokenType.BREAK), ("continue", TokenType.CONTINUE)]

/-- The token kinds no scanner but `handleIndentation` can return, and COMMENT. -/
def Structural (ty : TokenType) : Prop :=
  ty = TokenType.INDENT ∨ ty = TokenType.DEDENT ∨ ty = TokenType.COMMENT

/-- The property `P` of states is kept by the three operations through which
the scanners write the cursor and the error state. -/
def Kept (P : Lexer → Prop) : Prop :=
  (∀ s, P s → P (advance s).2) ∧ (∀ s, P s → P (matchChar '=' s).2) ∧
    ∀ d s, P s → P (setError d s)

/-- A call ends well for the state property `P` and the property `K` of token
kinds: the state left satisfies `P`, the kind of the token satisfies `K`, the
line and the column of the token are the line and the column of states that
satisfy `P`; an empty stack is met only if `E` holds. -/
def Good (P : Lexer → Prop) (E : Prop) (K : TokenType → Prop) (o : Outcome) : Prop :=
  (o = Outcome.emptyStack → E) ∧
  ∀ t s1, o = Outcome.ok t s1 →
    P s1 ∧ K t.type ∧ (∃ sl, P sl ∧ t.line = sl.line) ∧ ∃ sc, P sc ∧ t.column = sc.column

/-- The line number that belongs to an offset: 1 plus the number of newline
characters in `pre`, the input before the offset. -/
def lineOf (pre : List Char) : Nat := 1 + pre.count nl

/-- The column number that belongs to an offset: 1 plus the number of
characters of `pre`, the input before the offset, after its last newline. -/
def columnOf (pre : List Char) : Nat := 1 + (pre.reverse.takeWhile (fun c => c != nl)).length

/-- Line and column are the ones that belong to the offset, and the offset is
within the input. -/
def Consistent (s : Lexer) : Prop :=
  s.position ≤ s.input.length ∧ s.line = lineOf (s.input.take s.position) ∧
    s.column = columnOf (s.input.take s.position)

/-- The states reached from a fresh lexer on `input` by `getNextToken` calls
that return. -/
inductive Reachable (input : List Char) : Lexer → Prop
  | fresh : Reachable input (Lexer.new input)
  | step {s s1 : Lexer} {t : Token} (fuel : Nat) :
      Reachable input s → getNextToken fuel s = Outcome.ok t s1 → Reachable input s1

/-- A call made at offset `p0` makes progress: a token other than END_OF_FILE
leaves the offset past `p0`, and END_OF_FILE leaves it at or past the end of
the input. -/
def Progress (p0 : Nat) (o : Outcome) : Prop :=
  ∀ t s1, o = Outcome.ok t s1 →
    (t.type ≠ TokenType.END_OF_FILE → p0 < s1.position) ∧
    (t.type = TokenType.END_OF_FILE → s1.input.length ≤ s1.position)

/-- A sample input: a space, `x` and a newline. -/
def sampleInput : List Char := " x\n".toList

/-- The state of a fresh lexer on `sampleInput` after its first token, the
IDENTIFIER `x`. -/
def sampleState : Lexer := { Lexer.new sampleInput with position := 2, column := 3 }

/-- The state after the second token on `sampleInput`, the NEWLINE. -/
def sampleNext : Lexer := { Lexer.new sampleInput with position := 3, line := 2, column := 1 }

/-- The call returns a token. -/
def Returns (o : Outcome) : Prop := ∃ t s1, o = Outcome.ok t s1

/-! ## The parser (parser.cpp)

`Parser::parse` works on the text itself: it never calls the lexer it holds.  The symbol and
token tables, `currentScope` and `currentToken` are only written (`addSymbol`, `addToken`) or
printed, never read by the control flow, so the embedding leaves them out, together with the
table bookkeeping at the end of `parseStatement`.  The counters (`int`, `size_t`) are bounded by
the length of the input and are natural numbers here. -/

/-- The state of a `Parser` that the control flow of `parse` reads or writes. -/
structure Parser where
  lexer : Lexer
  errorOccurred : Bool
  errorMessage : String
  code : List Char
  currentPos : Nat
  currentLine : Nat
  indentLevel : Nat
  requiresIndent : Bool
  error : Bool

/-- The constructor `Parser(const string &input)`. -/
def Parser.new (input : List Char) : Parser :=
  { lexer := Lexer.new input, errorOccurred := false, errorMessage := "", code := input,
    currentPos := 0, currentLine := 1, indentLevel := 0, requiresIndent := false,
    error := false }

/-- The accessor `hasError()`. -/
def Parser.hasError (p : Parser) : Bool := p.errorOccurred

/-- The accessor `getErrorMessage()`. -/
def Parser.getErrorMessage (p : Parser) : String := p.errorMessage

/-- The C library test `isspace` in the default locale: space, `\t`, `\n`, `\v`, `\f`, `\r`,
and no other character. -/
def isspace (c : Char) : Bool :=
  c == ' ' || c == '\t' || c == nl || c == Char.ofNat 11 || c == Char.ofNat 12 || c == '\r'

/-- The three assignments every error site of the parser makes:
`error = true; errorOccurred = true; errorMessage = what + to_string(currentLine)`. -/
def Parser.raise (p : Parser) (what : String) : Parser :=
  { p with error := true, errorOccurred := true,
           errorMessage := what ++ toString p.currentLine }

/-- The loop of `Parser::skipWhitespace`. -/
def Parser.skipWhitespaceLoop : Nat → Parser → Parser
  | 0, p => p
  | n + 1, p =>
    if p.currentPos < p.code.length ∧ isspace (p.code.getD p.currentPos nul) = true then
      let p1 := if p.code.getD p.currentPos nul = nl then
        { p with currentLine := p.currentLine + 1 } else p
      Parser.skipWhitespaceLoop n { p1 with currentPos := p1.currentPos + 1 }
    else p

/-- The method `Parser::skipWhitespace`; the loop runs at most once per remaining character. -/
def Parser.skipWhitespace (p : Parser) : Parser :=
  Parser.skipWhitespaceLoop (p.code.length - p.currentPos) p

/-- The first loop of `parseIndentation`: count and consume the leading spaces.  The count
`spaces` is an `int` in the source; it is at most the length of the text, so the increment is
that of the source for a text shorter than `intMax`. -/
def Parser.spacesLoop : Nat → Nat → Parser → Nat × Parser
  | 0, spaces, p => (spaces, p)
  | n + 1, spaces, p =>
    if p.currentPos < p.code.length ∧ p.code.getD p.currentPos nul = ' ' then
      Parser.spacesLoop n (spaces + 1) { p with currentPos := p.currentPos + 1 }
    else (spaces, p)

/-- The second loop of `parseIndentation`: move `tempPos` over blanks and `#` up to the end of
the line, stopping early (`break`) at any other character. -/
def Parser.lookAheadLoop (code : List Char) : Nat → Nat → Nat
  | 0, tempPos => tempPos
  | n + 1, tempPos =>
    if tempPos < code.length ∧ code.getD tempPos nul ≠ nl then
      if isspace (code.getD tempPos nul) = false ∧ code.getD tempPos nul ≠ '#' then tempPos
      else Parser.lookAheadLoop code n (tempPos + 1)
    else tempPos

/-- The method `Parser::parseIndentation`. -/
def Parser.parseIndentation (p : Parser) : Parser :=
  let counted := Parser.spacesLoop (p.code.length - p.currentPos) 0 p
  let spaces := counted.1
  let p1 := counted.2
  let tempPos := Parser.lookAheadLoop p1.code (p1.code.length - p1.currentPos) p1.currentPos
  if tempPos < p1.code.length ∧
      (p1.code.getD tempPos nul = nl ∨ p1.code.getD tempPos nul = '#') then p1
  else if spaces % 4 ≠ 0 then
    p1.raise "Indentation must be a multiple of 4 spaces at line "
  else
    let newLevel := spaces / 4
    if p1.requiresIndent = true ∧ newLevel = 0 then
      p1.raise "Expected indented block at line "
    else if newLevel > p1.indentLevel + 1 then
      p1.raise "Too many indentation levels at line "
    else { p1 with indentLevel := newLevel, requiresIndent := false }

/-- The comment loop of `parseStatement`: consume up to the newline or the end. -/
def Parser.commentLoop : Nat → Parser → Parser
  | 0, p => p
  | n + 1, p =>
    if p.currentPos < p.code.length ∧ p.code.getD p.currentPos nul ≠ nl then
      Parser.commentLoop n { p with currentPos := p.currentPos + 1 }
    else p

/-- The call `code.find(c, pos)`: the first index at or after `pos` that holds `c`, `none` for
`string::npos`. -/
def find (code : List Char) (c : Char) (pos : Nat) : Option Nat :=
  if (code.drop pos).indexOf c < (code.drop pos).length then
    some (pos + (code.drop pos).indexOf c)
  else none

/-- The call `code.substr(pos, len)`. -/
def substr (code : List Char) (pos len : Nat) : List Char := (code.drop pos).take len

/-- The bracket loop of `parseStatement` over the characters of the line, with the stack
`brackets` (top first).  The result is the parser after an early `return` with an error, or the
stack left when the line is used up. -/
def Parser.bracketLoop (p : Parser) : List Char → List Char → Parser ⊕ List Char
  | brackets, [] => Sum.inr brackets
  | brackets, c :: line =>
    if c = '(' ∨ c = '[' ∨ c = Char.ofNat 123 then Parser.bracketLoop p (c :: brackets) line
    else if c = ')' ∨ c = ']' ∨ c = Char.ofNat 125 then
      match brackets with
      | [] => Sum.inl (p.raise "Unmatched closing bracket at line ")
      | opener :: popped =>
        if (c = ')' ∧ opener ≠ '(') ∨ (c = ']' ∧ opener ≠ '[') ∨
            (c = Char.ofNat 125 ∧ opener ≠ Char.ofNat 123) then
          Sum.inl (p.raise "Mismatched brackets at line ")
        else Parser.bracketLoop p popped line
    else Parser.bracketLoop p brackets line

/-- The method `Parser::parseStatement`, up to the table bookkeeping. -/
def Parser.parseStatement (p : Parser) : Parser :=
  let p1 := p.skipWhitespace
  if p1.currentPos ≥ p1.code.length then p1
  else if p1.code.getD p1.currentPos nul = '#' then
    Parser.commentLoop (p1.code.length - p1.currentPos) p1
  else
    let lineStart := p1.currentPos
    let lineEnd := match find p1.code nl p1.currentPos with
      | some i => i
      | none => p1.code.length
    let line := substr p1.code lineStart (lineEnd - lineStart)
    match Parser.bracketLoop p1 [] line with
    | Sum.inl failed => failed
    | Sum.inr brackets =>
      if brackets ≠ [] then p1.raise "Unclosed bracket at line "
      else
        let p2 := { p1 with currentPos := lineEnd }
        if p2.currentPos < p2.code.length then
          { p2 with currentPos := p2.currentPos + 1, currentLine := p2.currentLine + 1 }
        else p2

/-- The method `Parser::parse`: the loop `while (currentPos < code.length() && !error)`, with
`fuel` bounding the number of iterations; `none` when the fuel runs out.  The tables printed
after the loop are output only. -/
def Parser.parse : Nat → Parser → Option Parser
  | 0, _ => none
  | fuel + 1, p =>
    if p.currentPos < p.code.length ∧ p.error = false then
      let p1 := p.parseIndentation
      if p1.error = true then some p1
      else
        let p2 := p1.parseStatement
        if p2.error = true then some p2
        else Parser.parse fuel p2
    else some p

/-- The text from the parser position on. -/
def Parser.rest (p : Parser) : List Char := p.code.drop p.currentPos

/-! ### The specification's reading of the bracket check -/

/-- The three bracket faults. -/
inductive BracketFault
  | unmatched
  | mismatched
  | unclosed
  deriving DecidableEq, Repr

/-- The message the specification gives for each fault on line 1. -/
def BracketFault.text : BracketFault → String
  | BracketFault.unmatched => "Unmatched closing bracket at line 1"
  | BracketFault.mismatched => "Mismatched brackets at line 1"
  | BracketFault.unclosed => "Unclosed bracket at line 1"

/-- One of the openers `(`, `[` and the left brace. -/
def isOpener (c : Char) : Bool := c == '(' || c == '[' || c == Char.ofNat 123

/-- One of the closers `)`, `]` and the right brace. -/
def isCloser (c : Char) : Bool := c == ')' || c == ']' || c == Char.ofNat 125

/-- One of the six bracket characters. -/
def isBracket (c : Char) : Bool := isOpener c || isCloser c

/-- The closer `c` has the shape of the opener `o`. -/
def sameShape (o c : Char) : Bool :=
  (o == '(' && c == ')') || (o == '[' && c == ']') ||
    (o == Char.ofNat 123 && c == Char.ofNat 125)

/-- The specification's well-nesting test on a sequence of brackets, read left to right with
the openers not yet closed (most recent first): a closer with nothing open is `unmatched`, a
closer whose shape differs from the most recent unclosed opener is `mismatched`, and an opener
still open when the sequence ends is `unclosed`; `none` when the sequence is well nested. -/
def specBracketFault : List Char → List Char → Option BracketFault
  | [], [] => none
  | _ :: _, [] => some BracketFault.unclosed
  | unclosed, b :: bs =>
    if isOpener b then specBracketFault (b :: unclosed) bs
    else
      match unclosed with
      | [] => some BracketFault.unmatched
      | o :: os => if sameShape o b then specBracketFault os bs else some BracketFault.mismatched

/-- The bracket subsequence of a line. -/
def bracketsOf (line : List Char) : List Char := line.filter isBracket

/-! ### What one run of the parser can report -/

/-- The texts, up to the line number, of the errors the parser can report when `requiresIndent`
is false: every error site but `Expected indented block`. -/
def reportedTexts : List String :=
  ["Indentation must be a multiple of 4 spaces at line ",
   "Too many indentation levels at line ",
   "Unmatched closing bracket at line ",
   "Mismatched brackets at line ",
   "Unclosed bracket at line "]

/-- The texts of the two bracket errors raised inside the bracket loop and of the one raised
after it. -/
def bracketTexts : List String :=
  ["Unmatched closing bracket at line ",
   "Mismatched brackets at line ",
   "Unclosed bracket at line "]

/-- The state `q` comes after the state `p` in a run: same text, position and line not lower,
`requiresIndent` still false if it was, and the error fields either untouched or set by an
error site other than `Expected indented block` at a line not before the line of `p`. -/
def Step (p q : Parser) : Prop :=
  q.code = p.code ∧ p.currentPos ≤ q.currentPos ∧ p.currentLine ≤ q.currentLine ∧
  (p.requiresIndent = false → q.requiresIndent = false) ∧
  ((q.error = p.error ∧ q.errorOccurred = p.errorOccurred ∧
      q.errorMessage = p.errorMessage) ∨
    ∃ d n, d ∈ reportedTexts ∧ p.currentLine ≤ n ∧ q.error = true ∧
      q.errorOccurred = true ∧ q.errorMessage = d ++ toString n)

/-- The well-nested bracket sequences as a grammar: the empty sequence, and an opener, a
well-nested sequence, the closer of the same shape, and a well-nested sequence. -/
inductive Nested : List Char → Prop
  | nil : Nested []
  | wrap (o c : Char) (inner after : List Char) : sameShape o c = true → Nested inner →
      Nested after → Nested (o :: inner ++ c :: after)

/-- The sequence `bs` closes the unclosed openers `unclosed` (most recent first), with
well-nested sequences before, between and after the closers. -/
inductive Closes : List Char → List Char → Prop
  | done (w : List Char) : Nested w → Closes [] w
  | close (o c : Char) (os w t : List Char) : Nested w → sameShape o c = true → Closes os t →
      Closes (o :: os) (w ++ c :: t)

/-- The position is within the text and the line counter is at most one more than the
position, so for a text shorter than `intMax` the line counter is a value of an `int`. -/
def InRange (p : Parser) : Prop :=
  p.currentPos ≤ p.code.length ∧ p.currentLine ≤ 1 + p.currentPos

/-! ## The cursor -/

theorem isAtEnd_iff (s : Lexer) : isAtEnd s = true ↔ rest s = [] := by
  simp [isAtEnd, rest, List.drop_eq_nil_iff]

theorem isAtEnd_of_nil {s : Lexer} (h : rest s = []) : isAtEnd s = true :=
  (isAtEnd_iff s).2 h

theorem isAtEnd_of_cons {s : Lexer} {c : Char} {r : List Char} (h : rest s = c :: r) :
    isAtEnd s = false := by
  cases hb : isAtEnd s with
  | false => rfl
  | true => rw [(isAtEnd_iff s).1 hb] at h; cases h

theorem getD_of_cons {s : Lexer} {c : Char} {r : List Char} (h : rest s = c :: r) :
    s.input.getD s.position nul = c := by
  have h1 : (rest s).head? = some c := by rw [h]; rfl
  rw [rest, List.head?_drop] at h1
  simp [List.getD_eq_getElem?_getD, h1]

theorem remaining_eq (s : Lexer) : s.input.length - s.position = (rest s).length := by
  simp [rest]

theorem peek_of_cons {s : Lexer} {c : Char} {r : List Char} (h : rest s = c :: r) :
    peek s = c := by
  unfold peek
  rw [isAtEnd_of_cons h, getD_of_cons h]; rfl

theorem advance_of_cons {s : Lexer} {c : Char} {r : List Char} (h : rest s = c :: r) :
    advance s = (c, bump c s) := by
  unfold advance bump
  rw [isAtEnd_of_cons h, getD_of_cons h]
  by_cases hc : c = nl <;> simp [hc]

theorem advance_of_nil {s : Lexer} (h : rest s = []) : advance s = (nul, s) := by
  simp [advance, isAtEnd_of_nil h]

theorem rest_bump {s : Lexer} {c d : Char} {r : List Char} (h : rest s = c :: r) :
    rest (bump d s) = r := by
  have : (rest s).tail = r := by rw [h]; rfl
  rw [← this]
  unfold bump rest
  split <;> simp [List.tail_drop]

theorem bump_eq_shift {c : Char} (h : c ≠ nl) (s : Lexer) : bump c s = shift 1 s := by
  simp [bump, h, shift]

theorem rest_shift {s : Lexer} (k : Nat) : rest (shift k s) = (rest s).drop k := by
  simp [rest, shift, List.drop_drop, Nat.add_comm]

theorem shift_shift (j k : Nat) (s : Lexer) : shift k (shift j s) = shift (j + k) s := by
  simp [shift, Nat.add_assoc]

theorem shift_zero (s : Lexer) : shift 0 s = s := by
  simp [shift]

/-! ## Whitespace and the call cycle at the start of a line -/

theorem skipWhitespaceLoop_stop {s : Lexer} (h : ∀ c r, rest s = c :: r → ¬ isBlank c) (n : Nat) :
    skipWhitespaceLoop n s = s := by
  cases n with
  | zero => rfl
  | succ n =>
    unfold skipWhitespaceLoop
    cases hr : rest s with
    | nil => simp [isAtEnd_of_nil hr]
    | cons c r =>
      have := h c r hr
      simp only [isBlank] at this
      simp [isAtEnd_of_cons hr, peek_of_cons hr, this]

theorem skipWhitespace_stop {s : Lexer} (h : ∀ c r, rest s = c :: r → ¬ isBlank c) :
    skipWhitespace s = s := skipWhitespaceLoop_stop h _

theorem blank_ne_nl {c : Char} (h : isBlank c) : c ≠ nl := by
  rintro rfl; revert h; decide

theorem skipWhitespaceLoop_run (ws : List Char) (hws : ∀ c ∈ ws, isBlank c) :
    ∀ (n : Nat) (s : Lexer) (r : List Char), rest s = ws ++ r → ws.length ≤ n →
      skipWhitespaceLoop n s = skipWhitespaceLoop (n - ws.length) (shift ws.length s) := by
  induction ws with
  | nil => intro n s r _ _; simp [shift_zero]
  | cons c ws ih =>
    intro n s r hr hn
    cases n with
    | zero => simp at hn
    | succ n =>
      have hc : isBlank c := hws c (List.mem_cons_self _ _)
      have hr1 : rest s = c :: (ws ++ r) := hr
      rw [skipWhitespaceLoop]
      have hb : peek s = ' ' ∨ peek s = '\r' ∨ peek s = '\t' := by rw [peek_of_cons hr1]; exact hc
      simp only [isAtEnd_of_cons hr1, hb, if_true, Bool.false_eq_true, if_false]
      rw [advance_of_cons hr1, bump_eq_shift (blank_ne_nl hc)]
      have hr2 : rest (shift 1 s) = ws ++ r := by rw [rest_shift, hr1]; rfl
      rw [ih (fun c hc => hws c (List.mem_cons_of_mem _ hc)) n (shift 1 s) r hr2 (by simpa using hn)]
      rw [shift_shift]
      simp [Nat.add_comm]

theorem skipWhitespace_run {s : Lexer} (ws r : List Char) (hws : ∀ c ∈ ws, isBlank c)
    (hr : rest s = ws ++ r) (hstop : ∀ c r1, r = c :: r1 → ¬ isBlank c) :
    skipWhitespace s = shift ws.length s := by
  unfold skipWhitespace
  rw [remaining_eq, skipWhitespaceLoop_run ws hws _ s r hr (by simp [hr])]
  apply skipWhitespaceLoop_stop
  intro c r1 h1
  rw [rest_shift, hr] at h1
  simp at h1
  exact hstop c r1 h1

theorem indentLoop_stop {s : Lexer} (h : peek s ≠ ' ' ∧ peek s ≠ '\t') (n k : Nat) :
    indentLoop n k s = (k, s) := by
  cases n with
  | zero => rfl
  | succ n => simp [indentLoop, h.1, h.2]

theorem getNextToken_diverges {s : Lexer} {c : Char} {r : List Char}
    (hr : rest s = c :: r) (hcol : s.column = 1) (hc : ¬ isBlank c) (hnl : c ≠ nl)
    {st : List Nat} (hst : s.indentationStack = 0 :: st) :
    ∀ fuel, getNextToken fuel s = Outcome.outOfFuel := by
  intro fuel
  induction fuel with
  | zero => rfl
  | succ n ih =>
    have hsk : skipWhitespace s = s :=
      skipWhitespace_stop (fun c1 r1 h1 => by rw [hr] at h1; cases h1; exact hc)
    have hp : peek s ≠ ' ' ∧ peek s ≠ '\t' := by
      rw [peek_of_cons hr]; simp only [isBlank] at hc; tauto
    rw [getNextToken, getNextTokenBody]
    have hgo : s.column = 1 ∧ c ≠ nl := ⟨hcol, hnl⟩
    simp only [hsk, isAtEnd_of_cons hr, peek_of_cons hr, Bool.false_eq_true, if_false, if_pos hgo,
      handleIndentation, indentLoop_stop hp, hst]
    simpa using ih

/-! ## Call depth: a returned token does not depend on the depth permitted -/

theorem handleIndentation_mono {next next1 : Lexer → Outcome}
    (h : ∀ s, next s ≠ Outcome.outOfFuel → next1 s = next s) (s : Lexer)
    (hs : handleIndentation next s ≠ Outcome.outOfFuel) :
    handleIndentation next1 s = handleIndentation next s := by
  unfold handleIndentation at hs ⊢
  dsimp only at hs ⊢
  split
  · rfl
  · rename_i heq
    rw [heq] at hs
    dsimp only at hs
    split_ifs at hs ⊢ <;> first | rfl | exact h _ hs

theorem getNextTokenBody_cases (s0 : Lexer) :
    (∀ next, getNextTokenBody next s0 = handleIndentation next (skipWhitespace s0)) ∨
    (∀ next, getNextTokenBody next s0 = next (handleComment (skipWhitespace s0))) ∨
    ∀ next next1, getNextTokenBody next1 s0 = getNextTokenBody next s0 := by
  unfold getNextTokenBody
  dsimp only
  by_cases h1 : isAtEnd (skipWhitespace s0) = true
  · right; right; intro _ _; simp only [if_pos h1]
  by_cases h2 : (skipWhitespace s0).column = 1 ∧ peek (skipWhitespace s0) ≠ nl
  · left; intro _; simp only [if_neg h1, if_pos h2]
  by_cases h3 : isAlpha (peek (skipWhitespace s0)) = true
  · right; right; intro _ _; simp only [if_neg h1, if_neg h2, if_pos h3]
  by_cases h4 : isDigit (peek (skipWhitespace s0)) = true
  · right; right; intro _ _; simp only [if_neg h1, if_neg h2, if_neg h3, if_pos h4]
  by_cases h5 : peek (skipWhitespace s0) = nl
  · right; right; intro _ _; simp only [if_neg h1, if_neg h2, if_neg h3, if_neg h4, if_pos h5]
  by_cases h6 : peek (skipWhitespace s0) = '#'
  · right; left; intro _
    simp only [if_neg h1, if_neg h2, if_neg h3, if_neg h4, if_neg h5, if_pos h6]
  · right; right; intro _ _
    simp only [if_neg h1, if_neg h2, if_neg h3, if_neg h4, if_neg h5, if_neg h6]

theorem getNextTokenBody_mono {next next1 : Lexer → Outcome}
    (h : ∀ s, next s ≠ Outcome.outOfFuel → next1 s = next s) (s : Lexer)
    (hs : getNextTokenBody next s ≠ Outcome.outOfFuel) :
    getNextTokenBody next1 s = getNextTokenBody next s := by
  rcases getNextTokenBody_cases s with h1 | h1 | h1
  · rw [h1] at hs ⊢
    rw [h1]
    exact handleIndentation_mono h _ hs
  · rw [h1] at hs ⊢
    rw [h1]
    exact h _ hs
  · exact h1 next next1

theorem getNextToken_succ_of_returns :
    ∀ (fuel : Nat) (s : Lexer), getNextToken fuel s ≠ Outcome.outOfFuel →
      getNextToken (fuel + 1) s = getNextToken fuel s := by
  intro fuel
  induction fuel with
  | zero => intro s hs; exact absurd rfl hs
  | succ n ih =>
    intro s hs
    rw [getNextToken] at hs
    rw [getNextToken, getNextToken]
    exact getNextTokenBody_mono ih s hs

theorem getNextToken_mono {fuel : Nat} {s : Lexer} (hs : getNextToken fuel s ≠ Outcome.outOfFuel)
    (k : Nat) : getNextToken (fuel + k) s = getNextToken fuel s := by
  induction k with
  | zero => rfl
  | succ k ih =>
    have := getNextToken_succ_of_returns (fuel + k) s (by rw [ih]; exact hs)
    rw [← Nat.add_assoc, this, ih]

theorem alpha_not_blank {c : Char} (h : isAlpha c = true) : ¬ isBlank c := by
  intro hb
  rcases hb with rfl | rfl | rfl <;> simp [isAlpha] at h

theorem alpha_ne_nl {c : Char} (h : isAlpha c = true) : c ≠ nl := by
  rintro rfl; revert h; decide

/-! ## Claims C1 to C3: a fresh lexer on input that starts with a token -/

/-- Claim C1, evaluated on its own example: on the input `x = 5` followed by a
newline the first `getNextToken` call of a fresh lexer returns no token at any
call depth.  The cursor is at column 1 on a character other than newline, so
`getNextToken` calls `handleIndentation`, which counts width 0, finds it equal
to the stack top 0 and calls `getNextToken` again in the same state. -/
theorem getNextToken_never_returns_on_assignment :
    ∀ fuel, getNextToken fuel (Lexer.new "x = 5\n".toList) = Outcome.outOfFuel :=
  getNextToken_diverges (s := Lexer.new "x = 5\n".toList) rfl rfl (by decide) (by decide) rfl

/-- Claim C2, evaluated on a line that begins with four spaces: a fresh lexer on
a newline followed by `    y = 2` and a newline returns NEWLINE and then, with
the cursor at column 1 of the indented line and the stack top 0, the token
IDENTIFIER `y` at column 5; no INDENT token is returned and the stack is
still `[0]`. -/
theorem leading_spaces_give_no_indent :
    ∀ fuel,
      getNextToken (fuel + 1) (Lexer.new "\n    y = 2\n".toList) =
        Outcome.ok ⟨TokenType.NEWLINE, "\\n", 1, 1⟩
          { input := "\n    y = 2\n".toList, position := 1, line := 2, column := 1,
            indentationStack := [0], errorOccurred := false, errorMessage := "" } ∧
      getNextToken (fuel + 1)
          { input := "\n    y = 2\n".toList, position := 1, line := 2, column := 1,
            indentationStack := [0], errorOccurred := false, errorMessage := "" } =
        Outcome.ok ⟨TokenType.IDENTIFIER, "y", 2, 5⟩
          { input := "\n    y = 2\n".toList, position := 6, line := 2, column := 6,
            indentationStack := [0], errorOccurred := false, errorMessage := "" } := by
  intro fuel
  constructor <;> rfl

/-- Claim C3, on the code: for every input whose first character is a letter or
an underscore (so for every input that is one identifier) the first
`getNextToken` call of a fresh lexer returns no token at any call depth. -/
theorem identifier_input_never_tokenised (c : Char) (cs : List Char) (h : isAlpha c = true) :
    ∀ fuel, getNextToken fuel (Lexer.new (c :: cs)) = Outcome.outOfFuel :=
  getNextToken_diverges (s := Lexer.new (c :: cs)) rfl rfl (alpha_not_blank h) (alpha_ne_nl h) rfl

/-- The input `definition` of claim C3 yields no token within 1000 nested
calls, by `identifier_input_never_tokenised`. -/
theorem identifier_input_never_tokenised_witness :
    getNextToken 1000 (Lexer.new "definition".toList) = Outcome.outOfFuel :=
  identifier_input_never_tokenised 'd' "efinition".toList (by decide) 1000

/-! ## Claim C4: the number scanner -/

theorem digit_ne_nl {c : Char} (h : isDigit c = true) : c ≠ nl := by
  rintro rfl; revert h; decide

theorem digit_ne_dot {c : Char} (h : isDigit c = true) : c ≠ '.' := by
  rintro rfl; revert h; decide

theorem push_mk (l : List Char) (c : Char) : (String.mk l).push c = String.mk (l ++ [c]) := rfl

theorem numberLoop_stop (sc : Nat) {s : Lexer}
    (h : ∀ c r, rest s = c :: r → isNumberChar c = false) (n : Nat) (acc : String) (f : Bool) :
    numberLoop sc n acc f s = Sum.inr (acc, f, s) := by
  cases n with
  | zero => rfl
  | succ n =>
    rw [numberLoop]
    cases hr : rest s with
    | nil => simp [isAtEnd_of_nil hr]
    | cons c r =>
      have := h c r hr
      simp only [isNumberChar] at this
      simp [isAtEnd_of_cons hr, peek_of_cons hr, this]

theorem numberLoop_digits (sc : Nat) (ds : List Char) (hds : ∀ c ∈ ds, isDigit c = true) :
    ∀ (n : Nat) (s : Lexer) (r : List Char) (acc : List Char) (f : Bool),
      rest s = ds ++ r → ds.length ≤ n →
      numberLoop sc n (String.mk acc) f s =
        numberLoop sc (n - ds.length) (String.mk (acc ++ ds)) f (shift ds.length s) := by
  induction ds with
  | nil => intro n s r acc f _ _; simp [shift_zero]
  | cons c ds ih =>
    intro n s r acc f hr hn
    cases n with
    | zero => simp at hn
    | succ n =>
      have hc : isDigit c = true := hds c (List.mem_cons_self _ _)
      have hr1 : rest s = c :: (ds ++ r) := hr
      have hr2 : rest (shift 1 s) = ds ++ r := by rw [rest_shift, hr1]; rfl
      rw [numberLoop]
      simp only [isAtEnd_of_cons hr1, peek_of_cons hr1, hc, digit_ne_dot hc, Bool.not_false,
        Bool.true_or, Bool.and_self, if_true, if_false, advance_of_cons hr1,
        bump_eq_shift (digit_ne_nl hc), push_mk]
      rw [ih (fun c hc => hds c (List.mem_cons_of_mem _ hc)) n (shift 1 s) r _ f hr2
        (by simpa using hn), shift_shift]
      simp [Nat.add_comm]

theorem numberLoop_first_dot (sc : Nat) (n : Nat) {s : Lexer} {r : List Char} (acc : List Char)
    (hr : rest s = '.' :: r) :
    numberLoop sc (n + 1) (String.mk acc) false s =
      numberLoop sc n (String.mk (acc ++ ['.'])) true (shift 1 s) := by
  rw [numberLoop]
  simp only [isAtEnd_of_cons hr, peek_of_cons hr, advance_of_cons hr, push_mk]
  rw [bump_eq_shift (by decide)]
  simp

theorem numberLoop_second_dot (sc : Nat) (n : Nat) {s : Lexer} {r : List Char} (acc : String)
    (hr : rest s = '.' :: r) :
    numberLoop sc (n + 1) acc true s =
      Sum.inl (⟨TokenType.ERROR, acc, s.line, sc⟩,
        setError "Invalid number format: multiple decimal points" s) := by
  rw [numberLoop]
  simp only [isAtEnd_of_cons hr, peek_of_cons hr]
  simp [setError]

theorem dropWhile_head_false (p : Char → Bool) :
    ∀ (l : List Char) (c : Char) (r : List Char), l.dropWhile p = c :: r → p c = false := by
  intro l
  induction l with
  | nil => intro c r h; cases h
  | cons x l ih =>
    intro c r h
    by_cases hx : p x = true
    · rw [List.dropWhile_cons_of_pos hx] at h; exact ih c r h
    · rw [List.dropWhile_cons_of_neg hx] at h
      cases h; simpa using hx

theorem numberRun_digit {l : List Char} {c : Char} (hc : c ∈ l.takeWhile isNumberChar)
    (hdot : c ≠ '.') : isDigit c = true := by
  have := List.mem_takeWhile_imp hc
  simpa [isNumberChar, hdot] using this

theorem numberLoop_first_dot_le (sc : Nat) {n : Nat} {s : Lexer} {r : List Char} (acc : List Char)
    (hr : rest s = '.' :: r) (hn : 1 ≤ n) :
    numberLoop sc n (String.mk acc) false s =
      numberLoop sc (n - 1) (String.mk (acc ++ ['.'])) true (shift 1 s) := by
  obtain ⟨m, rfl⟩ : ∃ m, n = m + 1 := ⟨n - 1, by omega⟩
  exact numberLoop_first_dot sc m acc hr

theorem numberLoop_second_dot_le (sc : Nat) {n : Nat} {s : Lexer} {r : List Char} (acc : String)
    (hr : rest s = '.' :: r) (hn : 1 ≤ n) :
    numberLoop sc n acc true s =
      Sum.inl (⟨TokenType.ERROR, acc, s.line, sc⟩,
        setError "Invalid number format: multiple decimal points" s) := by
  obtain ⟨m, rfl⟩ : ∃ m, n = m + 1 := ⟨n - 1, by omega⟩
  exact numberLoop_second_dot sc m acc hr

theorem shift_eq (k : Nat) (s : Lexer) :
    shift k s = { s with position := s.position + k, column := s.column + k } := rfl

theorem handleNumber_no_dot {s : Lexer} {ds d : List Char} (hr : rest s = ds ++ d)
    (hds : ∀ c ∈ ds, isDigit c = true) (hd : ∀ c r, d = c :: r → isNumberChar c = false) :
    handleNumber s = (⟨TokenType.INTEGER, String.mk ds, s.line, s.column⟩, shift ds.length s) := by
  have hstop : ∀ c r, rest (shift ds.length s) = c :: r → isNumberChar c = false := by
    intro c r h; rw [rest_shift, hr] at h; simp at h; exact hd c r h
  unfold handleNumber
  dsimp only
  have h0 : ("" : String) = String.mk [] := rfl
  rw [remaining_eq, h0, numberLoop_digits _ ds hds _ s d [] false hr (by simp [hr]),
    numberLoop_stop _ hstop]
  rfl

theorem handleNumber_one_dot {s : Lexer} {a b d : List Char} (hr : rest s = (a ++ '.' :: b) ++ d)
    (ha : ∀ c ∈ a, isDigit c = true) (hb : ∀ c ∈ b, isDigit c = true)
    (hd : ∀ c r, d = c :: r → isNumberChar c = false) :
    handleNumber s =
      (⟨TokenType.FLOAT, String.mk (a ++ '.' :: b), s.line, s.column⟩,
        shift (a ++ '.' :: b).length s) := by
  have hr1 : rest s = a ++ ('.' :: (b ++ d)) := by simp [hr]
  have hr2 : rest (shift a.length s) = '.' :: (b ++ d) := by rw [rest_shift, hr1]; simp
  have hr3 : rest (shift 1 (shift a.length s)) = b ++ d := by rw [rest_shift, hr2]; rfl
  have hstop : ∀ c r, rest (shift b.length (shift 1 (shift a.length s))) = c :: r →
      isNumberChar c = false := by
    intro c r h; rw [rest_shift, hr3] at h; simp at h; exact hd c r h
  have hlen : (rest s).length = a.length + 1 + b.length + d.length := by
    rw [hr]; simp; omega
  unfold handleNumber
  dsimp only
  have h0 : ("" : String) = String.mk [] := rfl
  rw [remaining_eq, h0, numberLoop_digits _ a ha _ s _ [] false hr1 (by omega),
    numberLoop_first_dot_le _ _ hr2 (by omega),
    numberLoop_digits _ b hb _ _ d _ true hr3 (by omega),
    numberLoop_stop _ hstop]
  simp [shift_shift, shift, Nat.add_assoc, Nat.add_comm 1]

theorem handleNumber_two_dots {s : Lexer} {a b d : List Char}
    (hr : rest s = a ++ '.' :: (b ++ '.' :: d))
    (ha : ∀ c ∈ a, isDigit c = true) (hb : ∀ c ∈ b, isDigit c = true) :
    handleNumber s =
      (⟨TokenType.ERROR, String.mk (a ++ '.' :: b), s.line, s.column⟩,
        setError "Invalid number format: multiple decimal points"
          (shift (a ++ '.' :: b).length s)) := by
  have hr2 : rest (shift a.length s) = '.' :: (b ++ '.' :: d) := by rw [rest_shift, hr]; simp
  have hr3 : rest (shift 1 (shift a.length s)) = b ++ '.' :: d := by rw [rest_shift, hr2]; rfl
  have hr4 : rest (shift b.length (shift 1 (shift a.length s))) = '.' :: d := by
    rw [rest_shift, hr3]; simp
  have hlen : (rest s).length = a.length + 1 + b.length + 1 + d.length := by
    rw [hr]; simp; omega
  unfold handleNumber
  dsimp only
  have h0 : ("" : String) = String.mk [] := rfl
  rw [remaining_eq, h0, numberLoop_digits _ a ha _ s _ [] false hr (by omega),
    numberLoop_first_dot_le _ _ hr2 (by omega),
    numberLoop_digits _ b hb _ _ _ _ true hr3 (by omega),
    numberLoop_second_dot_le _ _ hr4 (by omega)]
  simp [shift_shift, shift, setError, Nat.add_assoc, Nat.add_comm 1]

theorem peek_setError (msg : String) (s : Lexer) : peek (setError msg s) = peek s := rfl

/-- Claim C4: let `numberRun s` be the longest prefix of the remaining input
made of digits and dots.  With no dot in it `handleNumber` returns an INTEGER
token, with exactly one dot a FLOAT token, in both cases with the whole run as
lexeme, the cursor advanced by the length of the run and no other field (the
error state included) changed.  With two or more dots the run is
`a ++ '.' :: (b ++ '.' :: c)` with no dot in `a` and `b`, the token is ERROR
with lexeme `a ++ '.' :: b`, the cursor has advanced by the length of that
lexeme and stands on the second dot, and the error state is set to the
multiple-decimal-points message at that line and column.  The statement holds
in every state, in particular when the cursor is on a digit. -/
theorem handleNumber_spec (s : Lexer) :
    (List.count '.' (numberRun s) = 0 →
      handleNumber s =
        (⟨TokenType.INTEGER, String.mk (numberRun s), s.line, s.column⟩,
          { s with position := s.position + (numberRun s).length,
                   column := s.column + (numberRun s).length })) ∧
    (List.count '.' (numberRun s) = 1 →
      handleNumber s =
        (⟨TokenType.FLOAT, String.mk (numberRun s), s.line, s.column⟩,
          { s with position := s.position + (numberRun s).length,
                   column := s.column + (numberRun s).length })) ∧
    (2 ≤ List.count '.' (numberRun s) →
      ∃ a b c, numberRun s = a ++ '.' :: (b ++ '.' :: c) ∧ '.' ∉ a ∧ '.' ∉ b ∧
        handleNumber s =
          (⟨TokenType.ERROR, String.mk (a ++ '.' :: b), s.line, s.column⟩,
            { s with position := s.position + (a ++ '.' :: b).length,
                     column := s.column + (a ++ '.' :: b).length,
                     errorOccurred := true,
                     errorMessage := "Line " ++ toString s.line ++ ", Column " ++
                       toString (s.column + (a ++ '.' :: b).length) ++ ": " ++
                       "Invalid number format: multiple decimal points" }) ∧
        peek (handleNumber s).2 = '.') := by
  have hsplit : rest s = numberRun s ++ (rest s).dropWhile isNumberChar :=
    (List.takeWhile_append_dropWhile isNumberChar (rest s)).symm
  have hD := dropWhile_head_false isNumberChar (rest s)
  have hdig : ∀ c ∈ numberRun s, c ≠ '.' → isDigit c = true :=
    fun c hc hdot => numberRun_digit hc hdot
  refine ⟨?_, ?_, ?_⟩
  · intro h0
    have hno : '.' ∉ numberRun s := List.count_eq_zero.1 h0
    have hds : ∀ c ∈ numberRun s, isDigit c = true :=
      fun c hc => hdig c hc (fun h => hno (h ▸ hc))
    exact handleNumber_no_dot hsplit hds hD
  · intro h1
    have hmem : '.' ∈ numberRun s := List.count_pos_iff.1 (by omega)
    obtain ⟨a, b, hab, ha⟩ := List.eq_append_cons_of_mem hmem
    have hb : '.' ∉ b := by
      apply List.count_eq_zero.1
      rw [hab, List.count_append, List.count_cons_self, List.count_eq_zero.2 ha] at h1
      omega
    have hda : ∀ c ∈ a, isDigit c = true := fun c hc =>
      hdig c (by rw [hab]; simp [hc]) (fun h => ha (h ▸ hc))
    have hdb : ∀ c ∈ b, isDigit c = true := fun c hc =>
      hdig c (by rw [hab]; simp [hc]) (fun h => hb (h ▸ hc))
    rw [hab] at hsplit ⊢
    exact handleNumber_one_dot hsplit hda hdb hD
  · intro h2
    have hmem : '.' ∈ numberRun s := List.count_pos_iff.1 (by omega)
    obtain ⟨a, b1, hab, ha⟩ := List.eq_append_cons_of_mem hmem
    have hmem1 : '.' ∈ b1 := by
      apply List.count_pos_iff.1
      rw [hab, List.count_append, List.count_cons_self, List.count_eq_zero.2 ha] at h2
      omega
    obtain ⟨b, c, hbc, hb⟩ := List.eq_append_cons_of_mem hmem1
    have hRun : numberRun s = a ++ '.' :: (b ++ '.' :: c) := by rw [hab, hbc]
    have hda : ∀ x ∈ a, isDigit x = true := fun x hx =>
      hdig x (by rw [hRun]; simp [hx]) (fun h => ha (h ▸ hx))
    have hdb : ∀ x ∈ b, isDigit x = true := fun x hx =>
      hdig x (by rw [hRun]; simp [hx]) (fun h => hb (h ▸ hx))
    obtain ⟨d, hr⟩ : ∃ d, rest s = a ++ '.' :: (b ++ '.' :: (c ++ d)) :=
      ⟨(rest s).dropWhile isNumberChar, by conv_lhs => rw [hsplit, hRun]; simp⟩
    have hres := handleNumber_two_dots hr hda hdb
    refine ⟨a, b, c, hRun, ha, hb, ?_, ?_⟩
    · rw [hres]; rfl
    · rw [hres, peek_setError]
      apply peek_of_cons (r := c ++ d)
      rw [rest_shift, hr]; simp

/-- The scans of `125+` and of `12.5+` from column 2, by `handleNumber_spec`. -/
theorem handleNumber_spec_witness :
    handleNumber { Lexer.new " 125+".toList with position := 1, column := 2 } =
        (⟨TokenType.INTEGER, "125", 1, 2⟩,
          { Lexer.new " 125+".toList with position := 4, column := 5 }) ∧
    handleNumber { Lexer.new " 12.5+".toList with position := 1, column := 2 } =
        (⟨TokenType.FLOAT, "12.5", 1, 2⟩,
          { Lexer.new " 12.5+".toList with position := 5, column := 6 }) :=
  ⟨(handleNumber_spec { Lexer.new " 125+".toList with position := 1, column := 2 }).1
      (by decide),
   (handleNumber_spec { Lexer.new " 12.5+".toList with position := 1, column := 2 }).2.1
      (by decide)⟩

/-- The scan of `1.2.3` stops on the second dot with an ERROR token `1.2`. -/
theorem handleNumber_three_parts :
    handleNumber { Lexer.new " 1.2.3".toList with position := 1, column := 2 } =
        (⟨TokenType.ERROR, "1.2", 1, 2⟩,
          { Lexer.new " 1.2.3".toList with
            position := 4, column := 5, errorOccurred := true,
            errorMessage := "Line 1, Column 5: Invalid number format: multiple decimal points" }) := by
  decide

/-! ## Claim C5: operators and delimiters -/

theorem matchChar_hit {s : Lexer} {c : Char} {r : List Char} (hr : rest s = c :: r) :
    matchChar c s = (true, shift 1 s) := by
  unfold matchChar
  rw [isAtEnd_of_cons hr, getD_of_cons hr]
  simp [shift]

theorem matchChar_miss {s : Lexer} {c : Char} (hr : ∀ r, rest s ≠ c :: r) :
    matchChar c s = (false, s) := by
  unfold matchChar
  cases h : rest s with
  | nil => simp [isAtEnd_of_nil h]
  | cons d r =>
    rw [isAtEnd_of_cons h, getD_of_cons h]
    have : d ≠ c := by rintro rfl; exact hr r h
    simp [this]

/-- Claim C5: for each of the 20 pairs of `operatorTable`, in every state whose
column is past 1 and whose remaining input starts with the lexeme (for the
one-character lexemes `=`, `<` and `>`: not followed by `=`), `getNextToken`
returns one token of the kind of the pair with that lexeme, at the current line
and at the column of the first character, and the only change of state is that
position and column have grown by the length of the lexeme. -/
theorem operator_token (p : String × TokenType) (hp : p ∈ operatorTable) (s : Lexer)
    (r : List Char) (hcol : 1 < s.column) (hr : rest s = p.1.toList ++ r)
    (hahead : p.1 = "=" ∨ p.1 = "<" ∨ p.1 = ">" → ∀ r1, r ≠ '=' :: r1) (fuel : Nat) :
    getNextToken (fuel + 1) s =
      Outcome.ok ⟨p.2, p.1, s.line, s.column⟩
        { s with position := s.position + p.1.length, column := s.column + p.1.length } := by
  have hcol1 : ∀ c : Char, ¬ (s.column = 1 ∧ c ≠ nl) := by intro c; omega
  rw [getNextToken]
  unfold operatorTable at hp
  fin_cases hp
  all_goals
    simp only [String.toList, List.cons_append, List.nil_append] at hr
    have hsk : skipWhitespace s = s :=
      skipWhitespace_stop (fun c1 r1 h1 => by rw [hr] at h1; cases h1; decide)
    unfold getNextTokenBody
    dsimp only
    rw [hsk, isAtEnd_of_cons hr, peek_of_cons hr, if_neg (by decide), if_neg (hcol1 _)]
    have hb := rest_shift (s := s) 1
    rw [hr] at hb
    simp only [List.drop_succ_cons, List.drop_zero] at hb
    first
      | (simp +decide [single, advance_of_cons hr, bump, shift, String.length]; done)
      | (have hm := matchChar_hit hb
         simp +decide only [double, advance_of_cons hr, bump_eq_shift, hm, ne_eq, not_false_eq_true,
           if_true]
         simp +decide [shift, shift_shift, String.length, Nat.add_assoc])
      | (have hm : matchChar '=' (shift 1 s) = (false, shift 1 s) :=
           matchChar_miss (fun r1 h1 => hahead (by simp) r1 (by rw [← hb, h1]))
         simp +decide only [double, advance_of_cons hr, bump_eq_shift, hm, ne_eq, not_false_eq_true,
           if_false]
         simp +decide [shift, String.length])

/-- The operator `<` in `a < b`, by `operator_token`. -/
theorem operator_token_witness :
    getNextToken 1 { Lexer.new "a < b".toList with position := 2, column := 3 } =
      Outcome.ok ⟨TokenType.LESS_THAN, "<", 1, 3⟩
        { Lexer.new "a < b".toList with position := 3, column := 4 } :=
  operator_token ("<", TokenType.LESS_THAN) (by decide)
    { Lexer.new "a < b".toList with position := 2, column := 3 } " b".toList (by decide) rfl
    (fun _ r1 h => by cases h) 0

/-! ## Claim C6: the string scanner -/

theorem stringLoop_run (sc : Nat) (q : Char) (cs : List Char)
    (hcs : ∀ c ∈ cs, isStringChar q c = true) :
    ∀ (n : Nat) (s : Lexer) (r : List Char) (acc : List Char),
      rest s = cs ++ r → cs.length ≤ n →
      stringLoop sc q n (String.mk acc) s =
        stringLoop sc q (n - cs.length) (String.mk (acc ++ cs)) (shift cs.length s) := by
  induction cs with
  | nil => intro n s r acc _ _; simp [shift_zero]
  | cons c cs ih =>
    intro n s r acc hr hn
    cases n with
    | zero => simp at hn
    | succ n =>
      have hc := hcs c (List.mem_cons_self _ _)
      simp only [isStringChar, Bool.and_eq_true, decide_eq_true_eq] at hc
      have hr1 : rest s = c :: (cs ++ r) := hr
      have hr2 : rest (shift 1 s) = cs ++ r := by rw [rest_shift, hr1]; rfl
      rw [stringLoop]
      simp only [isAtEnd_of_cons hr1, peek_of_cons hr1, hc.1, hc.2, Bool.not_false, ne_eq,
        not_false_eq_true, decide_True, Bool.and_self, if_true, if_false, advance_of_cons hr1,
        bump_eq_shift hc.2, push_mk]
      rw [ih (fun c hc => hcs c (List.mem_cons_of_mem _ hc)) n (shift 1 s) r _ hr2
        (by simpa using hn), shift_shift]
      simp [Nat.add_comm]

theorem stringLoop_quote (sc : Nat) {q : Char} {s : Lexer} {r : List Char} (hr : rest s = q :: r)
    (n : Nat) (acc : String) : stringLoop sc q n acc s = Sum.inr (acc, s) := by
  cases n with
  | zero => rfl
  | succ n => rw [stringLoop]; simp [isAtEnd_of_cons hr, peek_of_cons hr]

theorem stringLoop_end (sc : Nat) (q : Char) {s : Lexer} (hr : rest s = [])
    (n : Nat) (acc : String) : stringLoop sc q n acc s = Sum.inr (acc, s) := by
  cases n with
  | zero => rfl
  | succ n => rw [stringLoop]; simp [isAtEnd_of_nil hr]

theorem stringLoop_newline (sc : Nat) {q : Char} (hq : q ≠ nl) {s : Lexer} {r : List Char}
    (hr : rest s = nl :: r) {n : Nat} (hn : 1 ≤ n) (acc : String) :
    stringLoop sc q n acc s =
      Sum.inl (⟨TokenType.ERROR, acc, s.line, sc⟩, setError "Unterminated string literal" s) := by
  obtain ⟨m, rfl⟩ : ∃ m, n = m + 1 := ⟨n - 1, by omega⟩
  rw [stringLoop]
  simp [isAtEnd_of_cons hr, peek_of_cons hr, Ne.symm hq, setError]

theorem handleString_closed {q : Char} (hq : q ≠ nl) {s : Lexer} {cs r : List Char}
    (hr : rest s = q :: (cs ++ q :: r)) (hcs : ∀ c ∈ cs, isStringChar q c = true) :
    handleString s =
      (⟨TokenType.STRING, String.mk cs, s.line, s.column⟩, shift (1 + cs.length + 1) s) := by
  have hr1 : rest (shift 1 s) = cs ++ q :: r := by rw [rest_shift, hr]; rfl
  have hr2 : rest (shift cs.length (shift 1 s)) = q :: r := by rw [rest_shift, hr1]; simp
  unfold handleString
  dsimp only
  have h0 : ("" : String) = String.mk [] := rfl
  rw [advance_of_cons hr, bump_eq_shift hq]
  dsimp only
  rw [remaining_eq, h0, stringLoop_run _ q cs hcs _ _ _ [] hr1 (by simp [hr1]),
    stringLoop_quote _ hr2]
  dsimp only
  rw [isAtEnd_of_cons hr2, advance_of_cons hr2, bump_eq_shift hq, shift_shift, shift_shift]
  rfl

theorem handleString_newline {q : Char} (hq : q ≠ nl) {s : Lexer} {cs r : List Char}
    (hr : rest s = q :: (cs ++ nl :: r)) (hcs : ∀ c ∈ cs, isStringChar q c = true) :
    handleString s =
      (⟨TokenType.ERROR, String.mk cs, s.line, s.column⟩,
        setError "Unterminated string literal" (shift (1 + cs.length) s)) := by
  have hr1 : rest (shift 1 s) = cs ++ nl :: r := by rw [rest_shift, hr]; rfl
  have hr2 : rest (shift cs.length (shift 1 s)) = nl :: r := by rw [rest_shift, hr1]; simp
  unfold handleString
  dsimp only
  have h0 : ("" : String) = String.mk [] := rfl
  rw [advance_of_cons hr, bump_eq_shift hq]
  dsimp only
  rw [remaining_eq, h0, stringLoop_run _ q cs hcs _ _ _ [] hr1 (by simp [hr1]),
    stringLoop_newline _ hq hr2 (by rw [hr1]; simp), shift_shift]
  rfl

theorem handleString_end {q : Char} (hq : q ≠ nl) {s : Lexer} {cs : List Char}
    (hr : rest s = q :: cs) (hcs : ∀ c ∈ cs, isStringChar q c = true) :
    handleString s =
      (⟨TokenType.ERROR, String.mk cs, s.line, s.column⟩,
        setError "Unterminated string literal" (shift (1 + cs.length) s)) := by
  have hr1 : rest (shift 1 s) = cs ++ [] := by rw [rest_shift, hr]; simp
  have hr2 : rest (shift cs.length (shift 1 s)) = [] := by rw [rest_shift, hr1]; simp
  unfold handleString
  dsimp only
  have h0 : ("" : String) = String.mk [] := rfl
  rw [advance_of_cons hr, bump_eq_shift hq]
  dsimp only
  rw [remaining_eq, h0, stringLoop_run _ q cs hcs _ _ _ [] hr1 (by simp [hr1]),
    stringLoop_end _ _ hr2]
  dsimp only
  rw [isAtEnd_of_nil hr2, shift_shift]
  rfl

/-- Claim C6: in a state whose cursor is on a quote character `q` (single or
double), let `stringRun s` be the longest run after the opening quote without
`q` and without newline, and `stringTail s` the input after that run.  If the
tail starts with `q`, `handleString` returns a STRING token whose lexeme is
exactly the run, at the line and column of the opening quote; the cursor is
just after the closing quote and nothing else (the error state included) has
changed.  If the tail is empty or starts with a newline, the token is ERROR
with the run as lexeme, the error state is set to the unterminated-string
message at the line and column reached, and the remaining input is the tail: a
newline is not consumed.  These cases are exhaustive. -/
theorem handleString_spec (s : Lexer) (hq : peek s = squote ∨ peek s = dquote)
    (hne : isAtEnd s = false) :
    ((∃ r, stringTail s = peek s :: r) →
      handleString s =
        (⟨TokenType.STRING, String.mk (stringRun s), s.line, s.column⟩,
          { s with position := s.position + (1 + (stringRun s).length + 1),
                   column := s.column + (1 + (stringRun s).length + 1) })) ∧
    ((stringTail s = [] ∨ ∃ r, stringTail s = nl :: r) →
      handleString s =
        (⟨TokenType.ERROR, String.mk (stringRun s), s.line, s.column⟩,
          { s with position := s.position + (1 + (stringRun s).length),
                   column := s.column + (1 + (stringRun s).length),
                   errorOccurred := true,
                   errorMessage := "Line " ++ toString s.line ++ ", Column " ++
                     toString (s.column + (1 + (stringRun s).length)) ++ ": " ++
                     "Unterminated string literal" }) ∧
      rest (handleString s).2 = stringTail s) ∧
    ((∃ r, stringTail s = peek s :: r) ∨ stringTail s = [] ∨ ∃ r, stringTail s = nl :: r) := by
  obtain ⟨q, body, hr⟩ : ∃ q body, rest s = q :: body := by
    cases h : rest s with
    | nil => rw [isAtEnd_of_nil h] at hne; cases hne
    | cons q body => exact ⟨q, body, rfl⟩
  have hpk : peek s = q := peek_of_cons hr
  have hqnl : q ≠ nl := by
    rw [hpk] at hq
    rcases hq with rfl | rfl <;> decide
  have hrun : stringRun s = body.takeWhile (isStringChar q) := by
    unfold stringRun; rw [hr, hpk]; rfl
  have htail : stringTail s = body.dropWhile (isStringChar q) := by
    unfold stringTail; rw [hr, hpk]; rfl
  have hsplit : body = stringRun s ++ stringTail s := by
    rw [hrun, htail, List.takeWhile_append_dropWhile]
  have hcs : ∀ c ∈ stringRun s, isStringChar q c = true := by
    intro c hc; rw [hrun] at hc; exact List.mem_takeWhile_imp hc
  refine ⟨?_, ?_, ?_⟩
  · rintro ⟨r, ht⟩
    rw [hpk] at ht
    have hr1 : rest s = q :: (stringRun s ++ q :: r) := by rw [hr, ← ht, ← hsplit]
    rw [handleString_closed hqnl hr1 hcs]
    rfl
  · intro h
    have hres : handleString s =
        (⟨TokenType.ERROR, String.mk (stringRun s), s.line, s.column⟩,
          setError "Unterminated string literal" (shift (1 + (stringRun s).length) s)) := by
      rcases h with h | ⟨r, h⟩
      · exact handleString_end hqnl (by rw [hr, hsplit, h]; simp) hcs
      · have hr1 : rest s = q :: (stringRun s ++ nl :: r) := by rw [hr, ← h, ← hsplit]
        exact handleString_newline hqnl hr1 hcs
    refine ⟨by rw [hres]; rfl, ?_⟩
    rw [hres]
    show rest (shift (1 + (stringRun s).length) s) = stringTail s
    rw [rest_shift, hr]
    conv_lhs => rw [hsplit]
    simp [Nat.add_comm 1]
  · cases ht : stringTail s with
    | nil => exact Or.inr (Or.inl rfl)
    | cons c r =>
      have hc : isStringChar q c = false :=
        dropWhile_head_false (isStringChar q) body c r (by rw [← htail, ht])
      by_cases hcq : c = q
      · exact Or.inl ⟨r, by rw [hpk, hcq]⟩
      · have : c = nl := by simpa [isStringChar, hcq] using hc
        exact Or.inr (Or.inr ⟨r, by rw [this]⟩)

/-- The strings `'a"b' x` (closed) and `'abc` (open at end of input), by
`handleString_spec`. -/
theorem handleString_spec_witness :
    handleString { Lexer.new " 'a\"b' x".toList with position := 1, column := 2 } =
        (⟨TokenType.STRING, "a\"b", 1, 2⟩,
          { Lexer.new " 'a\"b' x".toList with position := 6, column := 7 }) ∧
    handleString (Lexer.new "'abc".toList) =
        (⟨TokenType.ERROR, "abc", 1, 1⟩,
          { Lexer.new "'abc".toList with
            position := 4, column := 5, errorOccurred := true,
            errorMessage := "Line 1, Column 5: Unterminated string literal" }) :=
  ⟨(handleString_spec { Lexer.new " 'a\"b' x".toList with position := 1, column := 2 }
      (by decide) (by decide)).1 ⟨" x".toList, by decide⟩,
   ((handleString_spec (Lexer.new "'abc".toList) (by decide) (by decide)).2.1
      (Or.inl (by decide))).1⟩

/-! ## Error discipline of one call -/

theorem errorDiscipline_ite {e : Bool} {m : String} {c : Prop} [Decidable c] {a b : Outcome}
    (ha : c → ErrorDiscipline e m a) (hb : ¬ c → ErrorDiscipline e m b) :
    ErrorDiscipline e m (if c then a else b) := by
  by_cases h : c
  · rw [if_pos h]; exact ha h
  · rw [if_neg h]; exact hb h

theorem errorDiscipline_plain {e : Bool} {m : String} {t : Token} {s1 : Lexer}
    (ht : t.type ≠ TokenType.ERROR) (he : s1.errorOccurred = e) (hm : s1.errorMessage = m) :
    ErrorDiscipline e m (Outcome.ok t s1) := by
  intro t1 s2 h
  cases h
  exact ⟨fun _ => ⟨he, hm⟩, fun h => absurd h ht⟩

theorem errorDiscipline_error {e : Bool} {m : String} {t : Token} {s1 : Lexer}
    (ht : t.type = TokenType.ERROR) (he : s1.errorOccurred = true) (hm : MessageOk t s1) :
    ErrorDiscipline e m (Outcome.ok t s1) := by
  intro t1 s2 h
  cases h
  exact ⟨fun h => absurd ht h, fun _ => ⟨he, hm⟩⟩

theorem advance_error (s : Lexer) :
    (advance s).2.errorOccurred = s.errorOccurred ∧ (advance s).2.errorMessage = s.errorMessage := by
  unfold advance
  by_cases h1 : isAtEnd s = true
  · rw [if_pos h1]; exact ⟨rfl, rfl⟩
  · rw [if_neg h1]
    dsimp only
    by_cases h2 : s.input.getD s.position nul = nl
    · rw [if_pos h2]; exact ⟨rfl, rfl⟩
    · rw [if_neg h2]; exact ⟨rfl, rfl⟩

theorem matchChar_error (c : Char) (s : Lexer) :
    (matchChar c s).2.errorOccurred = s.errorOccurred ∧
      (matchChar c s).2.errorMessage = s.errorMessage := by
  unfold matchChar
  by_cases h1 : isAtEnd s = true ∨ s.input.getD s.position nul ≠ c
  · rw [if_pos h1]; exact ⟨rfl, rfl⟩
  · rw [if_neg h1]; exact ⟨rfl, rfl⟩

theorem skipWhitespaceLoop_error (n : Nat) : ∀ s : Lexer,
    (skipWhitespaceLoop n s).errorOccurred = s.errorOccurred ∧
      (skipWhitespaceLoop n s).errorMessage = s.errorMessage := by
  induction n with
  | zero => intro s; exact ⟨rfl, rfl⟩
  | succ n ih =>
    intro s
    rw [skipWhitespaceLoop]
    dsimp only
    by_cases h1 : isAtEnd s = true
    · rw [if_pos h1]; exact ⟨rfl, rfl⟩
    · rw [if_neg h1]
      by_cases h2 : peek s = ' ' ∨ peek s = '\r' ∨ peek s = '\t'
      · rw [if_pos h2, (ih _).1, (ih _).2]; exact advance_error s
      · rw [if_neg h2]; exact ⟨rfl, rfl⟩

theorem skipWhitespace_error (s : Lexer) :
    (skipWhitespace s).errorOccurred = s.errorOccurred ∧
      (skipWhitespace s).errorMessage = s.errorMessage := skipWhitespaceLoop_error _ s

theorem commentLoop_error (n : Nat) : ∀ s : Lexer,
    (commentLoop n s).errorOccurred = s.errorOccurred ∧
      (commentLoop n s).errorMessage = s.errorMessage := by
  induction n with
  | zero => intro s; exact ⟨rfl, rfl⟩
  | succ n ih =>
    intro s
    rw [commentLoop]
    by_cases h1 : (!isAtEnd s && decide (peek s ≠ nl)) = true
    · rw [if_pos h1, (ih _).1, (ih _).2]; exact advance_error s
    · rw [if_neg h1]; exact ⟨rfl, rfl⟩

theorem handleComment_error (s : Lexer) :
    (handleComment s).errorOccurred = s.errorOccurred ∧
      (handleComment s).errorMessage = s.errorMessage := commentLoop_error _ s

theorem indentLoop_error (n : Nat) : ∀ (k : Nat) (s : Lexer),
    (indentLoop n k s).2.errorOccurred = s.errorOccurred ∧
      (indentLoop n k s).2.errorMessage = s.errorMessage := by
  induction n with
  | zero => intro k s; exact ⟨rfl, rfl⟩
  | succ n ih =>
    intro k s
    rw [indentLoop]
    by_cases h1 : peek s = ' ' ∨ peek s = '\t'
    · rw [if_pos h1, (ih _ _).1, (ih _ _).2]; exact advance_error s
    · rw [if_neg h1]; exact ⟨rfl, rfl⟩

theorem identifierLoop_error (n : Nat) : ∀ (acc : String) (s : Lexer),
    (identifierLoop n acc s).2.errorOccurred = s.errorOccurred ∧
      (identifierLoop n acc s).2.errorMessage = s.errorMessage := by
  induction n with
  | zero => intro k s; exact ⟨rfl, rfl⟩
  | succ n ih =>
    intro k s
    rw [identifierLoop]
    by_cases h1 : (!isAtEnd s && isAlphaNumeric (peek s)) = true
    · rw [if_pos h1, (ih _ _).1, (ih _ _).2]; exact advance_error s
    · rw [if_neg h1]; exact ⟨rfl, rfl⟩

theorem ite_ne_error {c : Prop} [Decidable c] {a b : TokenType} (ha : a ≠ TokenType.ERROR)
    (hb : b ≠ TokenType.ERROR) : (if c then a else b) ≠ TokenType.ERROR := by
  by_cases h : c
  · rw [if_pos h]; exact ha
  · rw [if_neg h]; exact hb

theorem checkKeyword_ne_error (x : String) : checkKeyword x ≠ TokenType.ERROR := by
  unfold checkKeyword
  repeat' apply ite_ne_error
  all_goals intro h; cases h

theorem errorDiscipline_of_identifier (s : Lexer) :
    ErrorDiscipline s.errorOccurred s.errorMessage
      (Outcome.ok (handleIdentifier s).1 (handleIdentifier s).2) :=
  errorDiscipline_plain (checkKeyword_ne_error _) (identifierLoop_error _ _ s).1
    (identifierLoop_error _ _ s).2

theorem numberLoop_discipline (sc : Nat) (n : Nat) : ∀ (acc : String) (f : Bool) (s : Lexer),
    (∀ r, numberLoop sc n acc f s = Sum.inl r →
      r.1.type = TokenType.ERROR ∧ r.2.errorOccurred = true ∧
        r.2.errorMessage =
          errorText r.2.line r.2.column "Invalid number format: multiple decimal points") ∧
    (∀ r, numberLoop sc n acc f s = Sum.inr r →
      r.2.2.errorOccurred = s.errorOccurred ∧ r.2.2.errorMessage = s.errorMessage) := by
  induction n with
  | zero =>
    intro acc f s
    refine ⟨fun r h => (by cases h), fun r h => ?_⟩
    cases h; exact ⟨rfl, rfl⟩
  | succ n ih =>
    intro acc f s
    rw [numberLoop]
    by_cases h1 : (!isAtEnd s && (isDigit (peek s) || decide (peek s = '.'))) = true
    · rw [if_pos h1]
      dsimp only
      have hstep : ∀ acc1 f1,
          (∀ r, numberLoop sc n acc1 f1 (advance s).2 = Sum.inl r →
            r.1.type = TokenType.ERROR ∧ r.2.errorOccurred = true ∧
              r.2.errorMessage =
                errorText r.2.line r.2.column "Invalid number format: multiple decimal points") ∧
          (∀ r, numberLoop sc n acc1 f1 (advance s).2 = Sum.inr r →
            r.2.2.errorOccurred = s.errorOccurred ∧ r.2.2.errorMessage = s.errorMessage) := by
        intro acc1 f1
        refine ⟨(ih acc1 f1 _).1, fun r h => ?_⟩
        have := (ih acc1 f1 _).2 r h
        exact ⟨this.1.trans (advance_error s).1, this.2.trans (advance_error s).2⟩
      by_cases h2 : peek s = '.'
      · rw [if_pos h2]
        by_cases h3 : f = true
        · rw [if_pos h3]
          refine ⟨fun r h => ?_, fun r h => by cases h⟩
          cases h; exact ⟨rfl, rfl, rfl⟩
        · rw [if_neg h3]; exact hstep _ _
      · rw [if_neg h2]; exact hstep _ _
    · rw [if_neg h1]
      refine ⟨fun r h => (by cases h), fun r h => ?_⟩
      cases h; exact ⟨rfl, rfl⟩

theorem errorDiscipline_of_number (s : Lexer) :
    ErrorDiscipline s.errorOccurred s.errorMessage
      (Outcome.ok (handleNumber s).1 (handleNumber s).2) := by
  have hd := numberLoop_discipline s.column (s.input.length - s.position) "" false s
  unfold handleNumber
  dsimp only
  cases hl : numberLoop s.column (s.input.length - s.position) "" false s with
  | inl r =>
    obtain ⟨h1, h2, h3⟩ := hd.1 r hl
    exact errorDiscipline_error h1 h2 (Or.inl ⟨_, Or.inl rfl, h3⟩)
  | inr r =>
    obtain ⟨h1, h2⟩ := hd.2 r hl
    refine errorDiscipline_plain ?_ h1 h2
    show (if r.2.1 = true then TokenType.FLOAT else TokenType.INTEGER) ≠ TokenType.ERROR
    exact ite_ne_error (by decide) (by decide)

theorem stringLoop_discipline (sc : Nat) (q : Char) (n : Nat) : ∀ (acc : String) (s : Lexer),
    (∀ r, stringLoop sc q n acc s = Sum.inl r →
      r.1.type = TokenType.ERROR ∧ r.2.errorOccurred = true ∧
        r.2.errorMessage = errorText r.2.line r.2.column "Unterminated string literal") ∧
    (∀ r, stringLoop sc q n acc s = Sum.inr r →
      r.2.errorOccurred = s.errorOccurred ∧ r.2.errorMessage = s.errorMessage) := by
  induction n with
  | zero =>
    intro acc s
    refine ⟨fun r h => (by cases h), fun r h => ?_⟩
    cases h; exact ⟨rfl, rfl⟩
  | succ n ih =>
    intro acc s
    rw [stringLoop]
    by_cases h1 : (!isAtEnd s && decide (peek s ≠ q)) = true
    · rw [if_pos h1]
      by_cases h2 : peek s = nl
      · rw [if_pos h2]
        refine ⟨fun r h => ?_, fun r h => by cases h⟩
        cases h; exact ⟨rfl, rfl, rfl⟩
      · rw [if_neg h2]
        refine ⟨(ih _ _).1, fun r h => ?_⟩
        have := (ih _ _).2 r h
        exact ⟨this.1.trans (advance_error s).1, this.2.trans (advance_error s).2⟩
    · rw [if_neg h1]
      refine ⟨fun r h => (by cases h), fun r h => ?_⟩
      cases h; exact ⟨rfl, rfl⟩

theorem errorDiscipline_of_string (s : Lexer) :
    ErrorDiscipline s.errorOccurred s.errorMessage
      (Outcome.ok (handleString s).1 (handleString s).2) := by
  have hd := stringLoop_discipline s.column (advance s).1
    ((advance s).2.input.length - (advance s).2.position) "" (advance s).2
  unfold handleString
  dsimp only
  cases hl : stringLoop s.column (advance s).1
      ((advance s).2.input.length - (advance s).2.position) "" (advance s).2 with
  | inl r =>
    obtain ⟨h1, h2, h3⟩ := hd.1 r hl
    exact errorDiscipline_error h1 h2 (Or.inl ⟨_, Or.inr (Or.inl rfl), h3⟩)
  | inr r =>
    obtain ⟨h1, h2⟩ := hd.2 r hl
    dsimp only
    by_cases h3 : isAtEnd r.2 = true
    · rw [if_pos h3]
      exact errorDiscipline_error rfl rfl (Or.inl ⟨_, Or.inr (Or.inl rfl), rfl⟩)
    · rw [if_neg h3]
      exact errorDiscipline_plain (by intro h; cases h)
        ((advance_error r.2).1.trans (h1.trans (advance_error s).1))
        ((advance_error r.2).2.trans (h2.trans (advance_error s).2))

theorem errorDiscipline_of_single {ty : TokenType} (hty : ty ≠ TokenType.ERROR) (txt : String)
    (sc : Nat) (s : Lexer) :
    ErrorDiscipline s.errorOccurred s.errorMessage (single ty txt sc s) :=
  errorDiscipline_plain hty (advance_error s).1 (advance_error s).2

theorem errorDiscipline_of_double {two one : TokenType} (h2 : two ≠ TokenType.ERROR)
    (h1 : one ≠ TokenType.ERROR) (twoText oneText : String) (sc : Nat) (s : Lexer) :
    ErrorDiscipline s.errorOccurred s.errorMessage (double two twoText one oneText sc s) := by
  have he := (matchChar_error '=' (advance s).2).1.trans (advance_error s).1
  have hm := (matchChar_error '=' (advance s).2).2.trans (advance_error s).2
  unfold double
  exact errorDiscipline_ite (fun _ => errorDiscipline_plain h2 he hm)
    (fun _ => errorDiscipline_plain h1 he hm)

theorem errorDiscipline_of_indentation {next : Lexer → Outcome}
    (hnext : ∀ s, ErrorDiscipline s.errorOccurred s.errorMessage (next s)) (s : Lexer) :
    ErrorDiscipline s.errorOccurred s.errorMessage (handleIndentation next s) := by
  have he := (indentLoop_error (s.input.length - s.position) 0 s).1
  have hm := (indentLoop_error (s.input.length - s.position) 0 s).2
  unfold handleIndentation
  dsimp only
  split
  · intro t s1 h; cases h
  · refine errorDiscipline_ite (fun _ => errorDiscipline_plain (by intro h; cases h) he hm) (fun _ => ?_)
    refine errorDiscipline_ite (fun _ => errorDiscipline_plain (by intro h; cases h) he hm) (fun _ => ?_)
    have := hnext (indentLoop (s.input.length - s.position) 0 s).2
    rwa [he, hm] at this

theorem rest_of_not_atEnd {s : Lexer} (h : isAtEnd s = false) : ∃ r, rest s = peek s :: r := by
  cases hr : rest s with
  | nil => rw [isAtEnd_of_nil hr] at h; cases h
  | cons c r => exact ⟨r, by rw [peek_of_cons hr]⟩

theorem errorDiscipline_of_unexpected {s : Lexer} (hne : isAtEnd s = false) (hnl : peek s ≠ nl) :
    ErrorDiscipline s.errorOccurred s.errorMessage
      (Outcome.ok
        ⟨TokenType.ERROR, String.singleton (peek s),
          (advance (setError ("Unexpected character: " ++ String.singleton (peek s)) s)).2.line,
          s.column⟩
        (advance (setError ("Unexpected character: " ++ String.singleton (peek s)) s)).2) := by
  obtain ⟨r, hr⟩ := rest_of_not_atEnd hne
  have hr1 : rest (setError ("Unexpected character: " ++ String.singleton (peek s)) s) =
      peek s :: r := hr
  rw [advance_of_cons hr1, bump_eq_shift hnl]
  exact errorDiscipline_error rfl rfl (Or.inr ⟨peek s, rfl, rfl, rfl, rfl⟩)

theorem errorDiscipline_of_body {next : Lexer → Outcome}
    (hnext : ∀ s, ErrorDiscipline s.errorOccurred s.errorMessage (next s)) (s0 : Lexer) :
    ErrorDiscipline s0.errorOccurred s0.errorMessage (getNextTokenBody next s0) := by
  rw [← (skipWhitespace_error s0).1, ← (skipWhitespace_error s0).2]
  unfold getNextTokenBody
  dsimp only
  generalize skipWhitespace s0 = s
  refine errorDiscipline_ite (fun _ => errorDiscipline_plain (by intro h; cases h) rfl rfl) (fun h1 => ?_)
  have hne : isAtEnd s = false := by simpa using h1
  refine errorDiscipline_ite (fun _ => errorDiscipline_of_indentation hnext s) (fun _ => ?_)
  refine errorDiscipline_ite (fun _ => errorDiscipline_of_identifier s) (fun _ => ?_)
  refine errorDiscipline_ite (fun _ => errorDiscipline_of_number s) (fun _ => ?_)
  refine errorDiscipline_ite
    (fun _ => errorDiscipline_plain (by intro h; cases h) (advance_error s).1 (advance_error s).2)
    (fun hnl => ?_)
  refine errorDiscipline_ite (fun _ => ?_) (fun _ => ?_)
  · have := hnext (handleComment s)
    rwa [(handleComment_error s).1, (handleComment_error s).2] at this
  refine errorDiscipline_ite (fun _ => errorDiscipline_of_string s) (fun _ => ?_)
  repeat' first
    | exact errorDiscipline_of_single (by decide) _ _ _
    | exact errorDiscipline_of_double (by decide) (by decide) _ _ _ _
    | exact errorDiscipline_of_unexpected hne hnl
    | (apply errorDiscipline_ite <;> intro _)
  · exact errorDiscipline_plain (by intro h; cases h)
      ((matchChar_error '=' (advance s).2).1.trans (advance_error s).1)
      ((matchChar_error '=' (advance s).2).2.trans (advance_error s).2)
  · exact errorDiscipline_error rfl rfl (Or.inl ⟨_, Or.inr (Or.inr rfl), rfl⟩)

theorem errorDiscipline_of_getNextToken (fuel : Nat) :
    ∀ s, ErrorDiscipline s.errorOccurred s.errorMessage (getNextToken fuel s) := by
  induction fuel with
  | zero => intro s t s1 h; cases h
  | succ n ih => intro s; rw [getNextToken]; exact errorDiscipline_of_body ih s

/-! ## Claims C7 and C8: the error state -/

/-- Claim C7: whenever a `getNextToken` call returns an ERROR token, `hasError`
is true afterwards and `getErrorMessage` is `Line L, Column C: d`, where either
`d` is one of the three fixed descriptions and `L`, `C` are the line and column
the lexer is left at (the scan stops where the error is detected), or `d` is
`Unexpected character: ` followed by the offending character, which is the
lexeme of the token, and `L`, `C` are the line and column of that character,
one column before the one the lexer is left at. -/
theorem error_token_sets_message (fuel : Nat) (s : Lexer) (t : Token) (s1 : Lexer)
    (h : getNextToken fuel s = Outcome.ok t s1) (ht : t.type = TokenType.ERROR) :
    hasError s1 = true ∧
    ((∃ d, (d = "Invalid number format: multiple decimal points" ∨
            d = "Unterminated string literal" ∨ d = "Expected '=' after '!'") ∧
        getErrorMessage s1 =
          "Line " ++ toString s1.line ++ ", Column " ++ toString s1.column ++ ": " ++ d) ∨
     (∃ c : Char, t.value = String.singleton c ∧
        getErrorMessage s1 =
          "Line " ++ toString t.line ++ ", Column " ++ toString t.column ++ ": " ++
            ("Unexpected character: " ++ String.singleton c) ∧
        s1.line = t.line ∧ s1.column = t.column + 1)) :=
  (errorDiscipline_of_getNextToken fuel s t s1 h).2 ht

/-- The ERROR token for `!` in ` !x`, by `error_token_sets_message`. -/
theorem error_token_sets_message_witness :
    hasError afterBang = true ∧
    ((∃ d, (d = "Invalid number format: multiple decimal points" ∨
            d = "Unterminated string literal" ∨ d = "Expected '=' after '!'") ∧
        getErrorMessage afterBang =
          "Line " ++ toString afterBang.line ++ ", Column " ++ toString afterBang.column ++
            ": " ++ d) ∨
     (∃ c : Char, "!" = String.singleton c ∧
        getErrorMessage afterBang =
          "Line " ++ toString 1 ++ ", Column " ++ toString 2 ++ ": " ++
            ("Unexpected character: " ++ String.singleton c) ∧
        afterBang.line = 1 ∧ afterBang.column = 2 + 1)) :=
  error_token_sets_message 1 (Lexer.new " !x".toList) ⟨TokenType.ERROR, "!", 1, 2⟩ afterBang
    (by decide) rfl

/-- Claim C8: for every state and every `getNextToken` call that returns, an
error flag that was set stays set, and when the token returned is not ERROR
the error flag and the error message are exactly what they were before the
call. -/
theorem error_state_sticky (fuel : Nat) (s : Lexer) (t : Token) (s1 : Lexer)
    (h : getNextToken fuel s = Outcome.ok t s1) :
    (hasError s = true → hasError s1 = true) ∧
    (t.type ≠ TokenType.ERROR →
      hasError s1 = hasError s ∧ getErrorMessage s1 = getErrorMessage s) := by
  have hd := errorDiscipline_of_getNextToken fuel s t s1 h
  refine ⟨fun he => ?_, hd.1⟩
  by_cases ht : t.type = TokenType.ERROR
  · exact (hd.2 ht).1
  · exact ((hd.1 ht).1).trans he

/-- The call after the ERROR token for `!` in ` !x` returns IDENTIFIER `x` and
keeps the flag and the message, by `error_state_sticky`. -/
theorem error_state_sticky_witness :
    (hasError afterBang = true →
      hasError { afterBang with position := 3, column := 4 } = true) ∧
    (TokenType.IDENTIFIER ≠ TokenType.ERROR →
      hasError { afterBang with position := 3, column := 4 } = hasError afterBang ∧
      getErrorMessage { afterBang with position := 3, column := 4 } =
        getErrorMessage afterBang) :=
  error_state_sticky 1 afterBang ⟨TokenType.IDENTIFIER, "x", 1, 3⟩
    { afterBang with position := 3, column := 4 } (by decide)

/-! ## The error state does not steer the scan -/

theorem sameScan_withError (e : Bool) (m : String) (s : Lexer) : sameScan s (withError e m s) :=
  ⟨rfl, rfl, rfl, rfl, rfl⟩

theorem eq_withError_of_sameScan {s1 s2 : Lexer} (h : sameScan s1 s2) :
    s2 = withError s2.errorOccurred s2.errorMessage s1 := by
  obtain ⟨h1, h2, h3, h4, h5⟩ := h
  cases s1; cases s2
  simp only [withError] at *
  simp [h1, h2, h3, h4, h5]

theorem sameOutcome_ite {c : Prop} [Decidable c] {a b a1 b1 : Outcome}
    (ha : c → sameOutcome a a1) (hb : ¬ c → sameOutcome b b1) :
    sameOutcome (if c then a else b) (if c then a1 else b1) := by
  by_cases h : c
  · rw [if_pos h, if_pos h]; exact ha h
  · rw [if_neg h, if_neg h]; exact hb h

theorem sameOutcome_moved (t : Token) (e : Bool) (m : String) (s : Lexer) :
    sameOutcome (Outcome.ok t s) (Outcome.ok t (withError e m s)) :=
  ⟨rfl, sameScan_withError e m s⟩

theorem sameOutcome_same (t : Token) (s : Lexer) : sameOutcome (Outcome.ok t s) (Outcome.ok t s) :=
  ⟨rfl, rfl, rfl, rfl, rfl, rfl⟩

theorem advance_withError (e : Bool) (m : String) (s : Lexer) :
    advance (withError e m s) = ((advance s).1, withError e m (advance s).2) := by
  unfold advance
  by_cases h1 : isAtEnd s = true
  · have h2 : isAtEnd (withError e m s) = true := h1
    rw [if_pos h1, if_pos h2]
  · have h2 : ¬ isAtEnd (withError e m s) = true := h1
    rw [if_neg h1, if_neg h2]
    dsimp only
    by_cases h3 : s.input.getD s.position nul = nl
    · have h4 : (withError e m s).input.getD (withError e m s).position nul = nl := h3
      rw [if_pos h3, if_pos h4]; rfl
    · have h4 : ¬ (withError e m s).input.getD (withError e m s).position nul = nl := h3
      rw [if_neg h3, if_neg h4]; rfl

theorem matchChar_withError (c : Char) (e : Bool) (m : String) (s : Lexer) :
    matchChar c (withError e m s) = ((matchChar c s).1, withError e m (matchChar c s).2) := by
  unfold matchChar
  by_cases h1 : isAtEnd s = true ∨ s.input.getD s.position nul ≠ c
  · have h2 : isAtEnd (withError e m s) = true ∨
        (withError e m s).input.getD (withError e m s).position nul ≠ c := h1
    rw [if_pos h1, if_pos h2]
  · have h2 : ¬ (isAtEnd (withError e m s) = true ∨
        (withError e m s).input.getD (withError e m s).position nul ≠ c) := h1
    rw [if_neg h1, if_neg h2]; rfl

theorem peek_withError (e : Bool) (m : String) (s : Lexer) : peek (withError e m s) = peek s := rfl

theorem isAtEnd_withError (e : Bool) (m : String) (s : Lexer) :
    isAtEnd (withError e m s) = isAtEnd s := rfl

theorem setError_withError (d : String) (e : Bool) (m : String) (s : Lexer) :
    setError d (withError e m s) = setError d s := rfl

theorem skipWhitespaceLoop_withError (e : Bool) (m : String) (n : Nat) : ∀ s : Lexer,
    skipWhitespaceLoop n (withError e m s) = withError e m (skipWhitespaceLoop n s) := by
  induction n with
  | zero => intro s; rfl
  | succ n ih =>
    intro s
    rw [skipWhitespaceLoop, skipWhitespaceLoop]
    dsimp only
    rw [isAtEnd_withError, peek_withError, advance_withError]
    dsimp only
    rw [ih]
    by_cases h1 : isAtEnd s = true
    · rw [if_pos h1, if_pos h1]
    · rw [if_neg h1, if_neg h1]
      by_cases h2 : peek s = ' ' ∨ peek s = '\r' ∨ peek s = '\t'
      · rw [if_pos h2, if_pos h2]
      · rw [if_neg h2, if_neg h2]

theorem skipWhitespace_withError (e : Bool) (m : String) (s : Lexer) :
    skipWhitespace (withError e m s) = withError e m (skipWhitespace s) :=
  skipWhitespaceLoop_withError e m _ s

theorem commentLoop_withError (e : Bool) (m : String) (n : Nat) : ∀ s : Lexer,
    commentLoop n (withError e m s) = withError e m (commentLoop n s) := by
  induction n with
  | zero => intro s; rfl
  | succ n ih =>
    intro s
    rw [commentLoop, commentLoop, isAtEnd_withError, peek_withError, advance_withError]
    dsimp only
    rw [ih]
    by_cases h1 : (!isAtEnd s && decide (peek s ≠ nl)) = true
    · rw [if_pos h1, if_pos h1]
    · rw [if_neg h1, if_neg h1]

theorem handleComment_withError (e : Bool) (m : String) (s : Lexer) :
    handleComment (withError e m s) = withError e m (handleComment s) :=
  commentLoop_withError e m _ s

theorem indentLoop_withError (e : Bool) (m : String) (n : Nat) : ∀ (k : Nat) (s : Lexer),
    indentLoop n k (withError e m s) = ((indentLoop n k s).1, withError e m (indentLoop n k s).2) := by
  induction n with
  | zero => intro k s; rfl
  | succ n ih =>
    intro k s
    rw [indentLoop, indentLoop, peek_withError, advance_withError]
    dsimp only
    rw [ih]
    by_cases h1 : peek s = ' ' ∨ peek s = '\t'
    · rw [if_pos h1, if_pos h1]
    · rw [if_neg h1, if_neg h1]

theorem identifierLoop_withError (e : Bool) (m : String) (n : Nat) :
    ∀ (acc : String) (s : Lexer),
      identifierLoop n acc (withError e m s) =
        ((identifierLoop n acc s).1, withError e m (identifierLoop n acc s).2) := by
  induction n with
  | zero => intro k s; rfl
  | succ n ih =>
    intro k s
    rw [identifierLoop, identifierLoop, isAtEnd_withError, peek_withError, advance_withError]
    dsimp only
    rw [ih]
    by_cases h1 : (!isAtEnd s && isAlphaNumeric (peek s)) = true
    · rw [if_pos h1, if_pos h1]
    · rw [if_neg h1, if_neg h1]

theorem handleIdentifier_withError (e : Bool) (m : String) (s : Lexer) :
    handleIdentifier (withError e m s) =
      ((handleIdentifier s).1, withError e m (handleIdentifier s).2) := by
  unfold handleIdentifier
  dsimp only
  have h : identifierLoop ((withError e m s).input.length - (withError e m s).position) ""
      (withError e m s) = _ := identifierLoop_withError e m (s.input.length - s.position) "" s
  rw [h]
  rfl

theorem numberLoop_withError (sc : Nat) (e : Bool) (m : String) (n : Nat) :
    ∀ (acc : String) (f : Bool) (s : Lexer),
      numberLoop sc n acc f (withError e m s) =
        Sum.map id (fun r => (r.1, r.2.1, withError e m r.2.2)) (numberLoop sc n acc f s) := by
  induction n with
  | zero => intro acc f s; rfl
  | succ n ih =>
    intro acc f s
    rw [numberLoop, numberLoop, isAtEnd_withError, peek_withError, advance_withError,
      setError_withError]
    dsimp only
    rw [ih, ih]
    by_cases h1 : (!isAtEnd s && (isDigit (peek s) || decide (peek s = '.'))) = true
    · rw [if_pos h1, if_pos h1]
      by_cases h2 : peek s = '.'
      · rw [if_pos h2, if_pos h2]
        by_cases h3 : f = true
        · rw [if_pos h3, if_pos h3]; rfl
        · rw [if_neg h3, if_neg h3]
      · rw [if_neg h2, if_neg h2]
    · rw [if_neg h1, if_neg h1]; rfl

theorem handleNumber_withError (e : Bool) (m : String) (s : Lexer) :
    handleNumber (withError e m s) = handleNumber s ∨
    handleNumber (withError e m s) = ((handleNumber s).1, withError e m (handleNumber s).2) := by
  unfold handleNumber
  dsimp only
  have h : numberLoop (withError e m s).column
      ((withError e m s).input.length - (withError e m s).position) "" false (withError e m s) = _ :=
    numberLoop_withError s.column e m (s.input.length - s.position) "" false s
  rw [h]
  cases numberLoop s.column (s.input.length - s.position) "" false s with
  | inl r => exact Or.inl rfl
  | inr r => exact Or.inr rfl

theorem stringLoop_withError (sc : Nat) (q : Char) (e : Bool) (m : String) (n : Nat) :
    ∀ (acc : String) (s : Lexer),
      stringLoop sc q n acc (withError e m s) =
        Sum.map id (fun r => (r.1, withError e m r.2)) (stringLoop sc q n acc s) := by
  induction n with
  | zero => intro acc s; rfl
  | succ n ih =>
    intro acc s
    rw [stringLoop, stringLoop, isAtEnd_withError, peek_withError, advance_withError,
      setError_withError]
    dsimp only
    rw [ih]
    by_cases h1 : (!isAtEnd s && decide (peek s ≠ q)) = true
    · rw [if_pos h1, if_pos h1]
      by_cases h2 : peek s = nl
      · rw [if_pos h2, if_pos h2]; rfl
      · rw [if_neg h2, if_neg h2]
    · rw [if_neg h1, if_neg h1]; rfl

theorem handleString_withError (e : Bool) (m : String) (s : Lexer) :
    handleString (withError e m s) = handleString s ∨
    handleString (withError e m s) = ((handleString s).1, withError e m (handleString s).2) := by
  unfold handleString
  dsimp only
  rw [advance_withError]
  dsimp only
  have h : stringLoop (withError e m s).column (advance s).1
      ((withError e m (advance s).2).input.length - (withError e m (advance s).2).position) ""
      (withError e m (advance s).2) = _ :=
    stringLoop_withError s.column (advance s).1 e m
      ((advance s).2.input.length - (advance s).2.position) "" (advance s).2
  rw [h]
  cases stringLoop s.column (advance s).1
      ((advance s).2.input.length - (advance s).2.position) "" (advance s).2 with
  | inl r => exact Or.inl rfl
  | inr r =>
    obtain ⟨str, s1⟩ := r
    by_cases h1 : isAtEnd s1 = true
    · left
      have h2 : isAtEnd (withError e m s1) = true := h1
      show (if isAtEnd (withError e m s1) = true then _ else _) =
        (if isAtEnd s1 = true then _ else _)
      rw [if_pos h2, if_pos h1]
      rfl
    · right
      have h2 : ¬ isAtEnd (withError e m s1) = true := h1
      show (if isAtEnd (withError e m s1) = true then _ else _) =
        ((if isAtEnd s1 = true then _ else _ : Token × Lexer).1,
          withError e m (if isAtEnd s1 = true then _ else _ : Token × Lexer).2)
      rw [if_neg h2, if_neg h1, advance_withError]
      rfl

theorem sameOutcome_of_scanner {r r1 : Token × Lexer} {e : Bool} {m : String}
    (h : r1 = r ∨ r1 = (r.1, withError e m r.2)) :
    sameOutcome (Outcome.ok r.1 r.2) (Outcome.ok r1.1 r1.2) := by
  rcases h with h | h
  · rw [h]; exact sameOutcome_same _ _
  · rw [h]; exact sameOutcome_moved _ _ _ _

theorem sameOutcome_of_single (ty : TokenType) (txt : String) (sc : Nat) (e : Bool) (m : String)
    (s : Lexer) : sameOutcome (single ty txt sc s) (single ty txt sc (withError e m s)) := by
  unfold single
  rw [advance_withError]
  exact sameOutcome_moved _ _ _ _

theorem sameOutcome_of_double (two : TokenType) (twoText : String) (one : TokenType)
    (oneText : String) (sc : Nat) (e : Bool) (m : String) (s : Lexer) :
    sameOutcome (double two twoText one oneText sc s)
      (double two twoText one oneText sc (withError e m s)) := by
  unfold double
  rw [advance_withError]
  dsimp only
  rw [matchChar_withError]
  exact sameOutcome_ite (fun _ => sameOutcome_moved _ _ _ _) (fun _ => sameOutcome_moved _ _ _ _)

theorem sameOutcome_of_indentation {next : Lexer → Outcome}
    (hnext : ∀ s e m, sameOutcome (next s) (next (withError e m s))) (e : Bool) (m : String)
    (s : Lexer) :
    sameOutcome (handleIndentation next s) (handleIndentation next (withError e m s)) := by
  unfold handleIndentation
  dsimp only
  have h : indentLoop ((withError e m s).input.length - (withError e m s).position) 0
      (withError e m s) = _ := indentLoop_withError e m (s.input.length - s.position) 0 s
  rw [h]
  dsimp only
  have hst : (withError e m (indentLoop (s.input.length - s.position) 0 s).2).indentationStack =
      (indentLoop (s.input.length - s.position) 0 s).2.indentationStack := rfl
  rw [hst]
  cases (indentLoop (s.input.length - s.position) 0 s).2.indentationStack with
  | nil => exact trivial
  | cons top below =>
    dsimp only
    refine sameOutcome_ite (fun _ => ⟨rfl, rfl, rfl, rfl, rfl, rfl⟩) (fun _ => ?_)
    refine sameOutcome_ite (fun _ => ⟨rfl, rfl, rfl, rfl, rfl, rfl⟩) (fun _ => ?_)
    exact hnext _ _ _

theorem sameOutcome_of_body {next : Lexer → Outcome}
    (hnext : ∀ s e m, sameOutcome (next s) (next (withError e m s))) (e : Bool) (m : String)
    (s0 : Lexer) :
    sameOutcome (getNextTokenBody next s0) (getNextTokenBody next (withError e m s0)) := by
  unfold getNextTokenBody
  dsimp only
  rw [skipWhitespace_withError]
  generalize skipWhitespace s0 = s
  have hc : (withError e m s).column = s.column := rfl
  have hl : (withError e m s).line = s.line := rfl
  rw [isAtEnd_withError, peek_withError, hc, hl, handleComment_withError, advance_withError,
    setError_withError, matchChar_withError, handleIdentifier_withError]
  dsimp only
  refine sameOutcome_ite (fun _ => sameOutcome_moved _ _ _ _) (fun _ => ?_)
  refine sameOutcome_ite (fun _ => sameOutcome_of_indentation hnext e m s) (fun _ => ?_)
  refine sameOutcome_ite (fun _ => sameOutcome_moved _ _ _ _) (fun _ => ?_)
  refine sameOutcome_ite (fun _ => sameOutcome_of_scanner (handleNumber_withError e m s))
    (fun _ => ?_)
  refine sameOutcome_ite (fun _ => sameOutcome_moved _ _ _ _) (fun _ => ?_)
  refine sameOutcome_ite (fun _ => hnext _ _ _) (fun _ => ?_)
  refine sameOutcome_ite (fun _ => sameOutcome_of_scanner (handleString_withError e m s))
    (fun _ => ?_)
  repeat' first
    | exact sameOutcome_of_single _ _ _ _ _ _
    | exact sameOutcome_of_double _ _ _ _ _ _ _ _
    | exact sameOutcome_moved _ _ _ _
    | exact sameOutcome_same _ _
    | (apply sameOutcome_ite <;> intro _)

theorem sameOutcome_of_getNextToken (fuel : Nat) :
    ∀ s e m, sameOutcome (getNextToken fuel s) (getNextToken fuel (withError e m s)) := by
  induction fuel with
  | zero => intro s e m; exact trivial
  | succ n ih => intro s e m; rw [getNextToken, getNextToken]; exact sameOutcome_of_body ih e m s

/-! ## Claim C9: scanning does not depend on the error state -/

/-- Claim C9: for any two states that agree on input, offset, line, column and
indentation stack (so differ at most in the error flag and message) and every
call depth, `getNextToken` ends alike: both calls return the same token (kind,
lexeme, line, column) and leave states that again agree on input, offset, line,
column and indentation stack, or both fail to return in the same way. -/
theorem scan_independent_of_error (fuel : Nat) (s1 s2 : Lexer) (h : sameScan s1 s2) :
    sameOutcome (getNextToken fuel s1) (getNextToken fuel s2) := by
  rw [eq_withError_of_sameScan h]
  exact sameOutcome_of_getNextToken fuel s1 _ _

/-- With the `!` of `!x` consumed, the call returns IDENTIFIER `x` with the
error of `!` recorded exactly as it does with no error recorded; the agreement
of the two calls is `scan_independent_of_error`. -/
theorem scan_independent_of_error_witness :
    sameOutcome (getNextToken 1 (bangConsumed true "Line 1, Column 2: Expected '=' after '!'"))
        (getNextToken 1 (bangConsumed false "")) ∧
    getNextToken 1 (bangConsumed true "Line 1, Column 2: Expected '=' after '!'") =
      Outcome.ok ⟨TokenType.IDENTIFIER, "x", 1, 2⟩
        { bangConsumed true "Line 1, Column 2: Expected '=' after '!'" with
          position := 2, column := 3 } ∧
    getNextToken 1 (bangConsumed false "") =
      Outcome.ok ⟨TokenType.IDENTIFIER, "x", 1, 2⟩
        { bangConsumed false "" with position := 2, column := 3 } :=
  ⟨scan_independent_of_error 1 _ _ ⟨rfl, rfl, rfl, rfl, rfl⟩, by decide, by decide⟩

/-! ## Lines without tokens -/

theorem commentLoop_stop {s : Lexer} (h : ∀ c r, rest s = c :: r → c = nl) (n : Nat) :
    commentLoop n s = s := by
  cases n with
  | zero => rfl
  | succ n =>
    rw [commentLoop]
    cases hr : rest s with
    | nil => simp [isAtEnd_of_nil hr]
    | cons c r => simp [isAtEnd_of_cons hr, peek_of_cons hr, h c r hr]

theorem commentLoop_run (cs : List Char) (hcs : ∀ c ∈ cs, c ≠ nl) :
    ∀ (n : Nat) (s : Lexer) (r : List Char), rest s = cs ++ r → cs.length ≤ n →
      commentLoop n s = commentLoop (n - cs.length) (shift cs.length s) := by
  induction cs with
  | nil => intro n s r _ _; simp [shift_zero]
  | cons c cs ih =>
    intro n s r hr hn
    cases n with
    | zero => simp at hn
    | succ n =>
      have hc : c ≠ nl := hcs c (List.mem_cons_self _ _)
      have hr1 : rest s = c :: (cs ++ r) := hr
      have hr2 : rest (shift 1 s) = cs ++ r := by rw [rest_shift, hr1]; rfl
      rw [commentLoop]
      simp only [isAtEnd_of_cons hr1, peek_of_cons hr1, hc, Bool.not_false, ne_eq,
        not_false_eq_true, decide_True, Bool.and_self, if_true, advance_of_cons hr1,
        bump_eq_shift hc]
      rw [ih (fun c hc => hcs c (List.mem_cons_of_mem _ hc)) n (shift 1 s) r hr2
        (by simpa using hn), shift_shift]
      simp [Nat.add_comm]

theorem handleComment_run {s : Lexer} (cs r : List Char) (hcs : ∀ c ∈ cs, c ≠ nl)
    (hr : rest s = cs ++ nl :: r) : handleComment s = shift cs.length s := by
  unfold handleComment
  rw [remaining_eq, commentLoop_run cs hcs _ s _ hr (by simp [hr])]
  apply commentLoop_stop
  intro c r1 h1
  rw [rest_shift, hr] at h1
  simp at h1
  exact h1.1.symm

theorem getNextTokenBody_eof {s : Lexer} (hr : rest s = []) (next : Lexer → Outcome) :
    getNextTokenBody next s = Outcome.ok ⟨TokenType.END_OF_FILE, "", s.line, s.column⟩ s := by
  have hsk : skipWhitespace s = s :=
    skipWhitespace_stop (fun c1 r1 h1 => by rw [hr] at h1; cases h1)
  unfold getNextTokenBody
  dsimp only
  rw [hsk, isAtEnd_of_nil hr, if_pos rfl]

theorem getNextTokenBody_newline {s : Lexer} (ws r : List Char) (hws : ∀ c ∈ ws, isBlank c)
    (hr : rest s = ws ++ nl :: r) (next : Lexer → Outcome) :
    getNextTokenBody next s =
      Outcome.ok ⟨TokenType.NEWLINE, "\\n", s.line, s.column + ws.length⟩
        { s with position := s.position + (ws.length + 1), line := s.line + 1, column := 1 } := by
  have hsk : skipWhitespace s = shift ws.length s :=
    skipWhitespace_run ws (nl :: r) hws hr (fun c r1 h1 => by cases h1; decide)
  have hr1 : rest (shift ws.length s) = nl :: r := by rw [rest_shift, hr]; simp
  unfold getNextTokenBody
  dsimp only
  rw [hsk, isAtEnd_of_cons hr1, peek_of_cons hr1, if_neg (by decide),
    if_neg (fun h => h.2 rfl), if_neg (by decide), if_neg (by decide), if_pos rfl,
    advance_of_cons hr1]
  simp [bump, shift, Nat.add_assoc]

theorem getNextTokenBody_comment {s : Lexer} (ws b r : List Char) (hws : ∀ c ∈ ws, isBlank c)
    (hb : nl ∉ b) (hr : rest s = ws ++ '#' :: (b ++ nl :: r)) (hcol : s.column + ws.length ≠ 1)
    (next : Lexer → Outcome) :
    getNextTokenBody next s = next (shift (ws.length + (b.length + 1)) s) := by
  have hsk : skipWhitespace s = shift ws.length s :=
    skipWhitespace_run ws _ hws hr (fun c r1 h1 => by cases h1; decide)
  have hr1 : rest (shift ws.length s) = ('#' :: b) ++ nl :: r := by rw [rest_shift, hr]; simp
  have hcs : ∀ c ∈ '#' :: b, c ≠ nl := by
    intro c hc
    rcases List.mem_cons.1 hc with rfl | hc
    · decide
    · rintro rfl; exact hb hc
  have hcol1 : ¬ ((shift ws.length s).column = 1 ∧ '#' ≠ nl) := fun h => hcol h.1
  unfold getNextTokenBody
  dsimp only
  rw [hsk, isAtEnd_of_cons hr1, peek_of_cons hr1, if_neg (by decide), if_neg hcol1,
    if_neg (by decide), if_neg (by decide), if_neg (by decide), if_pos rfl,
    handleComment_run _ r hcs hr1, shift_shift]
  rfl

theorem indent_isBlank {ws : List Char} (h : ∀ c ∈ ws, c = ' ' ∨ c = '\t') :
    ∀ c ∈ ws, isBlank c := by
  intro c hc
  rcases h c hc with h1 | h1
  · exact Or.inl h1
  · exact Or.inr (Or.inr h1)

theorem blank_line_step (l : BlankLine) (hwf : l.wellFormed) (hci : l.commentIndented)
    {s : Lexer} (hcol : s.column = 1) (r : List Char) (hr : rest s = l.text ++ r) (fuel : Nat) :
    ∃ t, t.type = TokenType.NEWLINE ∧
      getNextToken (fuel + 2) s = Outcome.ok t (lineConsumed l.text.length s) := by
  obtain ⟨ws, cm⟩ := l
  have hws := indent_isBlank hwf.1
  cases cm with
  | none =>
    have hr1 : rest s = ws ++ nl :: r := by rw [hr]; simp [BlankLine.text]
    refine ⟨⟨TokenType.NEWLINE, "\\n", s.line, s.column + ws.length⟩, rfl, ?_⟩
    rw [getNextToken, getNextTokenBody_newline ws r hws hr1]
    simp [BlankLine.text, lineConsumed]
  | some b =>
    have hb : nl ∉ b := hwf.2 b rfl
    have hne : ws ≠ [] := hci b rfl
    have hlen : 0 < ws.length := List.length_pos.2 hne
    have hr1 : rest s = ws ++ '#' :: (b ++ nl :: r) := by rw [hr]; simp [BlankLine.text]
    have hr2 : rest (shift (ws.length + (b.length + 1)) s) = [] ++ nl :: r := by
      rw [rest_shift, hr1]
      have : ws ++ '#' :: (b ++ nl :: r) = (ws ++ '#' :: b) ++ nl :: r := by simp
      rw [this, List.drop_left' (by simp)]
      rfl
    refine ⟨⟨TokenType.NEWLINE, "\\n", s.line, s.column + (ws.length + (b.length + 1))⟩, rfl, ?_⟩
    rw [getNextToken, getNextTokenBody_comment ws b r hws hb hr1 (by omega), getNextToken,
      getNextTokenBody_newline [] r (by simp) hr2]
    simp [BlankLine.text, shift, lineConsumed, Nat.add_assoc]

theorem rest_lineConsumed (k : Nat) (s : Lexer) : rest (lineConsumed k s) = (rest s).drop k := by
  simp [rest, lineConsumed, List.drop_drop, Nat.add_comm]

theorem pull_blank_lines (fuel : Nat) :
    ∀ (ls : List BlankLine), (∀ l ∈ ls, l.wellFormed ∧ l.commentIndented) →
      ∀ (s : Lexer), s.column = 1 → rest s = renderLines ls →
      ∀ calls, ls.length < calls →
      ∃ toks s1, pull (fuel + 2) calls s = some (toks, s1) ∧
        toks.map Token.type = List.replicate ls.length TokenType.NEWLINE ++ [TokenType.END_OF_FILE] ∧
        s1.indentationStack = s.indentationStack ∧ s1.errorOccurred = s.errorOccurred := by
  intro ls
  induction ls with
  | nil =>
    intro _ s _ hr calls hc
    obtain ⟨c, rfl⟩ : ∃ c, calls = c + 1 := ⟨calls - 1, by simp at hc; omega⟩
    refine ⟨[⟨TokenType.END_OF_FILE, "", s.line, s.column⟩], s, ?_, rfl, rfl, rfl⟩
    rw [pull, getNextToken, getNextTokenBody_eof hr]
    rfl
  | cons l ls ih =>
    intro hls s hcol hr calls hc
    obtain ⟨c, rfl⟩ : ∃ c, calls = c + 1 := ⟨calls - 1, by simp at hc; omega⟩
    have hl := hls l (List.mem_cons_self _ _)
    obtain ⟨t, ht, hstep⟩ := blank_line_step l hl.1 hl.2 hcol (renderLines ls) hr fuel
    have hr1 : rest (lineConsumed l.text.length s) = renderLines ls := by
      rw [rest_lineConsumed, hr]; simp [renderLines]
    obtain ⟨toks, s1, hp, htoks, hst, herr⟩ :=
      ih (fun l1 h1 => hls l1 (List.mem_cons_of_mem _ h1)) _ rfl hr1 c (by simpa using hc)
    refine ⟨t :: toks, s1, ?_, ?_, hst, herr⟩
    · rw [pull, hstep]
      simp only [ht]
      rw [if_neg (by decide), hp]
    · simp [htoks, ht, List.replicate_succ]

/-! ## Claim C10: blank and comment-only lines -/

/-- Claim C10 fails on the input that is one empty line: the tokens pulled from
a fresh lexer are NEWLINE and END_OF_FILE, so a NEWLINE token is returned. -/
theorem blank_line_returns_newline :
    pull 1 2 (Lexer.new "\n".toList) =
      some ([⟨TokenType.NEWLINE, "\\n", 1, 1⟩, ⟨TokenType.END_OF_FILE, "", 2, 1⟩],
        { Lexer.new "\n".toList with position := 1, line := 2 }) := by
  decide

/-- A comment that starts at column 1 is never tokenised: the first call on the
input `#c` followed by a newline returns no token at any call depth. -/
theorem comment_at_line_start_never_returns :
    ∀ fuel, getNextToken fuel (Lexer.new "#c\n".toList) = Outcome.outOfFuel :=
  getNextToken_diverges (s := Lexer.new "#c\n".toList) rfl rfl (by decide) (by decide) rfl

/-- Claim C10 as amended: for every input made only of lines that contain
nothing but spaces and tabs, optionally followed by a `#` comment that does not
start at column 1, each ended by a newline, pulling tokens from a fresh lexer
(call depth at least 2, more calls than lines) yields one NEWLINE token for
every line and then END_OF_FILE, so no INDENT and no DEDENT token; the
indentation stack is still `[0]` and no error is recorded. -/
theorem blank_lines_give_newlines (ls : List BlankLine)
    (hls : ∀ l ∈ ls, l.wellFormed ∧ l.commentIndented) (fuel calls : Nat)
    (hc : ls.length < calls) :
    ∃ toks s1, pull (fuel + 2) calls (Lexer.new (renderLines ls)) = some (toks, s1) ∧
      toks.map Token.type =
        List.replicate ls.length TokenType.NEWLINE ++ [TokenType.END_OF_FILE] ∧
      s1.indentationStack = [0] ∧ hasError s1 = false :=
  pull_blank_lines fuel ls hls (Lexer.new (renderLines ls)) rfl rfl calls hc

/-- Four lines: empty, two spaces, two spaces and a comment, a tab; by
`blank_lines_give_newlines`. -/
theorem blank_lines_give_newlines_witness :
    ∃ toks s1,
      pull 2 5 (Lexer.new (renderLines
        [⟨[], none⟩, ⟨"  ".toList, none⟩, ⟨"  ".toList, some " c".toList⟩,
          ⟨"\t".toList, none⟩])) = some (toks, s1) ∧
      toks.map Token.type = List.replicate 4 TokenType.NEWLINE ++ [TokenType.END_OF_FILE] ∧
      s1.indentationStack = [0] ∧ hasError s1 = false :=
  blank_lines_give_newlines
    [⟨[], none⟩, ⟨"  ".toList, none⟩, ⟨"  ".toList, some " c".toList⟩, ⟨"\t".toList, none⟩]
    (by
      intro l hl
      simp only [List.mem_cons, List.mem_singleton, List.not_mem_nil, or_false] at hl
      rcases hl with rfl | rfl | rfl | rfl <;>
        exact ⟨⟨by decide, by intro b hb; cases hb <;> decide⟩,
          by intro b hb; cases hb <;> decide⟩)
    0 5 (by decide)

/-! ## Claim C11: the empty input -/

/-- Claim C11: on the empty input the first `getNextToken` call of a fresh
lexer returns END_OF_FILE with empty lexeme at line 1, column 1 and leaves the
state as it was, so every further call returns the same token; `hasError` is
false, and the tokens pulled are exactly that one END_OF_FILE token. -/
theorem empty_input_end_of_file (fuel calls : Nat) :
    getNextToken (fuel + 1) (Lexer.new []) =
      Outcome.ok ⟨TokenType.END_OF_FILE, "", 1, 1⟩ (Lexer.new []) ∧
    hasError (Lexer.new []) = false ∧
    pull (fuel + 1) (calls + 1) (Lexer.new []) =
      some ([⟨TokenType.END_OF_FILE, "", 1, 1⟩], Lexer.new []) := by
  refine ⟨rfl, rfl, rfl⟩

/-! ## Claim C12: the indentation counter -/

/-- Claim C14: in every state whose column is past 1 and whose next character
is `c`: if `c` is `!` and not followed by `=`, or if `c` is no letter, no
underscore, no digit and none of `dispatchChars`, then `getNextToken` consumes
exactly that character and returns an ERROR token whose lexeme is the
one-character string `c`, at the line and column of the character; the error
flag is set and the description is `Expected '=' after '!'` in the first case
and `Unexpected character: ` followed by `c` in the second. -/
theorem stray_character_costs_one (s : Lexer) (c : Char) (r : List Char) (fuel : Nat)
    (hcol : 1 < s.column) (hr : rest s = c :: r) :
    (c = '!' → (∀ r1, r ≠ '=' :: r1) →
      getNextToken (fuel + 1) s =
        Outcome.ok ⟨TokenType.ERROR, "!", s.line, s.column⟩
          { s with position := s.position + 1, column := s.column + 1, errorOccurred := true,
                   errorMessage := "Line " ++ toString s.line ++ ", Column " ++
                     toString (s.column + 1) ++ ": " ++ "Expected '=' after '!'" }) ∧
    (isAlpha c = false → isDigit c = false → c ∉ dispatchChars →
      getNextToken (fuel + 1) s =
        Outcome.ok ⟨TokenType.ERROR, String.singleton c, s.line, s.column⟩
          { s with position := s.position + 1, column := s.column + 1, errorOccurred := true,
                   errorMessage := "Line " ++ toString s.line ++ ", Column " ++
                     toString s.column ++ ": " ++ ("Unexpected character: " ++ String.singleton c) }) := by
  have hcol1 : ¬ (s.column = 1 ∧ c ≠ nl) := by omega
  have hb := rest_shift (s := s) 1
  rw [hr] at hb
  simp only [List.drop_succ_cons, List.drop_zero] at hb
  constructor
  · rintro rfl hahead
    have hsk : skipWhitespace s = s :=
      skipWhitespace_stop (fun c1 r1 h1 => by rw [hr] at h1; cases h1; decide)
    have hm : matchChar '=' (shift 1 s) = (false, shift 1 s) :=
      matchChar_miss (fun r1 h1 => hahead r1 (by rw [← hb, h1]))
    rw [getNextToken]
    unfold getNextTokenBody
    dsimp only
    rw [hsk, isAtEnd_of_cons hr, peek_of_cons hr, if_neg (by decide), if_neg hcol1]
    simp +decide only [advance_of_cons hr, bump_eq_shift, hm, ne_eq, not_false_eq_true, if_false]
    simp +decide [shift, setError]
  · intro ha hd hmem
    simp only [dispatchChars, List.mem_cons, List.mem_singleton, List.not_mem_nil, not_or,
      or_false] at hmem
    obtain ⟨h1, h2, h3, h4, h5, h6, h7, h8, h9, h10, h11, h12, h13, h14, h15, h16, h17, h18, h19,
      h20, h21, h22, h23, h24⟩ := hmem
    have hsk : skipWhitespace s = s :=
      skipWhitespace_stop (fun c1 r1 hc => by
        rw [hr] at hc; cases hc
        rintro (h | h | h)
        · exact h5 h
        · exact h7 h
        · exact h6 h)
    have hq : ¬ (c = dquote ∨ c = squote) := by rintro (h | h); exact h3 h; exact h4 h
    have hr1 : rest (setError ("Unexpected character: " ++ String.singleton c) s) = c :: r := hr
    rw [getNextToken]
    unfold getNextTokenBody
    dsimp only
    rw [hsk, isAtEnd_of_cons hr, peek_of_cons hr, if_neg (by decide), if_neg hcol1, ha, hd,
      if_neg (by decide), if_neg (by decide), if_neg h1, if_neg h2, if_neg hq, if_neg h8,
      if_neg h9, if_neg h10, if_neg h11, if_neg h12, if_neg h13, if_neg h14, if_neg h15,
      if_neg h16, if_neg h17, if_neg h18, if_neg h19, if_neg h20, if_neg h21, if_neg h22,
      if_neg h23, if_neg h24, advance_of_cons hr1, bump_eq_shift h1]
    rfl

/-- The character `@` in ` @`, by `stray_character_costs_one`. -/
theorem stray_character_costs_one_witness :
    getNextToken 1 { Lexer.new " @".toList with position := 1, column := 2 } =
      Outcome.ok ⟨TokenType.ERROR, "@", 1, 2⟩
        { Lexer.new " @".toList with
          position := 2, column := 3, errorOccurred := true,
          errorMessage := "Line 1, Column 2: Unexpected character: @" } :=
  (stray_character_costs_one { Lexer.new " @".toList with position := 1, column := 2 } '@' [] 0
    (by decide) rfl).2 (by decide) (by decide) (by decide)

/-! ## Claim C15: identifiers and keywords -/

theorem alnum_ne_nl {c : Char} (h : isAlphaNumeric c = true) : c ≠ nl := by
  rintro rfl; revert h; decide

theorem identifierLoop_stop {s : Lexer} (h : ∀ c r, rest s = c :: r → isAlphaNumeric c = false)
    (n : Nat) (acc : String) : identifierLoop n acc s = (acc, s) := by
  cases n with
  | zero => rfl
  | succ n =>
    rw [identifierLoop]
    cases hr : rest s with
    | nil => simp [isAtEnd_of_nil hr]
    | cons c r => simp [isAtEnd_of_cons hr, peek_of_cons hr, h c r hr]

theorem identifierLoop_run (cs : List Char) (hcs : ∀ c ∈ cs, isAlphaNumeric c = true) :
    ∀ (n : Nat) (s : Lexer) (r : List Char) (acc : List Char), rest s = cs ++ r → cs.length ≤ n →
      identifierLoop n (String.mk acc) s =
        identifierLoop (n - cs.length) (String.mk (acc ++ cs)) (shift cs.length s) := by
  induction cs with
  | nil => intro n s r acc _ _; simp [shift_zero]
  | cons c cs ih =>
    intro n s r acc hr hn
    cases n with
    | zero => simp at hn
    | succ n =>
      have hc := hcs c (List.mem_cons_self _ _)
      have hr1 : rest s = c :: (cs ++ r) := hr
      have hr2 : rest (shift 1 s) = cs ++ r := by rw [rest_shift, hr1]; rfl
      rw [identifierLoop]
      simp only [isAtEnd_of_cons hr1, peek_of_cons hr1, hc, Bool.not_false, Bool.and_self,
        if_true, advance_of_cons hr1, bump_eq_shift (alnum_ne_nl hc), push_mk]
      rw [ih (fun c hc => hcs c (List.mem_cons_of_mem _ hc)) n (shift 1 s) r _ hr2
        (by simpa using hn), shift_shift]
      simp [Nat.add_comm]

theorem handleIdentifier_run (s : Lexer) :
    handleIdentifier s =
      (⟨checkKeyword (String.mk (identifierRun s)), String.mk (identifierRun s), s.line, s.column⟩,
        shift (identifierRun s).length s) := by
  have hsplit : rest s = identifierRun s ++ (rest s).dropWhile isAlphaNumeric :=
    (List.takeWhile_append_dropWhile isAlphaNumeric (rest s)).symm
  have hcs : ∀ c ∈ identifierRun s, isAlphaNumeric c = true :=
    fun c hc => List.mem_takeWhile_imp hc
  have hstop : ∀ c r, rest (shift (identifierRun s).length s) = c :: r →
      isAlphaNumeric c = false := by
    intro c r h
    rw [rest_shift] at h
    have h2 : (rest s).drop (identifierRun s).length = (rest s).dropWhile isAlphaNumeric := by
      conv_lhs => rw [hsplit]
      simp
    rw [h2] at h
    exact dropWhile_head_false isAlphaNumeric (rest s) c r h
  unfold handleIdentifier
  dsimp only
  have h0 : ("" : String) = String.mk [] := rfl
  rw [remaining_eq, h0, identifierLoop_run _ hcs _ s _ [] hsplit
    (by have := congrArg List.length hsplit; simp at this; omega), identifierLoop_stop hstop]
  rfl

theorem checkKeyword_keyword : ∀ p ∈ keywordTable, checkKeyword p.1 = p.2 := by
  decide

theorem keywordTable_kinds : ∀ p ∈ keywordTable, p.2 ≠ TokenType.IDENTIFIER := by
  decide

theorem checkKeyword_other (x : String) (h : ∀ p ∈ keywordTable, x ≠ p.1) :
    checkKeyword x = TokenType.IDENTIFIER := by
  simp only [keywordTable, List.forall_mem_cons, List.not_mem_nil, false_implies, implies_true,
    and_true, ne_eq] at h
  obtain ⟨h1, h2, h3, h4, h5, h6, h7, h8, h9, h10, h11⟩ := h
  unfold checkKeyword
  rw [if_neg h1, if_neg h2, if_neg h3, if_neg h4, if_neg h5, if_neg h6, if_neg h7, if_neg h8,
    if_neg h9, if_neg h10, if_neg h11]

/-- Claim C15: the lexeme returned by `handleIdentifier` is `identifierRun s`,
the longest prefix of the remaining input made of letters, digits and
underscores, at the line and column at entry, and position and column grow by
its length.  If the lexeme is equal to one of the 11 keywords of `keywordTable`
the kind is the kind of that keyword, which is not IDENTIFIER; if it is equal
to none, the kind is IDENTIFIER, as for `If`, `definition` and `iffy`.  The
statement holds in every state, in particular with the cursor on a letter or
underscore. -/
theorem handleIdentifier_spec (s : Lexer) :
    handleIdentifier s =
      (⟨checkKeyword (String.mk (identifierRun s)), String.mk (identifierRun s), s.line, s.column⟩,
        { s with position := s.position + (identifierRun s).length,
                 column := s.column + (identifierRun s).length }) ∧
    (∀ p ∈ keywordTable, String.mk (identifierRun s) = p.1 →
      (handleIdentifier s).1.type = p.2 ∧ p.2 ≠ TokenType.IDENTIFIER) ∧
    ((∀ p ∈ keywordTable, String.mk (identifierRun s) ≠ p.1) →
      (handleIdentifier s).1.type = TokenType.IDENTIFIER) ∧
    checkKeyword "If" = TokenType.IDENTIFIER ∧ checkKeyword "definition" = TokenType.IDENTIFIER ∧
    checkKeyword "iffy" = TokenType.IDENTIFIER := by
  have hrun := handleIdentifier_run s
  refine ⟨hrun, ?_, ?_, by decide, by decide, by decide⟩
  · intro p hp heq
    rw [hrun]
    show checkKeyword (String.mk (identifierRun s)) = p.2 ∧ _
    rw [heq]
    exact ⟨checkKeyword_keyword p hp, keywordTable_kinds p hp⟩
  · intro h
    rw [hrun]
    exact checkKeyword_other _ h

/-- The scans of `while(`, a keyword, and of `iffy+`, an identifier, by
`handleIdentifier_spec`. -/
theorem handleIdentifier_spec_witness :
    ((handleIdentifier (Lexer.new "while(".toList)).1.type = TokenType.WHILE ∧
      TokenType.WHILE ≠ TokenType.IDENTIFIER) ∧
    (handleIdentifier (Lexer.new "iffy+".toList)).1.type = TokenType.IDENTIFIER :=
  ⟨(handleIdentifier_spec (Lexer.new "while(".toList)).2.1 ("while", TokenType.WHILE)
      (by decide) (by decide),
   (handleIdentifier_spec (Lexer.new "iffy+".toList)).2.2.1 (by decide)⟩

/-! ## State properties kept by every call -/

section Kept

variable {P : Lexer → Prop} {E : Prop} {K : TokenType → Prop}

theorem good_ite {c : Prop} [Decidable c] {a b : Outcome}
    (ha : c → Good P E K a) (hb : ¬ c → Good P E K b) : Good P E K (if c then a else b) := by
  by_cases h : c
  · rw [if_pos h]; exact ha h
  · rw [if_neg h]; exact hb h

theorem good_ok {t : Token} {s1 sl sc : Lexer} (h1 : P s1) (hk : K t.type) (hl : P sl)
    (hle : t.line = sl.line) (hc : P sc) (hce : t.column = sc.column) :
    Good P E K (Outcome.ok t s1) := by
  refine ⟨fun h => (by cases h), fun t1 s2 h => ?_⟩
  cases h
  exact ⟨h1, hk, ⟨sl, hl, hle⟩, ⟨sc, hc, hce⟩⟩

theorem good_mk {ty : TokenType} {v : String} {l c : Nat} {s1 sl sc : Lexer} (h1 : P s1)
    (hk : K ty) (hl : P sl) (hle : l = sl.line) (hc : P sc) (hce : c = sc.column) :
    Good P E K (Outcome.ok ⟨ty, v, l, c⟩ s1) :=
  good_ok h1 hk hl hle hc hce

theorem not_structural {ty : TokenType} (h1 : ty ≠ TokenType.INDENT) (h2 : ty ≠ TokenType.DEDENT)
    (h3 : ty ≠ TokenType.COMMENT) : ¬ Structural ty := by
  rintro (h | h | h)
  · exact h1 h
  · exact h2 h
  · exact h3 h

theorem kind_ok (hK : ∀ ty, ¬ Structural ty → K ty) (ty : TokenType)
    (h : (decide (ty ≠ TokenType.INDENT) && decide (ty ≠ TokenType.DEDENT) &&
      decide (ty ≠ TokenType.COMMENT)) = true) : K ty := by
  simp only [Bool.and_eq_true, decide_eq_true_eq] at h
  exact hK ty (not_structural h.1.1 h.1.2 h.2)

theorem kept_skipWhitespaceLoop (hP : Kept P) (n : Nat) :
    ∀ s, P s → P (skipWhitespaceLoop n s) := by
  induction n with
  | zero => intro s h; exact h
  | succ n ih =>
    intro s h
    rw [skipWhitespaceLoop]
    dsimp only
    by_cases h1 : isAtEnd s = true
    · rw [if_pos h1]; exact h
    · rw [if_neg h1]
      by_cases h2 : peek s = ' ' ∨ peek s = '\r' ∨ peek s = '\t'
      · rw [if_pos h2]; exact ih _ (hP.1 s h)
      · rw [if_neg h2]; exact h

theorem kept_skipWhitespace (hP : Kept P) {s : Lexer} (h : P s) : P (skipWhitespace s) :=
  kept_skipWhitespaceLoop hP _ s h

theorem kept_commentLoop (hP : Kept P) (n : Nat) : ∀ s, P s → P (commentLoop n s) := by
  induction n with
  | zero => intro s h; exact h
  | succ n ih =>
    intro s h
    rw [commentLoop]
    by_cases h1 : (!isAtEnd s && decide (peek s ≠ nl)) = true
    · rw [if_pos h1]; exact ih _ (hP.1 s h)
    · rw [if_neg h1]; exact h

theorem kept_handleComment (hP : Kept P) {s : Lexer} (h : P s) : P (handleComment s) :=
  kept_commentLoop hP _ s h

theorem kept_indentLoop (hP : Kept P) (n : Nat) : ∀ k s, P s → P (indentLoop n k s).2 := by
  induction n with
  | zero => intro k s h; exact h
  | succ n ih =>
    intro k s h
    rw [indentLoop]
    by_cases h1 : peek s = ' ' ∨ peek s = '\t'
    · rw [if_pos h1]; exact ih _ _ (hP.1 s h)
    · rw [if_neg h1]; exact h

theorem kept_identifierLoop (hP : Kept P) (n : Nat) :
    ∀ acc s, P s → P (identifierLoop n acc s).2 := by
  induction n with
  | zero => intro k s h; exact h
  | succ n ih =>
    intro k s h
    rw [identifierLoop]
    by_cases h1 : (!isAtEnd s && isAlphaNumeric (peek s)) = true
    · rw [if_pos h1]; exact ih _ _ (hP.1 s h)
    · rw [if_neg h1]; exact h

theorem kept_numberLoop (hP : Kept P) (sc : Nat) (n : Nat) : ∀ acc f s, P s →
    (∀ r, numberLoop sc n acc f s = Sum.inl r →
      P r.2 ∧ r.1.type = TokenType.ERROR ∧ r.1.line = r.2.line ∧ r.1.column = sc) ∧
    (∀ r, numberLoop sc n acc f s = Sum.inr r → P r.2.2) := by
  induction n with
  | zero =>
    intro acc f s h
    refine ⟨fun r hr => (by cases hr), fun r hr => ?_⟩
    cases hr; exact h
  | succ n ih =>
    intro acc f s h
    rw [numberLoop]
    by_cases h1 : (!isAtEnd s && (isDigit (peek s) || decide (peek s = '.'))) = true
    · rw [if_pos h1]
      dsimp only
      by_cases h2 : peek s = '.'
      · rw [if_pos h2]
        by_cases h3 : f = true
        · rw [if_pos h3]
          refine ⟨fun r hr => ?_, fun r hr => (by cases hr)⟩
          cases hr; exact ⟨hP.2.2 _ s h, rfl, rfl, rfl⟩
        · rw [if_neg h3]; exact ih _ _ _ (hP.1 s h)
      · rw [if_neg h2]; exact ih _ _ _ (hP.1 s h)
    · rw [if_neg h1]
      refine ⟨fun r hr => (by cases hr), fun r hr => ?_⟩
      cases hr; exact h

theorem kept_stringLoop (hP : Kept P) (sc : Nat) (q : Char) (n : Nat) : ∀ acc s, P s →
    (∀ r, stringLoop sc q n acc s = Sum.inl r →
      P r.2 ∧ r.1.type = TokenType.ERROR ∧ r.1.line = r.2.line ∧ r.1.column = sc) ∧
    (∀ r, stringLoop sc q n acc s = Sum.inr r → P r.2) := by
  induction n with
  | zero =>
    intro acc s h
    refine ⟨fun r hr => (by cases hr), fun r hr => ?_⟩
    cases hr; exact h
  | succ n ih =>
    intro acc s h
    rw [stringLoop]
    by_cases h1 : (!isAtEnd s && decide (peek s ≠ q)) = true
    · rw [if_pos h1]
      by_cases h2 : peek s = nl
      · rw [if_pos h2]
        refine ⟨fun r hr => ?_, fun r hr => (by cases hr)⟩
        cases hr; exact ⟨hP.2.2 _ s h, rfl, rfl, rfl⟩
      · rw [if_neg h2]; exact ih _ _ (hP.1 s h)
    · rw [if_neg h1]
      refine ⟨fun r hr => (by cases hr), fun r hr => ?_⟩
      cases hr; exact h

theorem checkKeyword_not_structural (x : String) : ¬ Structural (checkKeyword x) := by
  have h : ∀ p ∈ keywordTable, ¬ Structural p.2 := by
    intro p hp; revert p; unfold Structural; decide
  by_cases hx : ∀ p ∈ keywordTable, x ≠ p.1
  · rw [checkKeyword_other x hx]; unfold Structural; decide
  · push_neg at hx
    obtain ⟨p, hp, rfl⟩ := hx
    rw [checkKeyword_keyword p hp]; exact h p hp

theorem good_identifier (hP : Kept P) (hK : ∀ ty, ¬ Structural ty → K ty) {s : Lexer}
    (h : P s) : Good P E K (Outcome.ok (handleIdentifier s).1 (handleIdentifier s).2) :=
  good_ok (kept_identifierLoop hP _ _ s h) (hK _ (checkKeyword_not_structural _))
    (kept_identifierLoop hP _ _ s h) rfl h rfl

theorem good_number (hP : Kept P) (hK : ∀ ty, ¬ Structural ty → K ty) {s : Lexer} (h : P s) :
    Good P E K (Outcome.ok (handleNumber s).1 (handleNumber s).2) := by
  have hd := kept_numberLoop hP s.column (s.input.length - s.position) "" false s h
  unfold handleNumber
  dsimp only
  cases hl : numberLoop s.column (s.input.length - s.position) "" false s with
  | inl r =>
    obtain ⟨h1, h2, h3, h4⟩ := hd.1 r hl
    exact good_ok h1 (by rw [h2]; exact kind_ok hK TokenType.ERROR rfl) h1 h3 h h4
  | inr r =>
    have h1 := hd.2 r hl
    refine good_ok h1 ?_ h1 rfl h rfl
    show K (if r.2.1 = true then TokenType.FLOAT else TokenType.INTEGER)
    by_cases hf : r.2.1 = true
    · rw [if_pos hf]; exact kind_ok hK TokenType.FLOAT rfl
    · rw [if_neg hf]; exact kind_ok hK TokenType.INTEGER rfl

theorem good_string (hP : Kept P) (hK : ∀ ty, ¬ Structural ty → K ty) {s : Lexer} (h : P s) :
    Good P E K (Outcome.ok (handleString s).1 (handleString s).2) := by
  have hd := kept_stringLoop hP s.column (advance s).1
    ((advance s).2.input.length - (advance s).2.position) "" (advance s).2 (hP.1 s h)
  unfold handleString
  dsimp only
  cases hl : stringLoop s.column (advance s).1
      ((advance s).2.input.length - (advance s).2.position) "" (advance s).2 with
  | inl r =>
    obtain ⟨h1, h2, h3, h4⟩ := hd.1 r hl
    exact good_ok h1 (by rw [h2]; exact kind_ok hK TokenType.ERROR rfl) h1 h3 h h4
  | inr r =>
    have h1 := hd.2 r hl
    dsimp only
    by_cases h3 : isAtEnd r.2 = true
    · rw [if_pos h3]
      exact good_mk (hP.2.2 _ _ h1) (kind_ok hK TokenType.ERROR rfl) (hP.2.2 _ _ h1) rfl h rfl
    · rw [if_neg h3]
      exact good_mk (hP.1 _ h1) (kind_ok hK TokenType.STRING rfl) (hP.1 _ h1) rfl h rfl

theorem good_single (hP : Kept P) {ty : TokenType} (hty : K ty) (txt : String) {s s1 : Lexer}
    (h : P s) (h1 : P s1) : Good P E K (single ty txt s1.column s) :=
  good_mk (hP.1 s h) hty (hP.1 s h) rfl h1 rfl

theorem good_double (hP : Kept P) {two one : TokenType} (h2 : K two) (h1 : K one)
    (twoText oneText : String) {s s1 : Lexer} (h : P s) (hs1 : P s1) :
    Good P E K (double two twoText one oneText s1.column s) := by
  have hm := hP.2.1 _ (hP.1 s h)
  unfold double
  exact good_ite (fun _ => good_mk hm h2 hm rfl hs1 rfl) (fun _ => good_mk hm h1 hm rfl hs1 rfl)

theorem advance_line_of_nl {s : Lexer} (hne : isAtEnd s = false) (hnl : peek s = nl) :
    (advance s).2.line - 1 = s.line := by
  obtain ⟨r, hr⟩ := rest_of_not_atEnd hne
  rw [hnl] at hr
  rw [advance_of_cons hr]
  simp [bump]

theorem skipWhitespaceLoop_peek (n : Nat) : ∀ s : Lexer, s.input.length - s.position ≤ n →
    ¬ isBlank (peek (skipWhitespaceLoop n s)) := by
  induction n with
  | zero =>
    intro s hn
    have : isAtEnd s = true := by simp [isAtEnd]; omega
    rw [skipWhitespaceLoop]
    simp only [peek, this, if_true]
    decide
  | succ n ih =>
    intro s hn
    rw [skipWhitespaceLoop]
    dsimp only
    by_cases h1 : isAtEnd s = true
    · rw [if_pos h1]
      simp only [peek, h1, if_true]
      decide
    · rw [if_neg h1]
      by_cases h2 : peek s = ' ' ∨ peek s = '\r' ∨ peek s = '\t'
      · rw [if_pos h2]
        apply ih
        obtain ⟨r, hr⟩ := rest_of_not_atEnd (by simpa using h1)
        rw [advance_of_cons hr, bump_eq_shift (blank_ne_nl h2)]
        simp only [shift]
        omega
      · rw [if_neg h2]; exact h2

theorem skipWhitespace_peek (s : Lexer) : ¬ isBlank (peek (skipWhitespace s)) :=
  skipWhitespaceLoop_peek _ s (Nat.le_refl _)

theorem good_body (hP : Kept P) (hK : ∀ ty, ¬ Structural ty → K ty) {next : Lexer → Outcome}
    (hnext : ∀ s, P s → Good P E K (next s))
    (hind : ∀ s, P s → ¬ isBlank (peek s) → Good P E K (handleIndentation next s))
    {s0 : Lexer} (h0 : P s0) : Good P E K (getNextTokenBody next s0) := by
  have hs := kept_skipWhitespace hP h0
  have hpk := skipWhitespace_peek s0
  unfold getNextTokenBody
  dsimp only
  generalize skipWhitespace s0 = s at hs hpk
  have hm := hP.2.1 _ (hP.1 s hs)
  refine good_ite (fun _ => good_mk hs (kind_ok hK TokenType.END_OF_FILE rfl) hs rfl hs rfl)
    (fun h1 => ?_)
  have hne : isAtEnd s = false := by simpa using h1
  refine good_ite (fun _ => hind s hs hpk) (fun _ => ?_)
  refine good_ite (fun _ => good_identifier hP hK hs) (fun _ => ?_)
  refine good_ite (fun _ => good_number hP hK hs) (fun _ => ?_)
  refine good_ite
    (fun hnl => good_mk (hP.1 s hs) (kind_ok hK TokenType.NEWLINE rfl) hs
      (advance_line_of_nl hne hnl) hs rfl)
    (fun _ => ?_)
  refine good_ite (fun _ => hnext _ (kept_handleComment hP hs)) (fun _ => ?_)
  refine good_ite (fun _ => good_string hP hK hs) (fun _ => ?_)
  refine good_ite (fun _ => good_single hP (kind_ok hK TokenType.PLUS rfl) _ hs hs) (fun _ => ?_)
  refine good_ite (fun _ => good_single hP (kind_ok hK TokenType.MINUS rfl) _ hs hs) (fun _ => ?_)
  refine good_ite (fun _ => good_single hP (kind_ok hK TokenType.MULTIPLY rfl) _ hs hs) (fun _ => ?_)
  refine good_ite (fun _ => good_single hP (kind_ok hK TokenType.DIVIDE rfl) _ hs hs) (fun _ => ?_)
  refine good_ite
    (fun _ => good_double hP (kind_ok hK TokenType.EQUALS rfl) (kind_ok hK TokenType.ASSIGN rfl) _ _ hs hs)
    (fun _ => ?_)
  refine good_ite
    (fun _ => good_ite
      (fun _ => good_mk hm (kind_ok hK TokenType.NOT_EQUALS rfl) hm rfl hs rfl)
      (fun _ => good_mk (hP.2.2 _ _ hm) (kind_ok hK TokenType.ERROR rfl) (hP.2.2 _ _ hm) rfl hs
        rfl))
    (fun _ => ?_)
  refine good_ite
    (fun _ => good_double hP (kind_ok hK TokenType.LESS_EQUAL rfl) (kind_ok hK TokenType.LESS_THAN rfl) _ _ hs hs)
    (fun _ => ?_)
  refine good_ite
    (fun _ => good_double hP (kind_ok hK TokenType.GREATER_EQUAL rfl) (kind_ok hK TokenType.GREATER_THAN rfl) _ _ hs hs)
    (fun _ => ?_)
  refine good_ite (fun _ => good_single hP (kind_ok hK TokenType.LPAREN rfl) _ hs hs) (fun _ => ?_)
  refine good_ite (fun _ => good_single hP (kind_ok hK TokenType.RPAREN rfl) _ hs hs) (fun _ => ?_)
  refine good_ite (fun _ => good_single hP (kind_ok hK TokenType.LBRACE rfl) _ hs hs) (fun _ => ?_)
  refine good_ite (fun _ => good_single hP (kind_ok hK TokenType.RBRACE rfl) _ hs hs) (fun _ => ?_)
  refine good_ite (fun _ => good_single hP (kind_ok hK TokenType.LBRACKET rfl) _ hs hs) (fun _ => ?_)
  refine good_ite (fun _ => good_single hP (kind_ok hK TokenType.RBRACKET rfl) _ hs hs) (fun _ => ?_)
  refine good_ite (fun _ => good_single hP (kind_ok hK TokenType.COLON rfl) _ hs hs) (fun _ => ?_)
  refine good_ite (fun _ => good_single hP (kind_ok hK TokenType.COMMA rfl) _ hs hs) (fun _ => ?_)
  refine good_ite (fun _ => good_single hP (kind_ok hK TokenType.DOT rfl) _ hs hs) (fun _ => ?_)
  exact good_mk (hP.1 _ (hP.2.2 _ _ hs)) (kind_ok hK TokenType.ERROR rfl)
    (hP.1 _ (hP.2.2 _ _ hs)) rfl hs rfl

theorem good_getNextToken (hP : Kept P) (hK : ∀ ty, ¬ Structural ty → K ty)
    (hind : ∀ next : Lexer → Outcome, (∀ s, P s → Good P E K (next s)) →
      ∀ s, P s → ¬ isBlank (peek s) → Good P E K (handleIndentation next s))
    (fuel : Nat) : ∀ s, P s → Good P E K (getNextToken fuel s) := by
  induction fuel with
  | zero => intro s _; exact ⟨fun h => (by cases h), fun t s1 h => (by cases h)⟩
  | succ n ih =>
    intro s h
    rw [getNextToken]
    exact good_body hP hK ih (hind _ ih) h

end Kept

/-! ## Invariants: bookkeeping, indentation stack, reachable states -/

section KeptIndentation

variable {P : Lexer → Prop} {E : Prop} {K : TokenType → Prop}

theorem good_indentation (hP : Kept P)
    (hstack : ∀ s st, P s → P { s with indentationStack := st }) (hI : K TokenType.INDENT)
    (hD : K TokenType.DEDENT) (hE : E) {next : Lexer → Outcome}
    (hnext : ∀ s, P s → Good P E K (next s)) (s : Lexer) (h : P s) :
    Good P E K (handleIndentation next s) := by
  have h1 := kept_indentLoop hP (s.input.length - s.position) 0 s h
  unfold handleIndentation
  dsimp only
  split
  · exact ⟨fun _ => hE, fun t s1 h => (by cases h)⟩
  · refine good_ite (fun _ => good_mk (hstack _ _ h1) hI h1 rfl h rfl) (fun _ => ?_)
    refine good_ite (fun _ => good_mk (hstack _ _ h1) hD h1 rfl h rfl) (fun _ => ?_)
    exact hnext _ h1

end KeptIndentation

theorem take_succ_of_rest {s : Lexer} {c : Char} {r : List Char} (hr : rest s = c :: r) :
    s.input.take (s.position + 1) = s.input.take s.position ++ [c] := by
  rw [List.take_add]
  have : List.take 1 (List.drop s.position s.input) = [c] := by
    show List.take 1 (rest s) = [c]
    rw [hr]; rfl
  rw [this]

theorem position_lt_of_rest {s : Lexer} {c : Char} {r : List Char} (hr : rest s = c :: r) :
    s.position < s.input.length := by
  have := isAtEnd_of_cons hr
  simp [isAtEnd] at this
  exact this

theorem lineOf_snoc (pre : List Char) (c : Char) :
    lineOf (pre ++ [c]) = if c = nl then lineOf pre + 1 else lineOf pre := by
  unfold lineOf
  by_cases h : c = nl
  · subst h; simp; omega
  · rw [if_neg h, List.count_append]
    simp [List.count_cons, h]

theorem columnOf_snoc (pre : List Char) (c : Char) :
    columnOf (pre ++ [c]) = if c = nl then 1 else columnOf pre + 1 := by
  unfold columnOf
  by_cases h : c = nl
  · subst h; simp
  · rw [if_neg h]
    simp [List.takeWhile_cons, h]
    omega

theorem consistent_bump {s : Lexer} {c : Char} {r : List Char} (hr : rest s = c :: r)
    (h : Consistent s) : Consistent (bump c s) := by
  obtain ⟨h1, h2, h3⟩ := h
  have hlt := position_lt_of_rest hr
  have ht := take_succ_of_rest hr
  unfold bump
  by_cases hc : c = nl
  · rw [if_pos hc]
    refine ⟨hlt, ?_, ?_⟩
    · show s.line + 1 = lineOf (s.input.take (s.position + 1))
      rw [ht, lineOf_snoc, if_pos hc, h2]
    · show 1 = columnOf (s.input.take (s.position + 1))
      rw [ht, columnOf_snoc, if_pos hc]
  · rw [if_neg hc]
    refine ⟨hlt, ?_, ?_⟩
    · show s.line = lineOf (s.input.take (s.position + 1))
      rw [ht, lineOf_snoc, if_neg hc, h2]
    · show s.column + 1 = columnOf (s.input.take (s.position + 1))
      rw [ht, columnOf_snoc, if_neg hc, h3]

theorem kept_consistent : Kept Consistent := by
  refine ⟨fun s h => ?_, fun s h => ?_, fun d s h => h⟩
  · cases hr : rest s with
    | nil => rw [advance_of_nil hr]; exact h
    | cons c r => rw [advance_of_cons hr]; exact consistent_bump hr h
  · by_cases hm : ∃ r, rest s = '=' :: r
    · obtain ⟨r, hr⟩ := hm
      rw [matchChar_hit hr, ← bump_eq_shift (c := '=') (by decide)]
      exact consistent_bump hr h
    · rw [matchChar_miss (fun r hr => hm ⟨r, hr⟩)]; exact h

theorem consistent_new (input : List Char) : Consistent (Lexer.new input) := by
  refine ⟨Nat.zero_le _, ?_, ?_⟩ <;> simp [Lexer.new, lineOf, columnOf]

theorem consistent_pos {s : Lexer} (h : Consistent s) : 1 ≤ s.line ∧ 1 ≤ s.column := by
  obtain ⟨_, h2, h3⟩ := h
  rw [h2, h3]; unfold lineOf columnOf; omega

theorem good_consistent (fuel : Nat) (s : Lexer) (h : Consistent s) :
    Good Consistent True (fun _ => True) (getNextToken fuel s) :=
  good_getNextToken kept_consistent (fun _ _ => trivial)
    (fun _ hnext s hs _ =>
      good_indentation kept_consistent (fun _ _ h => h) trivial trivial trivial hnext s hs)
    fuel s h

theorem kept_of_stack (Q : List Nat → Prop) : Kept (fun s => Q s.indentationStack) := by
  refine ⟨fun s h => ?_, fun s h => ?_, fun d s h => h⟩
  · cases hr : rest s with
    | nil => rw [advance_of_nil hr]; exact h
    | cons c r =>
      rw [advance_of_cons hr]
      unfold bump
      by_cases hc : c = nl
      · rw [if_pos hc]; exact h
      · rw [if_neg hc]; exact h
  · unfold matchChar
    by_cases hm : isAtEnd s = true ∨ s.input.getD s.position nul ≠ '='
    · rw [if_pos hm]; exact h
    · rw [if_neg hm]; exact h

theorem good_indentation_base {K : TokenType → Prop} {next : Lexer → Outcome}
    (hnext : ∀ s, s.indentationStack = [0] →
      Good (fun s => s.indentationStack = [0]) False K (next s))
    (s : Lexer) (h : s.indentationStack = [0]) (hpk : ¬ isBlank (peek s)) :
    Good (fun s => s.indentationStack = [0]) False K (handleIndentation next s) := by
  have hp : peek s ≠ ' ' ∧ peek s ≠ '\t' :=
    ⟨fun h1 => hpk (Or.inl h1), fun h1 => hpk (Or.inr (Or.inr h1))⟩
  unfold handleIndentation
  dsimp only
  rw [indentLoop_stop hp, h]
  dsimp only
  rw [if_neg (by omega), if_neg (by omega)]
  exact hnext s h

theorem good_base (fuel : Nat) (s : Lexer) (h : s.indentationStack = [0]) :
    Good (fun s => s.indentationStack = [0]) False
      (fun ty => ty ≠ TokenType.INDENT ∧ ty ≠ TokenType.DEDENT) (getNextToken fuel s) :=
  good_getNextToken (kept_of_stack (fun st => st = [0]))
    (fun _ hty => ⟨fun h => hty (Or.inl h), fun h => hty (Or.inr (Or.inl h))⟩)
    (fun _ hnext s hs hpk => good_indentation_base hnext s hs hpk) fuel s h

theorem kept_input (i : List Char) (p : Nat) :
    Kept (fun s => s.input = i ∧ p ≤ s.position) := by
  refine ⟨fun s h => ?_, fun s h => ?_, fun d s h => h⟩
  · cases hr : rest s with
    | nil => rw [advance_of_nil hr]; exact h
    | cons c r =>
      rw [advance_of_cons hr]
      unfold bump
      by_cases hc : c = nl
      · rw [if_pos hc]; exact ⟨h.1, Nat.le_succ_of_le h.2⟩
      · rw [if_neg hc]; exact ⟨h.1, Nat.le_succ_of_le h.2⟩
  · unfold matchChar
    by_cases hm : isAtEnd s = true ∨ s.input.getD s.position nul ≠ '='
    · rw [if_pos hm]; exact h
    · rw [if_neg hm]; exact ⟨h.1, Nat.le_succ_of_le h.2⟩

theorem good_input (fuel : Nat) (s : Lexer) :
    Good (fun s1 => s1.input = s.input ∧ s.position ≤ s1.position) True (fun _ => True)
      (getNextToken fuel s) :=
  good_getNextToken (kept_input s.input s.position) (fun _ _ => trivial)
    (fun _ hnext s1 hs _ =>
      good_indentation (kept_input s.input s.position) (fun _ _ h => h) trivial trivial trivial
        hnext s1 hs)
    fuel s ⟨rfl, Nat.le_refl _⟩

theorem reachable_invariants {input : List Char} {s : Lexer} (h : Reachable input s) :
    s.input = input ∧ Consistent s ∧ s.indentationStack = [0] := by
  induction h with
  | fresh => exact ⟨rfl, consistent_new input, rfl⟩
  | step fuel _ hstep ih =>
    obtain ⟨h1, h2, h3⟩ := ih
    exact ⟨((good_input fuel _).2 _ _ hstep).1.1.trans h1,
      ((good_consistent fuel _ h2).2 _ _ hstep).1, ((good_base fuel _ h3).2 _ _ hstep).1⟩

/-! ## Progress of the cursor -/

theorem progress_ite {p0 : Nat} {c : Prop} [Decidable c] {a b : Outcome}
    (ha : c → Progress p0 a) (hb : ¬ c → Progress p0 b) : Progress p0 (if c then a else b) := by
  by_cases h : c
  · rw [if_pos h]; exact ha h
  · rw [if_neg h]; exact hb h

theorem progress_ok {p0 : Nat} {t : Token} {s1 : Lexer} (hty : t.type ≠ TokenType.END_OF_FILE)
    (h : p0 < s1.position) : Progress p0 (Outcome.ok t s1) := by
  intro t1 s2 heq
  cases heq
  exact ⟨fun _ => h, fun h1 => absurd h1 hty⟩

theorem progress_mk {p0 : Nat} (ty : TokenType) {v : String} {l c : Nat} {s1 : Lexer}
    (hty : ty ≠ TokenType.END_OF_FILE) (h : p0 < s1.position) :
    Progress p0 (Outcome.ok ⟨ty, v, l, c⟩ s1) :=
  progress_ok hty h

theorem progress_mono {p0 p : Nat} {o : Outcome} (hp : p0 ≤ p) (h : Progress p o) :
    Progress p0 o := by
  intro t s1 heq
  exact ⟨fun hty => Nat.lt_of_le_of_lt hp ((h t s1 heq).1 hty), (h t s1 heq).2⟩

theorem checkKeyword_ne_eof (x : String) : checkKeyword x ≠ TokenType.END_OF_FILE := by
  have h : ∀ p ∈ keywordTable, p.2 ≠ TokenType.END_OF_FILE := by decide
  by_cases hx : ∀ p ∈ keywordTable, x ≠ p.1
  · rw [checkKeyword_other x hx]; decide
  · push_neg at hx
    obtain ⟨p, hp, rfl⟩ := hx
    rw [checkKeyword_keyword p hp]; exact h p hp

theorem advance_position {s : Lexer} (hne : isAtEnd s = false) :
    (advance s).2.input = s.input ∧ s.position + 1 ≤ (advance s).2.position := by
  obtain ⟨r, hr⟩ := rest_of_not_atEnd hne
  rw [advance_of_cons hr]
  unfold bump
  by_cases hc : peek s = nl
  · rw [if_pos hc]; exact ⟨rfl, Nat.le_refl _⟩
  · rw [if_neg hc]; exact ⟨rfl, Nat.le_refl _⟩

theorem remaining_succ {s : Lexer} (hne : isAtEnd s = false) :
    ∃ m, s.input.length - s.position = m + 1 := by
  simp [isAtEnd] at hne
  exact ⟨s.input.length - s.position - 1, by omega⟩

theorem handleIdentifier_position {s : Lexer} (hne : isAtEnd s = false)
    (ha : isAlpha (peek s) = true) : s.position + 1 ≤ (handleIdentifier s).2.position := by
  obtain ⟨m, hm⟩ := remaining_succ hne
  have hc : (!isAtEnd s && isAlphaNumeric (peek s)) = true := by
    simp [hne, isAlphaNumeric, ha]
  show s.position + 1 ≤ (identifierLoop (s.input.length - s.position) "" s).2.position
  rw [hm, identifierLoop, if_pos hc]
  exact (kept_identifierLoop (kept_input s.input (s.position + 1)) m _ _
    (advance_position hne)).2

theorem handleNumber_position {s : Lexer} (hne : isAtEnd s = false)
    (hd : isDigit (peek s) = true) : s.position + 1 ≤ (handleNumber s).2.position := by
  obtain ⟨m, hm⟩ := remaining_succ hne
  have hc : (!isAtEnd s && (isDigit (peek s) || decide (peek s = '.'))) = true := by
    simp [hne, hd]
  have hk := kept_numberLoop (kept_input s.input (s.position + 1)) s.column m
    (("" : String).push (advance s).1) false (advance s).2 (advance_position hne)
  unfold handleNumber
  dsimp only
  rw [hm, numberLoop, if_pos hc]
  dsimp only
  rw [if_neg (digit_ne_dot hd)]
  cases hl : numberLoop s.column m (("" : String).push (advance s).1) false (advance s).2 with
  | inl r => exact (hk.1 r hl).1.2
  | inr r => exact (hk.2 r hl).2

theorem handleString_position {s : Lexer} (hne : isAtEnd s = false) :
    s.position + 1 ≤ (handleString s).2.position := by
  have hP := kept_input s.input (s.position + 1)
  have hk := kept_stringLoop hP s.column (advance s).1
    ((advance s).2.input.length - (advance s).2.position) "" (advance s).2 (advance_position hne)
  unfold handleString
  dsimp only
  cases hl : stringLoop s.column (advance s).1
      ((advance s).2.input.length - (advance s).2.position) "" (advance s).2 with
  | inl r => exact (hk.1 r hl).1.2
  | inr r =>
    have h1 := hk.2 r hl
    dsimp only
    by_cases h3 : isAtEnd r.2 = true
    · rw [if_pos h3]; exact h1.2
    · rw [if_neg h3]; exact (hP.1 _ h1).2

theorem progress_single {p0 : Nat} (ty : TokenType) (hty : ty ≠ TokenType.END_OF_FILE)
    (txt : String) (sc : Nat) {s : Lexer} (hp : p0 ≤ s.position) (hne : isAtEnd s = false) :
    Progress p0 (single ty txt sc s) :=
  progress_mk ty hty (Nat.lt_of_le_of_lt hp (advance_position hne).2)

theorem progress_double {p0 : Nat} (two one : TokenType) (h2 : two ≠ TokenType.END_OF_FILE)
    (h1 : one ≠ TokenType.END_OF_FILE) (twoText oneText : String) (sc : Nat) {s : Lexer}
    (hp : p0 ≤ s.position) (hne : isAtEnd s = false) :
    Progress p0 (double two twoText one oneText sc s) := by
  have hm := ((kept_input s.input (s.position + 1)).2.1 _ (advance_position hne)).2
  unfold double
  exact progress_ite (fun _ => progress_mk two h2 (by omega))
    (fun _ => progress_mk one h1 (by omega))

theorem handleNumber_kind (s : Lexer) :
    (handleNumber s).1.type = TokenType.ERROR ∨ (handleNumber s).1.type = TokenType.FLOAT ∨
      (handleNumber s).1.type = TokenType.INTEGER := by
  have hk := kept_numberLoop (kept_of_stack (fun _ => True)) s.column
    (s.input.length - s.position) "" false s trivial
  unfold handleNumber
  dsimp only
  cases hl : numberLoop s.column (s.input.length - s.position) "" false s with
  | inl r => exact Or.inl (hk.1 r hl).2.1
  | inr r =>
    dsimp only
    by_cases hf : r.2.1 = true
    · rw [if_pos hf]; exact Or.inr (Or.inl rfl)
    · rw [if_neg hf]; exact Or.inr (Or.inr rfl)

theorem handleString_kind (s : Lexer) :
    (handleString s).1.type = TokenType.ERROR ∨ (handleString s).1.type = TokenType.STRING := by
  have hk := kept_stringLoop (kept_of_stack (fun _ => True)) s.column (advance s).1
    ((advance s).2.input.length - (advance s).2.position) "" (advance s).2 trivial
  unfold handleString
  dsimp only
  cases hl : stringLoop s.column (advance s).1
      ((advance s).2.input.length - (advance s).2.position) "" (advance s).2 with
  | inl r => exact Or.inl (hk.1 r hl).2.1
  | inr r =>
    dsimp only
    by_cases h3 : isAtEnd r.2 = true
    · rw [if_pos h3]; exact Or.inl rfl
    · rw [if_neg h3]; exact Or.inr rfl

theorem progress_body {next : Lexer → Outcome}
    (hnext : ∀ s, s.indentationStack = [0] → Progress s.position (next s))
    {s0 : Lexer} (h0 : s0.indentationStack = [0]) :
    Progress s0.position (getNextTokenBody next s0) := by
  have hin := kept_skipWhitespace (kept_input s0.input s0.position)
    (show s0.input = s0.input ∧ s0.position ≤ s0.position from ⟨rfl, Nat.le_refl _⟩)
  have hst := kept_skipWhitespace (kept_of_stack (fun st => st = [0])) h0
  have hpk := skipWhitespace_peek s0
  unfold getNextTokenBody
  dsimp only
  generalize skipWhitespace s0 = s at hin hst hpk
  have hpos := hin.2
  refine progress_ite (fun hend => ?_) (fun h1 => ?_)
  · intro t s1 heq
    cases heq
    exact ⟨fun h => absurd rfl h, fun _ => by simpa [isAtEnd] using hend⟩
  have hne : isAtEnd s = false := by simpa using h1
  have hadv := (advance_position hne).2
  have hm := ((kept_input s.input (s.position + 1)).2.1 _ (advance_position hne)).2
  refine progress_ite (fun _ => ?_) (fun _ => ?_)
  · have hp : peek s ≠ ' ' ∧ peek s ≠ '\t' :=
      ⟨fun h2 => hpk (Or.inl h2), fun h2 => hpk (Or.inr (Or.inr h2))⟩
    unfold handleIndentation
    dsimp only
    rw [indentLoop_stop hp, hst]
    dsimp only
    rw [if_neg (by omega), if_neg (by omega)]
    exact progress_mono hpos (hnext s hst)
  refine progress_ite
    (fun ha => progress_ok (checkKeyword_ne_eof _)
      (Nat.lt_of_le_of_lt hpos (handleIdentifier_position hne ha)))
    (fun _ => ?_)
  refine progress_ite (fun hd => ?_) (fun _ => ?_)
  · refine progress_ok ?_ (Nat.lt_of_le_of_lt hpos (handleNumber_position hne hd))
    rcases handleNumber_kind s with h | h | h <;> rw [h] <;> decide
  refine progress_ite (fun _ => progress_mk TokenType.NEWLINE (by decide) (by omega))
    (fun _ => ?_)
  refine progress_ite (fun _ => ?_) (fun _ => ?_)
  · have hc := kept_handleComment (kept_input s0.input s0.position) hin
    exact progress_mono hc.2
      (hnext _ (kept_handleComment (kept_of_stack (fun st => st = [0])) hst))
  refine progress_ite (fun _ => ?_) (fun _ => ?_)
  · refine progress_ok ?_ (Nat.lt_of_le_of_lt hpos (handleString_position hne))
    rcases handleString_kind s with h | h <;> rw [h] <;> decide
  refine progress_ite (fun _ => progress_single TokenType.PLUS (by decide) _ _ hpos hne) (fun _ => ?_)
  refine progress_ite (fun _ => progress_single TokenType.MINUS (by decide) _ _ hpos hne) (fun _ => ?_)
  refine progress_ite (fun _ => progress_single TokenType.MULTIPLY (by decide) _ _ hpos hne) (fun _ => ?_)
  refine progress_ite (fun _ => progress_single TokenType.DIVIDE (by decide) _ _ hpos hne) (fun _ => ?_)
  refine progress_ite
    (fun _ => progress_double TokenType.EQUALS TokenType.ASSIGN (by decide) (by decide) _ _ _ hpos hne)
    (fun _ => ?_)
  refine progress_ite
    (fun _ => progress_ite (fun _ => progress_mk TokenType.NOT_EQUALS (by decide) (by omega))
      (fun _ => progress_mk TokenType.ERROR (by decide)
        (show s0.position < (matchChar '=' (advance s).2).2.position by omega)))
    (fun _ => ?_)
  refine progress_ite
    (fun _ => progress_double TokenType.LESS_EQUAL TokenType.LESS_THAN (by decide) (by decide) _ _ _ hpos hne)
    (fun _ => ?_)
  refine progress_ite
    (fun _ => progress_double TokenType.GREATER_EQUAL TokenType.GREATER_THAN (by decide) (by decide) _ _ _ hpos hne)
    (fun _ => ?_)
  refine progress_ite (fun _ => progress_single TokenType.LPAREN (by decide) _ _ hpos hne) (fun _ => ?_)
  refine progress_ite (fun _ => progress_single TokenType.RPAREN (by decide) _ _ hpos hne) (fun _ => ?_)
  refine progress_ite (fun _ => progress_single TokenType.LBRACE (by decide) _ _ hpos hne) (fun _ => ?_)
  refine progress_ite (fun _ => progress_single TokenType.RBRACE (by decide) _ _ hpos hne) (fun _ => ?_)
  refine progress_ite (fun _ => progress_single TokenType.LBRACKET (by decide) _ _ hpos hne) (fun _ => ?_)
  refine progress_ite (fun _ => progress_single TokenType.RBRACKET (by decide) _ _ hpos hne) (fun _ => ?_)
  refine progress_ite (fun _ => progress_single TokenType.COLON (by decide) _ _ hpos hne) (fun _ => ?_)
  refine progress_ite (fun _ => progress_single TokenType.COMMA (by decide) _ _ hpos hne) (fun _ => ?_)
  refine progress_ite (fun _ => progress_single TokenType.DOT (by decide) _ _ hpos hne) (fun _ => ?_)
  exact progress_mk TokenType.ERROR (by decide)
    (Nat.lt_of_le_of_lt hpos (advance_position (s := setError _ s) hne).2)

theorem progress_getNextToken (fuel : Nat) :
    ∀ s, s.indentationStack = [0] → Progress s.position (getNextToken fuel s) := by
  induction fuel with
  | zero => intro s _ t s1 h; cases h
  | succ n ih => intro s h; rw [getNextToken]; exact progress_body ih h

/-! ## Claims C13 and C16 to C20 -/

theorem handleComment_to_end {s : Lexer} (cs : List Char) (hcs : ∀ c ∈ cs, c ≠ nl)
    (hr : rest s = cs) : handleComment s = shift cs.length s := by
  unfold handleComment
  rw [remaining_eq, commentLoop_run cs hcs _ s [] (by simpa using hr) (by simp [hr])]
  apply commentLoop_stop
  intro c r1 h1
  rw [rest_shift, hr] at h1
  simp at h1

theorem getNextTokenBody_comment_to_end {s : Lexer} (b : List Char) (hb : nl ∉ b)
    (hr : rest s = '#' :: b) (hcol : s.column ≠ 1) (next : Lexer → Outcome) :
    getNextTokenBody next s = next (shift (b.length + 1) s) := by
  have hsk : skipWhitespace s = s :=
    skipWhitespace_stop (fun c1 r1 h1 => by rw [hr] at h1; cases h1; decide)
  have hcs : ∀ c ∈ '#' :: b, c ≠ nl := by
    intro c hc
    rcases List.mem_cons.1 hc with rfl | hc
    · decide
    · rintro rfl; exact hb hc
  have hcol1 : ¬ (s.column = 1 ∧ '#' ≠ nl) := fun h => hcol h.1
  unfold getNextTokenBody
  dsimp only
  rw [hsk, isAtEnd_of_cons hr, peek_of_cons hr, if_neg (by decide), if_neg hcol1,
    if_neg (by decide), if_neg (by decide), if_neg (by decide), if_pos rfl,
    handleComment_to_end _ hcs hr]
  rfl

/-- Claim C16: no `getNextToken` call in any state returns a token of kind
COMMENT; and in every state whose column is past 1 and whose remaining input is
a `#` and a comment text `b` without newline, `getNextToken` discards the `#`
and `b` and returns what follows: the NEWLINE token of the newline after `b`,
which it consumes, or END_OF_FILE when the input ends after `b`. -/
theorem comments_produce_no_token (s : Lexer) (b : List Char) (fuel : Nat)
    (hcol : 1 < s.column) (hb : nl ∉ b) :
    (∀ (s0 : Lexer) (t : Token) (s1 : Lexer),
      getNextToken fuel s0 = Outcome.ok t s1 → t.type ≠ TokenType.COMMENT) ∧
    (∀ r, rest s = '#' :: (b ++ nl :: r) →
      getNextToken (fuel + 2) s =
        Outcome.ok ⟨TokenType.NEWLINE, "\\n", s.line, s.column + (b.length + 1)⟩
          { s with position := s.position + (b.length + 1) + 1, line := s.line + 1,
                   column := 1 }) ∧
    (rest s = '#' :: b →
      getNextToken (fuel + 2) s =
        Outcome.ok ⟨TokenType.END_OF_FILE, "", s.line, s.column + (b.length + 1)⟩
          { s with position := s.position + (b.length + 1),
                   column := s.column + (b.length + 1) }) := by
  refine ⟨fun s0 t s1 h => ?_, fun r hr => ?_, fun hr => ?_⟩
  · exact ((good_getNextToken (P := fun _ => True) (E := True)
      (K := fun ty => ty ≠ TokenType.COMMENT) (kept_of_stack (fun _ => True))
      (fun _ hty h => hty (Or.inr (Or.inr h)))
      (fun _ hnext s2 hs _ =>
        good_indentation (kept_of_stack (fun _ => True)) (fun _ _ _ => trivial) (by decide)
          (by decide) trivial hnext s2 hs)
      fuel s0 trivial).2 t s1 h).2.1
  · have hr1 : rest s = [] ++ '#' :: (b ++ nl :: r) := hr
    have hr2 : rest (shift (b.length + 1) s) = [] ++ nl :: r := by
      rw [rest_shift, hr]
      have : '#' :: (b ++ nl :: r) = ('#' :: b) ++ nl :: r := by simp
      rw [this, List.drop_left' (by simp)]
      rfl
    rw [getNextToken, getNextTokenBody_comment [] b r (by simp) hb hr1 (by simp; omega),
      getNextToken]
    simp only [List.length_nil, Nat.zero_add]
    rw [getNextTokenBody_newline [] r (by simp) hr2]
    simp [shift, Nat.add_assoc]
  · have hr2 : rest (shift (b.length + 1) s) = [] := by
      rw [rest_shift, hr]
      simp
    rw [getNextToken, getNextTokenBody_comment_to_end b hb hr (by omega), getNextToken,
      getNextTokenBody_eof hr2]
    rfl

/-- The comment of ` #c` followed by a newline yields the NEWLINE token, by
`comments_produce_no_token`. -/
theorem comments_produce_no_token_witness :
    getNextToken 2 { Lexer.new " #c\n".toList with position := 1, column := 2 } =
      Outcome.ok ⟨TokenType.NEWLINE, "\\n", 1, 4⟩
        { Lexer.new " #c\n".toList with position := 4, line := 2, column := 1 } :=
  (comments_produce_no_token { Lexer.new " #c\n".toList with position := 1, column := 2 }
    "c".toList 0 (by decide) (by decide)).2.1 [] rfl

/-- Claim C17: in every state whose remaining input is a run `ws` of spaces,
tabs and carriage returns followed by a newline, at any column, `getNextToken`
consumes the run and exactly that newline and returns a NEWLINE token whose line
is the line before the increment and whose column is the column of the newline
character; afterwards the line is one greater and the column is 1.  The state
is one in which the `int` counters of the source do not overflow during the
call: the line is below `intMax`, and the column of the newline character is at
most `intMax`; the line and the column of the token and of the state left are
then values of an `int` as well. -/
theorem newline_token (s : Lexer) (ws r : List Char) (fuel : Nat) (hws : ∀ c ∈ ws, isBlank c)
    (hr : rest s = ws ++ nl :: r) (hline : s.line < intMax)
    (hcol : s.column + ws.length ≤ intMax) :
    getNextToken (fuel + 1) s =
      Outcome.ok ⟨TokenType.NEWLINE, "\\n", s.line, s.column + ws.length⟩
        { s with position := s.position + (ws.length + 1), line := s.line + 1, column := 1 } ∧
    s.line + 1 ≤ intMax ∧ s.column + ws.length ≤ intMax := by
  rw [getNextToken]
  exact ⟨getNextTokenBody_newline ws r hws hr _, hline, hcol⟩

/-- The newline after two spaces at the start of a line, by `newline_token`. -/
theorem newline_token_witness :
    getNextToken 1 (Lexer.new "  \n".toList) =
      Outcome.ok ⟨TokenType.NEWLINE, "\\n", 1, 3⟩
        { Lexer.new "  \n".toList with position := 3, line := 2, column := 1 } :=
  (newline_token (Lexer.new "  \n".toList) "  ".toList [] 0 (by decide) rfl (by decide)
    (by decide)).1

theorem kept_and {P Q : Lexer → Prop} (hP : Kept P) (hQ : Kept Q) :
    Kept (fun s => P s ∧ Q s) :=
  ⟨fun s h => ⟨hP.1 s h.1, hQ.1 s h.2⟩, fun s h => ⟨hP.2.1 s h.1, hQ.2.1 s h.2⟩,
    fun d s h => ⟨hP.2.2 d s h.1, hQ.2.2 d s h.2⟩⟩

/-- In a consistent state the line and the column are at most one more than the length of the
input. -/
theorem consistent_le {s : Lexer} (h : Consistent s) :
    s.line ≤ 1 + s.input.length ∧ s.column ≤ 1 + s.input.length := by
  obtain ⟨h1, h2, h3⟩ := h
  have hc : (s.input.take s.position).count nl ≤ s.input.length :=
    le_trans (List.count_le_length _ _) (by rw [List.length_take]; exact Nat.min_le_right _ _)
  have ht : ((s.input.take s.position).reverse.takeWhile (fun c => c != nl)).length ≤
      s.input.length := by
    refine le_trans (List.Sublist.length_le (List.takeWhile_sublist _)) ?_
    rw [List.length_reverse, List.length_take]
    exact Nat.min_le_right _ _
  rw [h2, h3]
  unfold lineOf columnOf
  omega

theorem good_consistent_on (input : List Char) (fuel : Nat) (s : Lexer) (h : Consistent s)
    (hi : s.input = input) :
    Good (fun s1 => Consistent s1 ∧ s1.input = input ∧ 0 ≤ s1.position) True (fun _ => True)
      (getNextToken fuel s) :=
  good_getNextToken (kept_and kept_consistent (kept_input input 0)) (fun _ _ => trivial)
    (fun _ hnext s1 hs _ =>
      good_indentation (kept_and kept_consistent (kept_input input 0)) (fun _ _ h => h) trivial
        trivial trivial hnext s1 hs)
    fuel s ⟨h, hi, Nat.zero_le _⟩

/-- Claim C18: in every state reachable from a fresh lexer on `input` the input
is unchanged, the offset is at most the length of the input, the line is 1 plus
the number of newlines before the offset, and the column is 1 plus the number of
characters between the last newline before the offset (or the start of the
input) and the offset; every token returned from such a state has line and
column at least 1.  The input is shorter than `intMax`, the inputs on which the
`int` counters of the source do not overflow: line and column of every such
state and of every such token are then at most `intMax`. -/
theorem bookkeeping_consistent (input : List Char) (s : Lexer) (hlen : input.length < intMax)
    (h : Reachable input s) :
    s.input = input ∧ s.position ≤ input.length ∧
    s.line = 1 + (input.take s.position).count nl ∧
    s.column = 1 + ((input.take s.position).reverse.takeWhile (fun c => c != nl)).length ∧
    s.line ≤ intMax ∧ s.column ≤ intMax ∧
    ∀ fuel t s1, getNextToken fuel s = Outcome.ok t s1 →
      1 ≤ t.line ∧ 1 ≤ t.column ∧ t.line ≤ intMax ∧ t.column ≤ intMax := by
  obtain ⟨h1, h2, _⟩ := reachable_invariants h
  have hb := consistent_le h2
  have ⟨hp, hl, hc⟩ := h2
  rw [h1] at hp hl hc hb
  refine ⟨h1, hp, hl, hc, by omega, by omega, fun fuel t s1 hstep => ?_⟩
  obtain ⟨_, _, ⟨sl, hsl, hle⟩, ⟨sc, hsc, hce⟩⟩ :=
    (good_consistent_on input fuel s h2 h1).2 t s1 hstep
  have bl := consistent_le hsl.1
  have bc := consistent_le hsc.1
  rw [hsl.2.1] at bl
  rw [hsc.2.1] at bc
  rw [hle, hce]
  exact ⟨(consistent_pos hsl.1).1, (consistent_pos hsc.1).2, by omega, by omega⟩

/-- The state `sampleState` is reached from a fresh lexer on `sampleInput`. -/
theorem sampleState_reachable : Reachable sampleInput sampleState :=
  Reachable.step 1 Reachable.fresh
    (show getNextToken 1 (Lexer.new sampleInput) =
      Outcome.ok ⟨TokenType.IDENTIFIER, "x", 1, 2⟩ sampleState by decide)

/-- Line 1 and column 3 at offset 2 of `sampleInput`, and the NEWLINE token at
line 1, column 3, by `bookkeeping_consistent`. -/
theorem bookkeeping_consistent_witness :
    sampleState.line = 1 + (sampleInput.take sampleState.position).count nl ∧
    sampleState.column =
      1 + ((sampleInput.take sampleState.position).reverse.takeWhile (fun c => c != nl)).length ∧
    1 ≤ (1 : Nat) ∧ 1 ≤ (3 : Nat) ∧ (1 : Nat) ≤ intMax ∧ (3 : Nat) ≤ intMax :=
  ⟨(bookkeeping_consistent sampleInput sampleState (by decide) sampleState_reachable).2.2.1,
    (bookkeeping_consistent sampleInput sampleState (by decide) sampleState_reachable).2.2.2.1,
    (bookkeeping_consistent sampleInput sampleState (by decide)
      sampleState_reachable).2.2.2.2.2.2 1
      ⟨TokenType.NEWLINE, "\\n", 1, 3⟩ sampleNext (by decide)⟩

/-- Claim C19: for every state reachable from a fresh lexer on `input`, if a
`getNextToken` call returns token `t`, the offset after the call is at least
the offset before it; it is strictly greater if `t` is not END_OF_FILE, and it
equals the length of the input if `t` is END_OF_FILE. -/
theorem cursor_moves_forward (input : List Char) (s : Lexer) (h : Reachable input s)
    (fuel : Nat) (t : Token) (s1 : Lexer) (hstep : getNextToken fuel s = Outcome.ok t s1) :
    s.position ≤ s1.position ∧
    (t.type ≠ TokenType.END_OF_FILE → s.position < s1.position) ∧
    (t.type = TokenType.END_OF_FILE → s1.position = input.length) := by
  obtain ⟨h1, h2, h3⟩ := reachable_invariants h
  obtain ⟨h4, h5, _⟩ := reachable_invariants (Reachable.step fuel h hstep)
  have hp := progress_getNextToken fuel s h3 t s1 hstep
  refine ⟨((good_input fuel s).2 t s1 hstep).1.2, hp.1, fun ht => ?_⟩
  have := hp.2 ht
  have := h5.1
  rw [h4] at *
  omega

/-- The NEWLINE token of `sampleInput` moves the offset from 2 to 3, by
`cursor_moves_forward`. -/
theorem cursor_moves_forward_witness :
    sampleState.position ≤ sampleNext.position ∧
    (TokenType.NEWLINE ≠ TokenType.END_OF_FILE → sampleState.position < sampleNext.position) ∧
    (TokenType.NEWLINE = TokenType.END_OF_FILE → sampleNext.position = sampleInput.length) :=
  cursor_moves_forward sampleInput sampleState sampleState_reachable 1
    ⟨TokenType.NEWLINE, "\\n", 1, 3⟩ sampleNext (by decide)

/-- Claim C20: in every state reachable from a fresh lexer the indentation
stack is exactly `[0]`, and no `getNextToken` call made in such a state returns
a token of kind INDENT or DEDENT. -/
theorem stack_stays_at_base (input : List Char) (s : Lexer) (h : Reachable input s) :
    s.indentationStack = [0] ∧
    ∀ fuel t s1, getNextToken fuel s = Outcome.ok t s1 →
      t.type ≠ TokenType.INDENT ∧ t.type ≠ TokenType.DEDENT := by
  obtain ⟨_, _, h3⟩ := reachable_invariants h
  exact ⟨h3, fun fuel t s1 hstep => ((good_base fuel s h3).2 t s1 hstep).2.1⟩

/-- The stack of `sampleState` is `[0]` and its next token is neither INDENT
nor DEDENT, by `stack_stays_at_base`. -/
theorem stack_stays_at_base_witness :
    sampleState.indentationStack = [0] ∧
    (TokenType.NEWLINE ≠ TokenType.INDENT ∧ TokenType.NEWLINE ≠ TokenType.DEDENT) :=
  ⟨(stack_stays_at_base sampleInput sampleState sampleState_reachable).1,
    (stack_stays_at_base sampleInput sampleState sampleState_reachable).2 1
      ⟨TokenType.NEWLINE, "\\n", 1, 3⟩ sampleNext (by decide)⟩

/-! ## Claim C21: when `getNextToken` returns -/

theorem returns_ite {c : Prop} [Decidable c] {a b : Outcome}
    (ha : c → Returns a) (hb : ¬ c → Returns b) : Returns (if c then a else b) := by
  by_cases h : c
  · rw [if_pos h]; exact ha h
  · rw [if_neg h]; exact hb h

theorem returns_ok (t : Token) (s : Lexer) : Returns (Outcome.ok t s) := ⟨t, s, rfl⟩

theorem returns_single (ty : TokenType) (txt : String) (sc : Nat) (s : Lexer) :
    Returns (single ty txt sc s) := ⟨_, _, rfl⟩

theorem returns_double (two : TokenType) (twoText : String) (one : TokenType) (oneText : String)
    (sc : Nat) (s : Lexer) : Returns (double two twoText one oneText sc s) := by
  unfold double
  exact returns_ite (fun _ => returns_ok _ _) (fun _ => returns_ok _ _)

theorem skipWhitespace_fixed (s : Lexer) : skipWhitespace (skipWhitespace s) = skipWhitespace s := by
  apply skipWhitespace_stop
  intro c r hr
  have := skipWhitespace_peek s
  rwa [peek_of_cons hr] at this

theorem skipWhitespaceLoop_shift (n : Nat) : ∀ s : Lexer, ∃ k, skipWhitespaceLoop n s = shift k s := by
  induction n with
  | zero => intro s; exact ⟨0, (shift_zero s).symm⟩
  | succ n ih =>
    intro s
    rw [skipWhitespaceLoop]
    dsimp only
    by_cases h1 : isAtEnd s = true
    · rw [if_pos h1]; exact ⟨0, (shift_zero s).symm⟩
    · rw [if_neg h1]
      by_cases h2 : peek s = ' ' ∨ peek s = '\r' ∨ peek s = '\t'
      · rw [if_pos h2]
        obtain ⟨r, hr⟩ := rest_of_not_atEnd (by simpa using h1)
        rw [advance_of_cons hr, bump_eq_shift (blank_ne_nl h2)]
        obtain ⟨k, hk⟩ := ih (shift 1 s)
        exact ⟨1 + k, by rw [hk, shift_shift]⟩
      · rw [if_neg h2]; exact ⟨0, (shift_zero s).symm⟩

theorem skipWhitespace_of_column {s : Lexer} (h1 : 1 ≤ s.column)
    (h2 : (skipWhitespace s).column = 1) : skipWhitespace s = s := by
  obtain ⟨k, hk⟩ := skipWhitespaceLoop_shift (s.input.length - s.position) s
  have hk1 : skipWhitespace s = shift k s := hk
  rw [hk1] at h2 ⊢
  have : k = 0 := by simp only [shift] at h2; omega
  rw [this, shift_zero]

theorem commentLoop_rest (n : Nat) : ∀ s : Lexer, (rest s).length ≤ n →
    rest (commentLoop n s) = [] ∨ ∃ r, rest (commentLoop n s) = nl :: r := by
  induction n with
  | zero =>
    intro s hn
    left
    rw [commentLoop]
    exact List.length_eq_zero.1 (Nat.le_zero.1 hn)
  | succ n ih =>
    intro s hn
    rw [commentLoop]
    cases hr : rest s with
    | nil =>
      simp only [isAtEnd_of_nil hr, Bool.not_true, Bool.false_and, Bool.false_eq_true, if_false]
      exact Or.inl hr
    | cons c r =>
      by_cases hc : c = nl
      · subst hc
        simp only [isAtEnd_of_cons hr, peek_of_cons hr, ne_eq, not_true_eq_false, decide_False,
          Bool.and_false, Bool.false_eq_true, if_false]
        exact Or.inr ⟨r, hr⟩
      · simp only [isAtEnd_of_cons hr, peek_of_cons hr, ne_eq, hc, not_false_eq_true, decide_True,
          Bool.not_false, Bool.and_self, if_true, advance_of_cons hr]
        apply ih
        rw [rest_bump hr]
        rw [hr] at hn
        simpa using hn

theorem handleComment_rest (s : Lexer) :
    rest (handleComment s) = [] ∨ ∃ r, rest (handleComment s) = nl :: r :=
  commentLoop_rest _ s (by rw [remaining_eq])

theorem returns_after_comment (s : Lexer) (fuel : Nat) :
    Returns (getNextToken (fuel + 1) (handleComment s)) := by
  rw [getNextToken]
  rcases handleComment_rest s with h | ⟨r, h⟩
  · rw [getNextTokenBody_eof h]; exact returns_ok _ _
  · rw [getNextTokenBody_newline [] r (by simp) (by simpa using h)]; exact returns_ok _ _

theorem getNextTokenBody_line_start {s0 : Lexer} (h1 : isAtEnd (skipWhitespace s0) = false)
    (h2 : (skipWhitespace s0).column = 1) (h3 : peek (skipWhitespace s0) ≠ nl)
    (next : Lexer → Outcome) :
    getNextTokenBody next s0 = handleIndentation next (skipWhitespace s0) := by
  unfold getNextTokenBody
  dsimp only
  rw [h1, if_neg (by decide), if_pos ⟨h2, h3⟩]

theorem handleIndentation_base {s : Lexer} {st : List Nat} (hst : s.indentationStack = 0 :: st)
    (hpk : ¬ isBlank (peek s)) (next : Lexer → Outcome) : handleIndentation next s = next s := by
  have hp : peek s ≠ ' ' ∧ peek s ≠ '\t' :=
    ⟨fun h1 => hpk (Or.inl h1), fun h1 => hpk (Or.inr (Or.inr h1))⟩
  unfold handleIndentation
  dsimp only
  rw [indentLoop_stop hp, hst]
  dsimp only
  rw [if_neg (by omega), if_neg (by omega)]

theorem returns_body {next : Lexer → Outcome} {s0 : Lexer}
    (hcond : isAtEnd (skipWhitespace s0) = true ∨ (skipWhitespace s0).column ≠ 1 ∨
      peek (skipWhitespace s0) = nl)
    (hcom : Returns (next (handleComment (skipWhitespace s0)))) :
    Returns (getNextTokenBody next s0) := by
  unfold getNextTokenBody
  dsimp only
  generalize skipWhitespace s0 = s at hcond hcom
  refine returns_ite (fun _ => returns_ok _ _) (fun h1 => ?_)
  refine returns_ite (fun h2 => ?_) (fun _ => ?_)
  · rcases hcond with h | h | h
    · exact absurd h h1
    · exact absurd h2.1 h
    · exact absurd h h2.2
  refine returns_ite (fun _ => returns_ok _ _) (fun _ => ?_)
  refine returns_ite (fun _ => returns_ok _ _) (fun _ => ?_)
  refine returns_ite (fun _ => returns_ok _ _) (fun _ => ?_)
  refine returns_ite (fun _ => hcom) (fun _ => ?_)
  refine returns_ite (fun _ => returns_ok _ _) (fun _ => ?_)
  refine returns_ite (fun _ => returns_single _ _ _ _) (fun _ => ?_)
  refine returns_ite (fun _ => returns_single _ _ _ _) (fun _ => ?_)
  refine returns_ite (fun _ => returns_single _ _ _ _) (fun _ => ?_)
  refine returns_ite (fun _ => returns_single _ _ _ _) (fun _ => ?_)
  refine returns_ite (fun _ => returns_double _ _ _ _ _ _) (fun _ => ?_)
  refine returns_ite
    (fun _ => returns_ite (fun _ => returns_ok _ _) (fun _ => returns_ok _ _)) (fun _ => ?_)
  refine returns_ite (fun _ => returns_double _ _ _ _ _ _) (fun _ => ?_)
  refine returns_ite (fun _ => returns_double _ _ _ _ _ _) (fun _ => ?_)
  refine returns_ite (fun _ => returns_single _ _ _ _) (fun _ => ?_)
  refine returns_ite (fun _ => returns_single _ _ _ _) (fun _ => ?_)
  refine returns_ite (fun _ => returns_single _ _ _ _) (fun _ => ?_)
  refine returns_ite (fun _ => returns_single _ _ _ _) (fun _ => ?_)
  refine returns_ite (fun _ => returns_single _ _ _ _) (fun _ => ?_)
  refine returns_ite (fun _ => returns_single _ _ _ _) (fun _ => ?_)
  refine returns_ite (fun _ => returns_single _ _ _ _) (fun _ => ?_)
  refine returns_ite (fun _ => returns_single _ _ _ _) (fun _ => ?_)
  refine returns_ite (fun _ => returns_single _ _ _ _) (fun _ => ?_)
  exact returns_ok _ _

/-- Claim C21: for every state whose indentation stack is `[0]`, some call
depth makes `getNextToken` return a token if and only if, after `skipWhitespace`,
the cursor is at end of input, or its column is not 1, or the next character is
a newline.  In the remaining case (not at end, column 1, next character other
than newline) the call returns at no depth: every `getNextToken` call passes to
`handleIndentation`, which passes to `getNextToken` one level deeper in the
state `skipWhitespace s0`, a state that `skipWhitespace` leaves as it is, so no
character is consumed in the cycle; when the column of `s0` is at least 1 that
state is `s0` itself. -/
theorem termination_condition (s0 : Lexer) (h : s0.indentationStack = [0]) :
    ((∃ fuel t s1, getNextToken fuel s0 = Outcome.ok t s1) ↔
      (isAtEnd (skipWhitespace s0) = true ∨ (skipWhitespace s0).column ≠ 1 ∨
        peek (skipWhitespace s0) = nl)) ∧
    (isAtEnd (skipWhitespace s0) = false → (skipWhitespace s0).column = 1 →
      peek (skipWhitespace s0) ≠ nl →
      (∀ fuel, getNextToken fuel s0 = Outcome.outOfFuel) ∧
      (∀ fuel, getNextToken (fuel + 1) s0 =
          handleIndentation (getNextToken fuel) (skipWhitespace s0) ∧
        handleIndentation (getNextToken fuel) (skipWhitespace s0) =
          getNextToken fuel (skipWhitespace s0)) ∧
      skipWhitespace (skipWhitespace s0) = skipWhitespace s0 ∧
      (1 ≤ s0.column → skipWhitespace s0 = s0)) := by
  have hst : (skipWhitespace s0).indentationStack = 0 :: [] :=
    kept_skipWhitespace (kept_of_stack (fun st => st = [0])) h
  have hpk := skipWhitespace_peek s0
  have hloop : isAtEnd (skipWhitespace s0) = false → (skipWhitespace s0).column = 1 →
      peek (skipWhitespace s0) ≠ nl →
      (∀ fuel, getNextToken fuel s0 = Outcome.outOfFuel) ∧
      (∀ fuel, getNextToken (fuel + 1) s0 =
          handleIndentation (getNextToken fuel) (skipWhitespace s0) ∧
        handleIndentation (getNextToken fuel) (skipWhitespace s0) =
          getNextToken fuel (skipWhitespace s0)) := by
    intro h1 h2 h3
    obtain ⟨r, hr⟩ := rest_of_not_atEnd h1
    have hdiv := getNextToken_diverges hr h2 hpk h3 hst
    have hstep : ∀ fuel, getNextToken (fuel + 1) s0 =
          handleIndentation (getNextToken fuel) (skipWhitespace s0) ∧
        handleIndentation (getNextToken fuel) (skipWhitespace s0) =
          getNextToken fuel (skipWhitespace s0) := fun fuel =>
      ⟨by rw [getNextToken]; exact getNextTokenBody_line_start h1 h2 h3 _,
        handleIndentation_base hst hpk _⟩
    refine ⟨fun fuel => ?_, hstep⟩
    cases fuel with
    | zero => rfl
    | succ n => rw [(hstep n).1, (hstep n).2]; exact hdiv n
  refine ⟨⟨fun hret => ?_, fun hcond => ?_⟩, fun h1 h2 h3 => ?_⟩
  · obtain ⟨fuel, t, s1, hok⟩ := hret
    by_cases h1 : isAtEnd (skipWhitespace s0) = true
    · exact Or.inl h1
    by_cases h2 : (skipWhitespace s0).column = 1
    · by_cases h3 : peek (skipWhitespace s0) = nl
      · exact Or.inr (Or.inr h3)
      · have := (hloop (by simpa using h1) h2 h3).1 fuel
        rw [this] at hok
        cases hok
    · exact Or.inr (Or.inl h2)
  · obtain ⟨t, s1, hok⟩ : Returns (getNextToken 2 s0) := by
      rw [getNextToken]
      exact returns_body hcond (returns_after_comment _ 0)
    exact ⟨2, t, s1, hok⟩
  · exact ⟨(hloop h1 h2 h3).1, (hloop h1 h2 h3).2, skipWhitespace_fixed s0,
      fun hc => skipWhitespace_of_column hc h2⟩

/-- The input `x` at column 1 is never tokenised, and the input ` x` is, by
`termination_condition`. -/
theorem termination_condition_witness :
    getNextToken 5 (Lexer.new "x".toList) = Outcome.outOfFuel ∧
    ∃ fuel t s1, getNextToken fuel (Lexer.new " x".toList) = Outcome.ok t s1 :=
  ⟨((termination_condition (Lexer.new "x".toList) rfl).2 (by decide) (by decide)
      (by decide)).1 5,
   (termination_condition (Lexer.new " x".toList) rfl).1.2 (Or.inr (Or.inl (by decide)))⟩

/-! ## The parser: reading the text -/

theorem getD_of_drop {l : List Char} {i : Nat} {c : Char} {r : List Char}
    (h : l.drop i = c :: r) : l.getD i nul = c := by
  have h1 : (l.drop i).head? = some c := by rw [h]; rfl
  rw [List.head?_drop] at h1
  simp [List.getD_eq_getElem?_getD, h1]

theorem lt_of_drop {l : List Char} {i : Nat} {c : Char} {r : List Char}
    (h : l.drop i = c :: r) : i < l.length := by
  by_contra hlt
  rw [List.drop_of_length_le (not_lt.mp hlt)] at h
  cases h

theorem drop_succ_of_drop {l : List Char} {i : Nat} {c : Char} {r : List Char}
    (h : l.drop i = c :: r) : l.drop (i + 1) = r := by
  have : l.drop (i + 1) = (l.drop i).drop 1 := by rw [List.drop_drop, Nat.add_comm]
  rw [this, h]; rfl

theorem isspace_false {c : Char} (h : isspace c = false) : c ≠ ' ' ∧ c ≠ nl := by
  unfold isspace at h
  simp at h
  exact ⟨h.1.1.1.1.1, h.1.1.1.2⟩

theorem parser_skipWhitespace_stop {p : Parser} {c : Char} {r : List Char}
    (h : p.rest = c :: r) (hsp : isspace c = false) : p.skipWhitespace = p := by
  unfold Parser.skipWhitespace
  generalize p.code.length - p.currentPos = n
  cases n with
  | zero => rfl
  | succ n =>
    rw [Parser.skipWhitespaceLoop, getD_of_drop h, if_neg]
    rw [hsp]; simp

theorem spacesLoop_run (k : Nat) : ∀ (n a : Nat) (p : Parser) (c : Char) (r : List Char),
    p.rest = List.replicate k ' ' ++ c :: r → c ≠ ' ' → k ≤ n →
    Parser.spacesLoop n a p = (a + k, { p with currentPos := p.currentPos + k }) := by
  induction k with
  | zero =>
    intro n a p c r h hc _
    cases n with
    | zero => rfl
    | succ n =>
      have h1 : p.code.drop p.currentPos = c :: r := by simpa [Parser.rest] using h
      rw [Parser.spacesLoop, getD_of_drop h1, if_neg (fun hh => hc hh.2)]
      rfl
  | succ k ih =>
    intro n a p c r h hc hn
    cases n with
    | zero => omega
    | succ n =>
      have h1 : p.code.drop p.currentPos = ' ' :: (List.replicate k ' ' ++ c :: r) := by
        simpa [Parser.rest, List.replicate_succ] using h
      rw [Parser.spacesLoop, getD_of_drop h1, if_pos ⟨lt_of_drop h1, rfl⟩]
      rw [ih n (a + 1) _ c r (by simpa [Parser.rest] using drop_succ_of_drop h1) hc (by omega)]
      simp only [Prod.mk.injEq]
      constructor
      · omega
      · have : p.currentPos + 1 + k = p.currentPos + (k + 1) := by omega
        simp [this]

theorem lookAheadLoop_stop {code : List Char} {i : Nat} {c : Char} {r : List Char}
    (h : code.drop i = c :: r) (hsp : isspace c = false) (hc : c ≠ '#') (n : Nat) :
    Parser.lookAheadLoop code n i = i := by
  cases n with
  | zero => rfl
  | succ n =>
    rw [Parser.lookAheadLoop, getD_of_drop h, if_pos ⟨lt_of_drop h, (isspace_false hsp).2⟩,
      if_pos ⟨hsp, hc⟩]

/-- The state `parseIndentation` leaves at a line of `k` spaces followed by a character that
is neither whitespace nor `#`. -/
theorem parseIndentation_run {p : Parser} {k : Nat} {c : Char} {r : List Char}
    (h : p.rest = List.replicate k ' ' ++ c :: r) (hsp : isspace c = false) (hc : c ≠ '#') :
    p.parseIndentation =
      if k % 4 ≠ 0 then
        Parser.raise { p with currentPos := p.currentPos + k }
          "Indentation must be a multiple of 4 spaces at line "
      else if p.requiresIndent = true ∧ k / 4 = 0 then
        Parser.raise { p with currentPos := p.currentPos + k }
          "Expected indented block at line "
      else if k / 4 > p.indentLevel + 1 then
        Parser.raise { p with currentPos := p.currentPos + k }
          "Too many indentation levels at line "
      else { p with currentPos := p.currentPos + k, indentLevel := k / 4,
                    requiresIndent := false } := by
  have hlen : k ≤ p.code.length - p.currentPos := by
    have := congrArg List.length h
    simp [Parser.rest] at this
    omega
  have hd : p.code.drop (p.currentPos + k) = c :: r := by
    have : p.code.drop (p.currentPos + k) = (p.code.drop p.currentPos).drop k := by
      rw [List.drop_drop, Nat.add_comm]
    rw [this]
    have h2 : p.code.drop p.currentPos = List.replicate k ' ' ++ c :: r := h
    rw [h2, List.drop_left']
    simp
  unfold Parser.parseIndentation
  rw [spacesLoop_run k _ 0 p c r h (isspace_false hsp).1 hlen]
  dsimp only
  rw [lookAheadLoop_stop hd hsp hc, getD_of_drop hd,
    if_neg (fun hh => hh.2.elim (isspace_false hsp).2 hc)]
  simp only [Nat.zero_add]


theorem find_none {code : List Char} {pos : Nat} (h : nl ∉ code.drop pos) :
    find code nl pos = none := by
  unfold find
  rw [if_neg]
  rw [List.indexOf_lt_length]
  exact h

theorem find_some {code : List Char} {pos : Nat} {line t : List Char}
    (h : code.drop pos = line ++ nl :: t) (hline : nl ∉ line) :
    find code nl pos = some (pos + line.length) := by
  have hi : (code.drop pos).indexOf nl = line.length := by
    rw [h, List.indexOf_append_of_not_mem hline]
    simp
  unfold find
  rw [hi, if_pos]
  rw [h]; simp

theorem isOpener_iff (c : Char) :
    isOpener c = true ↔ (c = '(' ∨ c = '[' ∨ c = Char.ofNat 123) := by
  simp [isOpener, or_assoc]

theorem isCloser_iff (c : Char) :
    isCloser c = true ↔ (c = ')' ∨ c = ']' ∨ c = Char.ofNat 125) := by
  simp [isCloser, or_assoc]

theorem sameShape_iff {o c : Char} (hc : c = ')' ∨ c = ']' ∨ c = Char.ofNat 125) :
    sameShape o c = true ↔
      ¬ ((c = ')' ∧ o ≠ '(') ∨ (c = ']' ∧ o ≠ '[') ∨
          (c = Char.ofNat 125 ∧ o ≠ Char.ofNat 123)) := by
  rcases hc with rfl | rfl | rfl <;> simp +decide [sameShape]

theorem specBracketFault_opener {u : List Char} {b : Char} (bs : List Char)
    (h : isOpener b = true) : specBracketFault u (b :: bs) = specBracketFault (b :: u) bs := by
  cases u <;> simp [specBracketFault, h]

theorem specBracketFault_unmatched {b : Char} (bs : List Char) (h : isOpener b = false) :
    specBracketFault [] (b :: bs) = some BracketFault.unmatched := by
  simp [specBracketFault, h]

theorem specBracketFault_closer {b : Char} (o : Char) (os bs : List Char)
    (h : isOpener b = false) :
    specBracketFault (o :: os) (b :: bs) =
      if sameShape o b then specBracketFault os bs else some BracketFault.mismatched := by
  simp [specBracketFault, h]

/-- The bracket loop of the parser computes the specification's well-nesting test on the
bracket subsequence of the line. -/
theorem bracketLoop_spec (p : Parser) : ∀ (line brackets : List Char),
    (specBracketFault brackets (bracketsOf line) = none →
      Parser.bracketLoop p brackets line = Sum.inr []) ∧
    (specBracketFault brackets (bracketsOf line) = some BracketFault.unmatched →
      Parser.bracketLoop p brackets line =
        Sum.inl (p.raise "Unmatched closing bracket at line ")) ∧
    (specBracketFault brackets (bracketsOf line) = some BracketFault.mismatched →
      Parser.bracketLoop p brackets line =
        Sum.inl (p.raise "Mismatched brackets at line ")) ∧
    (specBracketFault brackets (bracketsOf line) = some BracketFault.unclosed →
      ∃ b, b ≠ [] ∧ Parser.bracketLoop p brackets line = Sum.inr b) := by
  intro line
  induction line with
  | nil =>
    intro brackets
    cases brackets with
    | nil => simp [bracketsOf, specBracketFault, Parser.bracketLoop]
    | cons o os => simp [bracketsOf, specBracketFault, Parser.bracketLoop]
  | cons c line ih =>
    intro brackets
    by_cases h1 : c = '(' ∨ c = '[' ∨ c = Char.ofNat 123
    · have ho : isOpener c = true := (isOpener_iff c).2 h1
      have hb : bracketsOf (c :: line) = c :: bracketsOf line := by
        simp [bracketsOf, isBracket, ho]
      have hl : Parser.bracketLoop p brackets (c :: line) =
          Parser.bracketLoop p (c :: brackets) line := by
        cases brackets <;> simp only [Parser.bracketLoop, if_pos h1]
      rw [hb, specBracketFault_opener _ ho, hl]
      exact ih (c :: brackets)
    · have ho : isOpener c = false := by
        rw [Bool.eq_false_iff]; exact fun h => h1 ((isOpener_iff c).1 h)
      by_cases h2 : c = ')' ∨ c = ']' ∨ c = Char.ofNat 125
      · have hcl : isCloser c = true := (isCloser_iff c).2 h2
        have hb : bracketsOf (c :: line) = c :: bracketsOf line := by
          simp [bracketsOf, isBracket, hcl]
        rw [hb]
        cases brackets with
        | nil =>
          have hl : Parser.bracketLoop p [] (c :: line) =
              Sum.inl (p.raise "Unmatched closing bracket at line ") := by
            rw [Parser.bracketLoop, if_neg h1, if_pos h2]
          rw [specBracketFault_unmatched _ ho, hl]
          simp
        | cons o os =>
          rw [specBracketFault_closer o os _ ho]
          by_cases h3 : sameShape o c = true
          · have hl : Parser.bracketLoop p (o :: os) (c :: line) =
                Parser.bracketLoop p os line := by
              rw [Parser.bracketLoop, if_neg h1, if_pos h2]
              rw [if_neg ((sameShape_iff h2).1 h3)]
            rw [if_pos h3, hl]
            exact ih os
          · have hl : Parser.bracketLoop p (o :: os) (c :: line) =
                Sum.inl (p.raise "Mismatched brackets at line ") := by
              rw [Parser.bracketLoop, if_neg h1, if_pos h2]
              rw [if_pos (by by_contra hn; exact h3 ((sameShape_iff h2).2 hn))]
            rw [if_neg h3, hl]
            simp
      · have hcl : isCloser c = false := by
          rw [Bool.eq_false_iff]; exact fun h => h2 ((isCloser_iff c).1 h)
        have hb : bracketsOf (c :: line) = bracketsOf line := by
          simp [bracketsOf, isBracket, ho, hcl]
        have hl : Parser.bracketLoop p brackets (c :: line) =
            Parser.bracketLoop p brackets line := by
          cases brackets <;> simp only [Parser.bracketLoop, if_neg h1, if_neg h2]
        rw [hb, hl]
        exact ih brackets

/-! ## The parser: well nesting as a grammar -/

theorem sameShape_opener {o c : Char} (h : sameShape o c = true) :
    isOpener o = true ∧ isOpener c = false := by
  simp only [sameShape, Bool.or_eq_true, Bool.and_eq_true, beq_iff_eq] at h
  rcases h with (⟨rfl, rfl⟩ | ⟨rfl, rfl⟩) | ⟨rfl, rfl⟩ <;> decide

theorem nested_append {x y : List Char} (hx : Nested x) (hy : Nested y) : Nested (x ++ y) := by
  induction hx with
  | nil => exact hy
  | wrap o c inner after hs _ _ _ ih2 =>
    have := Nested.wrap o c inner (after ++ y) hs (by assumption) ih2
    simpa using this

theorem closes_prepend {u t : List Char} (h : Closes u t) {x : List Char} (hx : Nested x) :
    Closes u (x ++ t) := by
  cases h with
  | done w hw => exact Closes.done _ (nested_append hx hw)
  | close o c os w t hw hs ht =>
    have := Closes.close o c os (x ++ w) t (nested_append hx hw) hs ht
    simpa using this

theorem closes_of_none : ∀ (bs u : List Char), specBracketFault u bs = none → Closes u bs := by
  intro bs
  induction bs with
  | nil =>
    intro u h
    cases u with
    | nil => exact Closes.done [] Nested.nil
    | cons o os => simp [specBracketFault] at h
  | cons b bs ih =>
    intro u h
    by_cases hb : isOpener b = true
    · rw [specBracketFault_opener _ hb] at h
      have hc := ih _ h
      cases hc with
      | close o c os w t hw hs ht =>
        have hn : Nested (b :: w ++ c :: []) := Nested.wrap b c w [] hs hw Nested.nil
        have := closes_prepend ht hn
        simpa using this
    · have hb0 : isOpener b = false := by simpa using hb
      cases u with
      | nil => rw [specBracketFault_unmatched _ hb0] at h; cases h
      | cons o os =>
        rw [specBracketFault_closer o os _ hb0] at h
        by_cases hs : sameShape o b = true
        · rw [if_pos hs] at h
          exact Closes.close o b os [] bs Nested.nil hs (ih _ h)
        · rw [if_neg hs] at h; cases h

theorem specBracketFault_nested {w : List Char} (hw : Nested w) : ∀ (u t : List Char),
    specBracketFault u (w ++ t) = specBracketFault u t := by
  induction hw with
  | nil => intro u t; rfl
  | wrap o c inner after hs _ _ ih1 ih2 =>
    intro u t
    have ho := sameShape_opener hs
    have e : (o :: inner ++ c :: after) ++ t = o :: (inner ++ (c :: (after ++ t))) := by simp
    rw [e, specBracketFault_opener _ ho.1, ih1, specBracketFault_closer o u _ ho.2, if_pos hs,
      ih2]

/-- The stack test of the specification accepts exactly the sequences of the grammar. -/
theorem specBracketFault_none_iff (bs : List Char) :
    specBracketFault [] bs = none ↔ Nested bs := by
  constructor
  · intro h
    have := closes_of_none bs [] h
    cases this with
    | done w hw => exact hw
  · intro h
    have := specBracketFault_nested h [] []
    simpa [specBracketFault] using this


/-- The statement step on a last line (no newline after the position) that starts with a
character that is neither whitespace nor `#`: the bracket loop runs over the whole rest. -/
theorem parseStatement_single {p : Parser} {c : Char} {r : List Char}
    (h : p.rest = c :: r) (hsp : isspace c = false) (hc : c ≠ '#') (hnl : nl ∉ c :: r) :
    p.parseStatement =
      match Parser.bracketLoop p [] (c :: r) with
      | Sum.inl failed => failed
      | Sum.inr brackets =>
        if brackets ≠ [] then p.raise "Unclosed bracket at line "
        else { p with currentPos := p.code.length } := by
  have hd : p.code.drop p.currentPos = c :: r := h
  have hlen : p.code.length - p.currentPos = (c :: r).length := by
    rw [← hd]; simp
  have hsub : substr p.code p.currentPos (p.code.length - p.currentPos) = c :: r := by
    unfold substr
    rw [hd, hlen, List.take_length]
  unfold Parser.parseStatement
  rw [parser_skipWhitespace_stop h hsp]
  dsimp only
  rw [if_neg (not_le.mpr (lt_of_drop hd)), getD_of_drop hd, if_neg hc,
    find_none (by rw [hd]; exact hnl)]
  dsimp only
  rw [hsub]
  cases Parser.bracketLoop p [] (c :: r) with
  | inl failed => rfl
  | inr brackets =>
    dsimp only
    by_cases hb : brackets ≠ []
    · rw [if_pos hb, if_pos hb]
    · rw [if_neg hb, if_neg hb, if_neg (lt_irrefl _)]

theorem parseIndentation_new {c : Char} {r : List Char} (hsp : isspace c = false)
    (hc : c ≠ '#') : (Parser.new (c :: r)).parseIndentation = Parser.new (c :: r) := by
  have h : (Parser.new (c :: r)).rest = List.replicate 0 ' ' ++ c :: r := rfl
  rw [parseIndentation_run h hsp hc]
  rfl

/-- Claim C22: for every single-line input (no newline character) whose first
character exists and is neither whitespace nor `#`, `Parser::parse` returns (two
iterations of its loop are enough), and afterwards `hasError()` is false if and
only if the subsequence of the six bracket characters of the whole line is well
nested: every closer has the shape of the most recent unclosed opener and
nothing stays open, which holds exactly for the sequences of the bracket
grammar `Nested`.  Otherwise `hasError()` is true and the message is
`Unmatched closing bracket at line 1` when the first faulty closer has nothing
open, `Mismatched brackets at line 1` when it has the wrong shape, and
`Unclosed bracket at line 1` when every closer is fine and an opener is still
open at the end of the line.  The subsequence is taken over every character of
the line, so brackets inside a trailing comment or a string count. -/
theorem parse_bracket_check (c : Char) (r : List Char) (hnl : nl ∉ c :: r)
    (hsp : isspace c = false) (hc : c ≠ '#') (fuel : Nat) :
    ∃ p1, Parser.parse (fuel + 2) (Parser.new (c :: r)) = some p1 ∧
      (p1.hasError = false ↔ specBracketFault [] (bracketsOf (c :: r)) = none) ∧
      (p1.hasError = false ↔ Nested (bracketsOf (c :: r))) ∧
      (∀ f, specBracketFault [] (bracketsOf (c :: r)) = some f →
        p1.hasError = true ∧ p1.getErrorMessage = f.text) := by
  suffices hmain : ∃ p1, Parser.parse (fuel + 2) (Parser.new (c :: r)) = some p1 ∧
      (p1.hasError = false ↔ specBracketFault [] (bracketsOf (c :: r)) = none) ∧
      (∀ f, specBracketFault [] (bracketsOf (c :: r)) = some f →
        p1.hasError = true ∧ p1.getErrorMessage = f.text) by
    obtain ⟨p1, h1, h2, h3⟩ := hmain
    exact ⟨p1, h1, h2, h2.trans (specBracketFault_none_iff _), h3⟩
  have hrest : (Parser.new (c :: r)).rest = c :: r := rfl
  have hstep : ∀ q : Parser, (Parser.new (c :: r)).parseStatement = q →
      Parser.parse (fuel + 2) (Parser.new (c :: r)) =
        if q.error = true then some q else Parser.parse (fuel + 1) q := by
    intro q hq
    rw [Parser.parse, if_pos ⟨by simp [Parser.new], rfl⟩]
    dsimp only
    rw [parseIndentation_new hsp hc, if_neg (by simp [Parser.new]), hq]
  have hst := parseStatement_single hrest hsp hc hnl
  have hloop := bracketLoop_spec (Parser.new (c :: r)) (c :: r) []
  cases hf : specBracketFault [] (bracketsOf (c :: r)) with
  | none =>
    have hq : (Parser.new (c :: r)).parseStatement =
        { Parser.new (c :: r) with currentPos := (c :: r).length } := by
      rw [hst, hloop.1 hf]
      rfl
    refine ⟨{ Parser.new (c :: r) with currentPos := (c :: r).length },
      (hstep _ hq).trans ?_, ?_, ?_⟩
    · rw [if_neg (by simp [Parser.new])]
      rw [Parser.parse, if_neg]
      simp [Parser.new]
    · simp [Parser.hasError, Parser.new]
    · intro f h; cases h
  | some f =>
    cases f with
    | unmatched =>
      have hq : (Parser.new (c :: r)).parseStatement =
          (Parser.new (c :: r)).raise "Unmatched closing bracket at line " := by
        rw [hst, hloop.2.1 hf]
      refine ⟨(Parser.new (c :: r)).raise "Unmatched closing bracket at line ",
        (hstep _ hq).trans (if_pos rfl), ?_, ?_⟩
      · simp [Parser.hasError, Parser.raise]
      · intro f h
        cases h
        refine ⟨rfl, ?_⟩
        show "Unmatched closing bracket at line " ++ toString (1 : Nat) = _
        decide
    | mismatched =>
      have hq : (Parser.new (c :: r)).parseStatement =
          (Parser.new (c :: r)).raise "Mismatched brackets at line " := by
        rw [hst, hloop.2.2.1 hf]
      refine ⟨(Parser.new (c :: r)).raise "Mismatched brackets at line ",
        (hstep _ hq).trans (if_pos rfl), ?_, ?_⟩
      · simp [Parser.hasError, Parser.raise]
      · intro f h
        cases h
        refine ⟨rfl, ?_⟩
        show "Mismatched brackets at line " ++ toString (1 : Nat) = _
        decide
    | unclosed =>
      obtain ⟨b, hb, hl⟩ := hloop.2.2.2 hf
      have hq : (Parser.new (c :: r)).parseStatement =
          (Parser.new (c :: r)).raise "Unclosed bracket at line " := by
        rw [hst, hl]
        exact if_pos hb
      refine ⟨(Parser.new (c :: r)).raise "Unclosed bracket at line ",
        (hstep _ hq).trans (if_pos rfl), ?_, ?_⟩
      · simp [Parser.hasError, Parser.raise]
      · intro f h
        cases h
        refine ⟨rfl, ?_⟩
        show "Unclosed bracket at line " ++ toString (1 : Nat) = _
        decide


/-- The line `x = (1 + [2)]` is a single line that starts with `x`, so
`parse_bracket_check` applies to it. -/
theorem parse_bracket_check_witness :
    ∃ p1, Parser.parse 2 (Parser.new ('x' :: " = (1 + [2)]".toList)) = some p1 ∧
      (p1.hasError = false ↔
        specBracketFault [] (bracketsOf ('x' :: " = (1 + [2)]".toList)) = none) ∧
      (p1.hasError = false ↔ Nested (bracketsOf ('x' :: " = (1 + [2)]".toList))) ∧
      (∀ f, specBracketFault [] (bracketsOf ('x' :: " = (1 + [2)]".toList)) = some f →
        p1.hasError = true ∧ p1.getErrorMessage = f.text) :=
  parse_bracket_check 'x' " = (1 + [2)]".toList (by decide) (by decide) (by decide) 0

/-! ## The parser: what a run can report -/

theorem step_refl (p : Parser) : Step p p :=
  ⟨rfl, le_refl _, le_refl _, fun h => h, Or.inl ⟨rfl, rfl, rfl⟩⟩

theorem step_trans {p q r : Parser} (h1 : Step p q) (h2 : Step q r) : Step p r := by
  obtain ⟨a1, a2, a3, a4, a5⟩ := h1
  obtain ⟨b1, b2, b3, b4, b5⟩ := h2
  refine ⟨b1.trans a1, le_trans a2 b2, le_trans a3 b3, fun h => b4 (a4 h), ?_⟩
  rcases b5 with ⟨c1, c2, c3⟩ | ⟨d, n, hd, hn, c1, c2, c3⟩
  · rcases a5 with ⟨e1, e2, e3⟩ | ⟨d, n, hd, hn, e1, e2, e3⟩
    · exact Or.inl ⟨c1.trans e1, c2.trans e2, c3.trans e3⟩
    · exact Or.inr ⟨d, n, hd, hn, c1.trans e1, c2.trans e2, c3.trans e3⟩
  · exact Or.inr ⟨d, n, hd, le_trans a3 hn, c1, c2, c3⟩

theorem step_raise (p : Parser) {d : String} (hd : d ∈ reportedTexts) : Step p (p.raise d) :=
  ⟨rfl, le_refl _, le_refl _, fun h => h, Or.inr ⟨d, p.currentLine, hd, le_refl _, rfl, rfl, rfl⟩⟩

theorem step_skipWhitespaceLoop (n : Nat) : ∀ p : Parser, Step p (Parser.skipWhitespaceLoop n p) := by
  induction n with
  | zero => intro p; exact step_refl p
  | succ n ih =>
    intro p
    rw [Parser.skipWhitespaceLoop]
    split_ifs with h1 h2
    · refine step_trans ?_ (ih _)
      exact ⟨rfl, Nat.le_succ _, Nat.le_succ _, fun h => h, Or.inl ⟨rfl, rfl, rfl⟩⟩
    · refine step_trans ?_ (ih _)
      exact ⟨rfl, Nat.le_succ _, le_refl _, fun h => h, Or.inl ⟨rfl, rfl, rfl⟩⟩
    · exact step_refl p

theorem step_skipWhitespace (p : Parser) : Step p p.skipWhitespace :=
  step_skipWhitespaceLoop _ p

theorem step_spacesLoop (n : Nat) : ∀ (a : Nat) (p : Parser),
    Step p (Parser.spacesLoop n a p).2 := by
  induction n with
  | zero => intro a p; exact step_refl p
  | succ n ih =>
    intro a p
    rw [Parser.spacesLoop]
    split_ifs with h1
    · refine step_trans ?_ (ih _ _)
      exact ⟨rfl, Nat.le_succ _, le_refl _, fun h => h, Or.inl ⟨rfl, rfl, rfl⟩⟩
    · exact step_refl p

theorem step_commentLoop (n : Nat) : ∀ p : Parser, Step p (Parser.commentLoop n p) := by
  induction n with
  | zero => intro p; exact step_refl p
  | succ n ih =>
    intro p
    rw [Parser.commentLoop]
    split_ifs with h1
    · refine step_trans ?_ (ih _)
      exact ⟨rfl, Nat.le_succ _, le_refl _, fun h => h, Or.inl ⟨rfl, rfl, rfl⟩⟩
    · exact step_refl p

theorem step_parseIndentation (p : Parser) (hr : p.requiresIndent = false) :
    Step p p.parseIndentation := by
  have hs := step_spacesLoop (p.code.length - p.currentPos) 0 p
  unfold Parser.parseIndentation
  dsimp only
  generalize Parser.spacesLoop (p.code.length - p.currentPos) 0 p = counted at hs
  have hr1 : counted.2.requiresIndent = false := hs.2.2.2.1 hr
  split_ifs with h1 h2 h3 h4
  · exact hs
  · exact step_trans hs (step_raise _ (by decide))
  · rw [hr1] at h3; exact absurd h3.1 (by decide)
  · exact step_trans hs (step_raise _ (by decide))
  · refine step_trans hs ?_
    exact ⟨rfl, le_refl _, le_refl _, fun _ => rfl, Or.inl ⟨rfl, rfl, rfl⟩⟩

theorem bracketLoop_failed (p : Parser) : ∀ (line brackets : List Char) (failed : Parser),
    Parser.bracketLoop p brackets line = Sum.inl failed →
    failed = p.raise "Unmatched closing bracket at line " ∨
      failed = p.raise "Mismatched brackets at line " := by
  intro line
  induction line with
  | nil => intro brackets failed h; cases brackets <;> simp [Parser.bracketLoop] at h
  | cons c line ih =>
    intro brackets failed h
    cases brackets with
    | nil =>
      rw [Parser.bracketLoop] at h
      split_ifs at h with h1 h2
      · exact ih _ _ h
      · left; cases h; rfl
      · exact ih _ _ h
    | cons o os =>
      rw [Parser.bracketLoop] at h
      split_ifs at h with h1 h2 h3
      · exact ih _ _ h
      · right; cases h; rfl
      · exact ih _ _ h
      · exact ih _ _ h

theorem find_bounds {code : List Char} {c : Char} {pos i : Nat} (h : find code c pos = some i) :
    pos ≤ i ∧ i < code.length := by
  unfold find at h
  split_ifs at h with h1
  cases h
  simp at h1
  omega

theorem commentLoop_shape (n : Nat) : ∀ p : Parser,
    ∃ j, p.currentPos ≤ j ∧ Parser.commentLoop n p = { p with currentPos := j } := by
  induction n with
  | zero => intro p; exact ⟨p.currentPos, le_refl _, rfl⟩
  | succ n ih =>
    intro p
    rw [Parser.commentLoop]
    split_ifs with h1
    · obtain ⟨j, hj, he⟩ := ih { p with currentPos := p.currentPos + 1 }
      exact ⟨j, le_trans (Nat.le_succ _) hj, he⟩
    · exact ⟨p.currentPos, le_refl _, rfl⟩

/-- The five ways `parseStatement` ends, seen from the state after `skipWhitespace`. -/
theorem parseStatement_cases (p : Parser) :
    (p.parseStatement = p.skipWhitespace ∧
        p.skipWhitespace.code.length ≤ p.skipWhitespace.currentPos) ∨
    (p.skipWhitespace.code.getD p.skipWhitespace.currentPos nul = '#' ∧
        ∃ j, p.skipWhitespace.currentPos < j ∧
          p.parseStatement = { p.skipWhitespace with currentPos := j }) ∨
    (∃ d, d ∈ bracketTexts ∧ p.parseStatement = p.skipWhitespace.raise d) ∨
    (p.skipWhitespace.currentPos < p.skipWhitespace.code.length ∧
        p.parseStatement =
          { p.skipWhitespace with currentPos := p.skipWhitespace.code.length }) ∨
    (∃ j, p.skipWhitespace.currentPos ≤ j ∧
        p.parseStatement =
          { p.skipWhitespace with currentPos := j + 1,
                                  currentLine := p.skipWhitespace.currentLine + 1 }) := by
  unfold Parser.parseStatement
  dsimp only
  generalize p.skipWhitespace = p1
  by_cases hend : p1.currentPos ≥ p1.code.length
  · rw [if_pos hend]
    exact Or.inl ⟨rfl, hend⟩
  rw [if_neg hend]
  by_cases hhash : p1.code.getD p1.currentPos nul = '#'
  · rw [if_pos hhash]
    refine Or.inr (Or.inl ⟨hhash, ?_⟩)
    obtain ⟨n, hn⟩ : ∃ n, p1.code.length - p1.currentPos = n + 1 :=
      ⟨p1.code.length - p1.currentPos - 1, by omega⟩
    rw [hn, Parser.commentLoop, if_pos ⟨by omega, by rw [hhash]; decide⟩]
    obtain ⟨j, hj, he⟩ := commentLoop_shape n { p1 with currentPos := p1.currentPos + 1 }
    exact ⟨j, hj, he⟩
  rw [if_neg hhash]
  refine Or.inr (Or.inr ?_)
  have hfail : ∀ (line : List Char) (failed : Parser),
      Parser.bracketLoop p1 [] line = Sum.inl failed →
      ∃ d, d ∈ bracketTexts ∧ failed = p1.raise d := by
    intro line failed hb
    rcases bracketLoop_failed p1 _ _ _ hb with h | h
    · exact ⟨_, by decide, h⟩
    · exact ⟨_, by decide, h⟩
  cases hf : find p1.code nl p1.currentPos with
  | none =>
    dsimp only
    generalize hb : Parser.bracketLoop p1 [] _ = res
    cases res with
    | inl failed => exact Or.inl (hfail _ _ hb)
    | inr brackets =>
      dsimp only
      by_cases hne : brackets ≠ []
      · rw [if_pos hne]
        exact Or.inl ⟨_, by decide, rfl⟩
      · rw [if_neg hne, if_neg (lt_irrefl _)]
        exact Or.inr (Or.inl ⟨not_le.mp hend, rfl⟩)
  | some i =>
    dsimp only
    have hi := find_bounds hf
    generalize hb : Parser.bracketLoop p1 [] _ = res
    cases res with
    | inl failed => exact Or.inl (hfail _ _ hb)
    | inr brackets =>
      dsimp only
      by_cases hne : brackets ≠ []
      · rw [if_pos hne]
        exact Or.inl ⟨_, by decide, rfl⟩
      · rw [if_neg hne, if_pos hi.2]
        exact Or.inr (Or.inr ⟨i, hi.1, rfl⟩)

theorem bracketTexts_reported {d : String} (h : d ∈ bracketTexts) : d ∈ reportedTexts := by
  simp only [bracketTexts, List.mem_cons, List.mem_singleton, List.not_mem_nil, or_false] at h
  rcases h with rfl | rfl | rfl <;> decide

theorem step_parseStatement (p : Parser) : Step p p.parseStatement := by
  refine step_trans (step_skipWhitespace p) ?_
  rcases parseStatement_cases p with ⟨h, _⟩ | ⟨_, j, hj, h⟩ | ⟨d, hd, h⟩ | ⟨hl, h⟩ | ⟨j, hj, h⟩
  · rw [h]; exact step_refl _
  · rw [h]
    exact ⟨rfl, le_of_lt hj, le_refl _, fun h => h, Or.inl ⟨rfl, rfl, rfl⟩⟩
  · rw [h]; exact step_raise _ (bracketTexts_reported hd)
  · rw [h]
    exact ⟨rfl, le_of_lt hl, le_refl _, fun h => h, Or.inl ⟨rfl, rfl, rfl⟩⟩
  · rw [h]
    exact ⟨rfl, Nat.le_succ_of_le hj, Nat.le_succ _, fun h => h, Or.inl ⟨rfl, rfl, rfl⟩⟩

/-- A statement step that raises no error consumes a character or ends at the end of the text. -/
theorem parseStatement_progress (p : Parser) :
    p.parseStatement.error = true ∨ p.currentPos < p.parseStatement.currentPos ∨
      p.code.length ≤ p.parseStatement.currentPos := by
  have hs := step_skipWhitespace p
  rcases parseStatement_cases p with ⟨h, hl⟩ | ⟨_, j, hj, h⟩ | ⟨d, _, h⟩ | ⟨hl, h⟩ | ⟨j, hj, h⟩
  · rw [h]; right; right; rw [← hs.1]; exact hl
  · rw [h]; right; left; exact lt_of_le_of_lt hs.2.1 hj
  · rw [h]; left; rfl
  · rw [h]; right; right; rw [← hs.1]
  · rw [h]; right; left; exact lt_of_le_of_lt (le_trans hs.2.1 hj) (Nat.lt_succ_self _)

theorem step_parse (fuel : Nat) : ∀ (p q : Parser), p.requiresIndent = false →
    Parser.parse fuel p = some q → Step p q := by
  induction fuel with
  | zero => intro p q _ h; cases h
  | succ fuel ih =>
    intro p q hr h
    rw [Parser.parse] at h
    dsimp only at h
    have h1 := step_parseIndentation p hr
    have h2 := step_parseStatement p.parseIndentation
    split_ifs at h with hg he1 he2
    · cases h; exact h1
    · cases h; exact step_trans h1 h2
    · exact step_trans (step_trans h1 h2) (ih _ _ (h2.2.2.2.1 (h1.2.2.2.1 hr)) h)
    · cases h; exact step_refl _

/-- The loop of `parse` ends: one iteration per remaining character is enough. -/
theorem parse_returns (n : Nat) : ∀ p : Parser, p.requiresIndent = false →
    p.code.length - p.currentPos < n → ∃ q, Parser.parse n p = some q := by
  induction n with
  | zero => intro p _ h; omega
  | succ n ih =>
    intro p hr hn
    rw [Parser.parse]
    dsimp only
    have h1 := step_parseIndentation p hr
    have h2 := step_parseStatement p.parseIndentation
    have h3 := parseStatement_progress p.parseIndentation
    split_ifs with hg he1 he2
    · exact ⟨_, rfl⟩
    · exact ⟨_, rfl⟩
    · apply ih _ (h2.2.2.2.1 (h1.2.2.2.1 hr))
      rw [h2.1, h1.1]
      rw [h1.1] at h3
      have := h1.2.1
      rcases h3 with h3 | h3 | h3
      · exact absurd h3 he2
      · omega
      · omega
    · exact ⟨_, rfl⟩

/-! ## The parser: telling the messages apart -/

theorem toDigitsCore_grows (b : Nat) : ∀ (f n : Nat) (ds : List Char), 0 < f →
    ds.length + 1 ≤ (Nat.toDigitsCore b f n ds).length := by
  intro f
  induction f with
  | zero => intro n ds h; omega
  | succ f ih =>
    intro n ds _
    rw [Nat.toDigitsCore]
    by_cases h0 : n / b = 0
    · rw [if_pos h0]; simp
    · rw [if_neg h0]
      cases f with
      | zero => simp [Nat.toDigitsCore]
      | succ f =>
        have := ih (n / b) (Nat.digitChar (n % b) :: ds) (Nat.succ_pos f)
        simp at this ⊢
        omega

/-- Only the line number 1 is printed as `1`. -/
theorem toString_ne_one (n : Nat) (h : 2 ≤ n) : toString n ≠ "1" := by
  intro he
  have hd : (Nat.toDigits 10 n) = ['1'] := by
    have := congrArg String.data he
    exact this
  by_cases h10 : n < 10
  · interval_cases n <;> revert hd <;> decide
  · have hl := congrArg List.length hd
    rw [Nat.toDigits, Nat.toDigitsCore] at hl
    rw [if_neg (by omega)] at hl
    have := toDigitsCore_grows 10 n (n / 10) [Nat.digitChar (n % 10)] (by omega)
    simp at hl this
    omega

/-- Two messages agree only if their texts and their line numbers agree. -/
theorem reportedText_inj {d e : String} (hd : d ∈ reportedTexts) (he : e ∈ reportedTexts)
    (x y : String) (h : d ++ x = e ++ y) : d = e ∧ x = y := by
  have h1 : d.data ++ x.data = e.data ++ y.data := by
    have := congrArg String.data h
    simpa using this
  have h3 := congrArg (List.take 3) h1
  simp only [reportedTexts, List.mem_cons, List.mem_singleton, List.not_mem_nil, or_false]
    at hd he
  rcases hd with rfl | rfl | rfl | rfl | rfl <;>
    rcases he with rfl | rfl | rfl | rfl | rfl <;>
    first
    | (refine ⟨rfl, ?_⟩
       exact String.ext (List.append_cancel_left h1))
    | (exfalso; revert h3; simp +decide)

/-- No reported message starts with `Expected indented block`. -/
theorem reportedText_not_expected {d : String} (hd : d ∈ reportedTexts) (x y : String) :
    d ++ x ≠ "Expected indented block" ++ y := by
  intro h
  have h1 : d.data ++ x.data = "Expected indented block".data ++ y.data := by
    have := congrArg String.data h
    simpa using this
  have h3 := congrArg (List.take 1) h1
  simp only [reportedTexts, List.mem_cons, List.mem_singleton, List.not_mem_nil, or_false]
    at hd
  rcases hd with rfl | rfl | rfl | rfl | rfl <;> (revert h3; simp +decide)

theorem empty_not_expected (y : String) : "" ≠ "Expected indented block" ++ y := by
  intro h
  have h1 := congrArg String.length h
  simp at h1
  have : "Expected indented block".length = 23 := by decide
  omega

/-- A state reached from a state on line 2 or later with no message holds no message about
line 1. -/
theorem step_not_line_one {p q : Parser} (h : Step p q) (hl : 2 ≤ p.currentLine)
    (hm : p.errorMessage = "") (e : String) (he : e ∈ reportedTexts) :
    q.errorMessage ≠ e ++ "1" := by
  intro hq
  rcases h.2.2.2.2 with ⟨_, _, h3⟩ | ⟨d, n, hd, hn, _, _, h3⟩
  · rw [h3, hm] at hq
    have h1 := congrArg String.length hq
    simp only [reportedTexts, List.mem_cons, List.mem_singleton, List.not_mem_nil, or_false]
      at he
    rcases he with rfl | rfl | rfl | rfl | rfl <;> revert h1 <;> decide
  · rw [h3] at hq
    exact toString_ne_one n (le_trans hl hn) (reportedText_inj hd he _ _ hq).2

/-! ## Claim C23: the indentation check on the first line -/

/-- The statement step at a character that is neither whitespace nor `#`: a bracket error on
the current line, or the position moves to the end of the text, or to the next line. -/
theorem parseStatement_first {p : Parser} {c : Char} {r : List Char}
    (h : p.rest = c :: r) (hsp : isspace c = false) (hc : c ≠ '#') :
    (∃ d, d ∈ bracketTexts ∧ p.parseStatement = p.raise d) ∨
    p.parseStatement = { p with currentPos := p.code.length } ∨
    (∃ j, p.parseStatement =
      { p with currentPos := j + 1, currentLine := p.currentLine + 1 }) := by
  have hd : p.code.drop p.currentPos = c :: r := h
  have hcases := parseStatement_cases p
  rw [parser_skipWhitespace_stop h hsp] at hcases
  rcases hcases with ⟨_, hl⟩ | ⟨hh, _⟩ | h3 | ⟨_, h4⟩ | ⟨j, _, h5⟩
  · exact absurd (lt_of_drop hd) (not_lt.mpr hl)
  · rw [getD_of_drop hd] at hh; exact absurd hh hc
  · exact Or.inl h3
  · exact Or.inr (Or.inl h4)
  · exact Or.inr (Or.inr ⟨j, h5⟩)

/-- The first iteration of `parse` on `k` spaces followed by a character that is neither
whitespace nor `#`. -/
theorem parse_first {k : Nat} {c : Char} {r : List Char} (hsp : isspace c = false)
    (hc : c ≠ '#') (fuel : Nat) :
    Parser.parse (fuel + 1) (Parser.new (List.replicate k ' ' ++ c :: r)) =
      if k % 4 ≠ 0 then
        some (Parser.raise { Parser.new (List.replicate k ' ' ++ c :: r) with currentPos := k }
          "Indentation must be a multiple of 4 spaces at line ")
      else if k / 4 > 1 then
        some (Parser.raise { Parser.new (List.replicate k ' ' ++ c :: r) with currentPos := k }
          "Too many indentation levels at line ")
      else if (Parser.parseStatement
          { Parser.new (List.replicate k ' ' ++ c :: r) with currentPos := k,
                                                             indentLevel := k / 4 }).error
            = true then
        some (Parser.parseStatement
          { Parser.new (List.replicate k ' ' ++ c :: r) with currentPos := k,
                                                             indentLevel := k / 4 })
      else
        Parser.parse fuel (Parser.parseStatement
          { Parser.new (List.replicate k ' ' ++ c :: r) with currentPos := k,
                                                             indentLevel := k / 4 }) := by
  have hrest : (Parser.new (List.replicate k ' ' ++ c :: r)).rest =
      List.replicate k ' ' ++ c :: r := rfl
  have hI := parseIndentation_run hrest hsp hc
  rw [Parser.parse, if_pos ⟨by simp [Parser.new], rfl⟩]
  dsimp only
  by_cases h4 : k % 4 ≠ 0
  · rw [if_pos h4] at hI
    have hI1 : (Parser.new (List.replicate k ' ' ++ c :: r)).parseIndentation =
        Parser.raise { Parser.new (List.replicate k ' ' ++ c :: r) with currentPos := k }
          "Indentation must be a multiple of 4 spaces at line " := by
      rw [hI]; simp [Parser.new]
    rw [if_pos h4, hI1]
    exact if_pos rfl
  · rw [if_neg h4, if_neg (by simp [Parser.new])] at hI
    rw [if_neg h4]
    by_cases hl : k / 4 > 1
    · rw [if_pos (by simpa [Parser.new] using hl)] at hI
      have hI1 : (Parser.new (List.replicate k ' ' ++ c :: r)).parseIndentation =
          Parser.raise { Parser.new (List.replicate k ' ' ++ c :: r) with currentPos := k }
            "Too many indentation levels at line " := by
        rw [hI]; simp [Parser.new]
      rw [if_pos hl, hI1]
      exact if_pos rfl
    · rw [if_neg (by simpa [Parser.new] using hl)] at hI
      have hI1 : (Parser.new (List.replicate k ' ' ++ c :: r)).parseIndentation =
          { Parser.new (List.replicate k ' ' ++ c :: r) with currentPos := k,
                                                             indentLevel := k / 4 } := by
        rw [hI]; simp [Parser.new]
      rw [if_neg hl, hI1]
      exact if_neg (by simp [Parser.new])

/-- With a first line indented by 0 or 4 spaces, no run ends with an indentation message about
line 1. -/
theorem parse_first_clean {k : Nat} {c : Char} {r : List Char} (hsp : isspace c = false)
    (hc : c ≠ '#') (h4 : k % 4 = 0) (hl : ¬ k / 4 > 1) (fuel : Nat) (q : Parser)
    (hp : Parser.parse fuel (Parser.new (List.replicate k ' ' ++ c :: r)) = some q) :
    q.errorMessage ≠ "Indentation must be a multiple of 4 spaces at line 1" ∧
      q.errorMessage ≠ "Too many indentation levels at line 1" := by
  cases fuel with
  | zero => cases hp
  | succ fuel =>
    rw [parse_first hsp hc, if_neg (not_not.mpr h4), if_neg hl] at hp
    have hrest : Parser.rest { Parser.new (List.replicate k ' ' ++ c :: r) with
        currentPos := k, indentLevel := k / 4 } = c :: r := by
      show (List.replicate k ' ' ++ c :: r).drop k = c :: r
      exact List.drop_left' (by simp)
    rcases parseStatement_first hrest hsp hc with ⟨d, hd, he⟩ | he | ⟨j, he⟩
    · rw [he, if_pos (show (Parser.raise _ d).error = true from rfl)] at hp
      cases hp
      simp only [bracketTexts, List.mem_cons, List.mem_singleton, List.not_mem_nil, or_false]
        at hd
      rcases hd with rfl | rfl | rfl
      · show "Unmatched closing bracket at line " ++ toString (1 : Nat) ≠ _ ∧
          "Unmatched closing bracket at line " ++ toString (1 : Nat) ≠ _
        decide
      · show "Mismatched brackets at line " ++ toString (1 : Nat) ≠ _ ∧
          "Mismatched brackets at line " ++ toString (1 : Nat) ≠ _
        decide
      · show "Unclosed bracket at line " ++ toString (1 : Nat) ≠ _ ∧
          "Unclosed bracket at line " ++ toString (1 : Nat) ≠ _
        decide
    · rw [he, if_neg (by simp [Parser.new])] at hp
      cases fuel with
      | zero => cases hp
      | succ fuel =>
        rw [Parser.parse, if_neg (by simp [Parser.new])] at hp
        cases hp
        show "" ≠ _ ∧ "" ≠ _
        decide
    · rw [he, if_neg (by simp [Parser.new])] at hp
      have hs := step_parse fuel _ q rfl hp
      have e1 : "Indentation must be a multiple of 4 spaces at line " ++ "1" = "Indentation must be a multiple of 4 spaces at line 1" := by decide
      have e2 : "Too many indentation levels at line " ++ "1" = "Too many indentation levels at line 1" := by decide
      have n1 := step_not_line_one hs (le_refl 2) rfl "Indentation must be a multiple of 4 spaces at line " (by decide)
      have n2 := step_not_line_one hs (le_refl 2) rfl "Too many indentation levels at line " (by decide)
      rw [e1] at n1
      rw [e2] at n2
      exact ⟨n1, n2⟩

/-- The indentation check on a first line of `k` spaces followed by a character that is
neither whitespace nor `#`, and the absence of `Expected indented block`, with the counters
read as natural numbers. -/
theorem parse_indentation_facts (k : Nat) (c : Char) (r : List Char)
    (hsp : isspace c = false) (hc : c ≠ '#') :
    (∃ q, Parser.parse ((List.replicate k ' ' ++ c :: r).length + 1)
        (Parser.new (List.replicate k ' ' ++ c :: r)) = some q) ∧
    (∀ fuel q, Parser.parse fuel (Parser.new (List.replicate k ' ' ++ c :: r)) = some q →
      ((q.hasError = true ∧ q.getErrorMessage =
          "Indentation must be a multiple of 4 spaces at line 1") ↔ k % 4 ≠ 0) ∧
      ((q.hasError = true ∧ q.getErrorMessage =
          "Too many indentation levels at line 1") ↔ (k % 4 = 0 ∧ k / 4 > 1)) ∧
      (k = 0 ∨ k = 4 →
        q.getErrorMessage ≠ "Indentation must be a multiple of 4 spaces at line 1" ∧
        q.getErrorMessage ≠ "Too many indentation levels at line 1")) ∧
    (∀ input : List Char,
      (∃ q, Parser.parse (input.length + 1) (Parser.new input) = some q) ∧
      ∀ fuel q x, Parser.parse fuel (Parser.new input) = some q →
        q.getErrorMessage ≠ "Expected indented block" ++ x) := by
  refine ⟨parse_returns _ _ rfl (by simp [Parser.new]), ?_, ?_⟩
  · intro fuel q hp
    by_cases h4 : k % 4 ≠ 0
    · cases fuel with
      | zero => cases hp
      | succ fuel =>
        rw [parse_first hsp hc, if_pos h4] at hp
        cases hp
        have e1 : (Parser.raise { Parser.new (List.replicate k ' ' ++ c :: r) with currentPos := k }
            "Indentation must be a multiple of 4 spaces at line ").getErrorMessage = "Indentation must be a multiple of 4 spaces at line 1" := by
          show "Indentation must be a multiple of 4 spaces at line " ++ toString (1 : Nat) = _
          decide
        refine ⟨⟨fun _ => h4, fun _ => ⟨rfl, e1⟩⟩, ⟨fun h => ?_, fun h => absurd h.1 h4⟩,
          fun h => ?_⟩
        · rw [e1] at h
          exact absurd h.2 (by decide)
        · omega
    · have h40 : k % 4 = 0 := not_not.mp h4
      by_cases hl : k / 4 > 1
      · cases fuel with
        | zero => cases hp
        | succ fuel =>
          rw [parse_first hsp hc, if_neg h4, if_pos hl] at hp
          cases hp
          have e1 : (Parser.raise { Parser.new (List.replicate k ' ' ++ c :: r) with currentPos := k }
              "Too many indentation levels at line ").getErrorMessage = "Too many indentation levels at line 1" := by
            show "Too many indentation levels at line " ++ toString (1 : Nat) = _
            decide
          refine ⟨⟨fun h => ?_, fun h => absurd h h4⟩, ⟨fun _ => ⟨h40, hl⟩, fun _ => ⟨rfl, e1⟩⟩,
            fun h => ?_⟩
          · rw [e1] at h
            exact absurd h.2 (by decide)
          · omega
      · have hclean := parse_first_clean hsp hc h40 hl fuel q hp
        exact ⟨⟨fun h => absurd h.2 hclean.1, fun h => absurd h h4⟩,
          ⟨fun h => absurd h.2 hclean.2, fun h => absurd h.2 hl⟩, fun _ => hclean⟩
  · intro input
    refine ⟨parse_returns _ _ rfl (by simp [Parser.new]), ?_⟩
    intro fuel q x hp
    have hs := step_parse fuel _ q rfl hp
    rcases hs.2.2.2.2 with ⟨_, _, h3⟩ | ⟨d, n, hd, _, _, _, h3⟩
    · show q.errorMessage ≠ _
      rw [h3]
      exact empty_not_expected x
    · show q.errorMessage ≠ _
      rw [h3]
      exact reportedText_not_expected hd _ _


/-! ## The parser: the counters stay in range -/

theorem range_skipWhitespaceLoop (n : Nat) : ∀ p : Parser, InRange p →
    InRange (Parser.skipWhitespaceLoop n p) := by
  induction n with
  | zero => intro p h; exact h
  | succ n ih =>
    intro p h
    rw [Parser.skipWhitespaceLoop]
    split_ifs with h1 h2
    · refine ih _ ⟨h1.1, ?_⟩
      have := h.2
      show p.currentLine + 1 ≤ 1 + (p.currentPos + 1)
      omega
    · exact ih _ ⟨h1.1, le_trans h.2 (Nat.le_succ _)⟩
    · exact h

theorem range_spacesLoop (n : Nat) : ∀ (a : Nat) (p : Parser), InRange p →
    InRange (Parser.spacesLoop n a p).2 := by
  induction n with
  | zero => intro a p h; exact h
  | succ n ih =>
    intro a p h
    rw [Parser.spacesLoop]
    split_ifs with h1
    · exact ih _ _ ⟨h1.1, le_trans h.2 (Nat.le_succ _)⟩
    · exact h

theorem range_commentLoop (n : Nat) : ∀ p : Parser, InRange p →
    InRange (Parser.commentLoop n p) := by
  induction n with
  | zero => intro p h; exact h
  | succ n ih =>
    intro p h
    rw [Parser.commentLoop]
    split_ifs with h1
    · exact ih _ ⟨h1.1, le_trans h.2 (Nat.le_succ _)⟩
    · exact h

theorem range_parseIndentation (p : Parser) (h : InRange p) : InRange p.parseIndentation := by
  have hs := range_spacesLoop (p.code.length - p.currentPos) 0 p h
  unfold Parser.parseIndentation
  dsimp only
  generalize Parser.spacesLoop (p.code.length - p.currentPos) 0 p = counted at hs
  split_ifs <;> exact hs

theorem range_parseStatement (p : Parser) (h : InRange p) : InRange p.parseStatement := by
  have h1 : InRange p.skipWhitespace := range_skipWhitespaceLoop _ p h
  unfold Parser.parseStatement
  dsimp only
  generalize p.skipWhitespace = p1 at h1
  by_cases hend : p1.currentPos ≥ p1.code.length
  · rw [if_pos hend]; exact h1
  rw [if_neg hend]
  by_cases hhash : p1.code.getD p1.currentPos nul = '#'
  · rw [if_pos hhash]; exact range_commentLoop _ p1 h1
  rw [if_neg hhash]
  have hfail : ∀ (line : List Char) (failed : Parser),
      Parser.bracketLoop p1 [] line = Sum.inl failed → InRange failed := by
    intro line failed hb
    rcases bracketLoop_failed p1 _ _ _ hb with e | e <;> (rw [e]; exact h1)
  cases hf : find p1.code nl p1.currentPos with
  | none =>
    dsimp only
    generalize hb : Parser.bracketLoop p1 [] _ = res
    cases res with
    | inl failed => exact hfail _ _ hb
    | inr brackets =>
      dsimp only
      by_cases hne : brackets ≠ []
      · rw [if_pos hne]; exact h1
      · rw [if_neg hne, if_neg (lt_irrefl _)]
        refine ⟨le_refl _, ?_⟩
        have := h1.2
        show p1.currentLine ≤ 1 + p1.code.length
        omega
  | some i =>
    dsimp only
    have hi := find_bounds hf
    generalize hb : Parser.bracketLoop p1 [] _ = res
    cases res with
    | inl failed => exact hfail _ _ hb
    | inr brackets =>
      dsimp only
      by_cases hne : brackets ≠ []
      · rw [if_pos hne]; exact h1
      · rw [if_neg hne, if_pos hi.2]
        refine ⟨hi.2, ?_⟩
        have := h1.2
        show p1.currentLine + 1 ≤ 1 + (i + 1)
        omega

theorem range_parse (fuel : Nat) : ∀ (p q : Parser), InRange p →
    Parser.parse fuel p = some q → InRange q := by
  induction fuel with
  | zero => intro p q _ h; cases h
  | succ fuel ih =>
    intro p q hr h
    rw [Parser.parse] at h
    dsimp only at h
    have h1 := range_parseIndentation p hr
    have h2 := range_parseStatement _ h1
    split_ifs at h with hg he1 he2
    · cases h; exact h1
    · cases h; exact h2
    · exact ih _ _ h2 h
    · cases h; exact hr

/-- For a text shorter than `intMax` the line counter of every state a run of `parse` ends in is
at most `intMax`. -/
theorem parse_line_bound {input : List Char} (hlen : input.length < intMax) {fuel : Nat}
    {q : Parser} (hp : Parser.parse fuel (Parser.new input) = some q) :
    q.currentLine ≤ intMax := by
  have hr := range_parse fuel _ q ⟨Nat.zero_le _, le_refl _⟩ hp
  have hs := step_parse fuel _ q rfl hp
  have h1 := hr.1
  have h2 := hr.2
  rw [hs.1] at h1
  have h3 : (Parser.new input).code.length = input.length := rfl
  omega

/-- Claim C23: for every input shorter than `intMax`, the inputs on which the
`int` counters of the source (`spaces`, `currentLine`) do not overflow, that
begins with `k` spaces followed by a character that is neither whitespace nor
`#`, `Parser::parse` returns, and whenever it returns it reports `Indentation
must be a multiple of 4 spaces at line 1` if and only if `k mod 4 ≠ 0`, it
reports `Too many indentation levels at line 1` if and only if `k mod 4 = 0`
and `k / 4 > 1`, and it reports neither of the two when `k` is 0 or 4; the
count `k` and the line counter are at most `intMax`.  For every input shorter
than `intMax`, `parse` returns, its message never starts with `Expected
indented block`, and its line counter is at most `intMax`. -/
theorem parse_indentation_check (k : Nat) (c : Char) (r : List Char)
    (hsp : isspace c = false) (hc : c ≠ '#')
    (hlen : (List.replicate k ' ' ++ c :: r).length < intMax) :
    k ≤ intMax ∧
    (∃ q, Parser.parse ((List.replicate k ' ' ++ c :: r).length + 1)
        (Parser.new (List.replicate k ' ' ++ c :: r)) = some q) ∧
    (∀ fuel q, Parser.parse fuel (Parser.new (List.replicate k ' ' ++ c :: r)) = some q →
      ((q.hasError = true ∧ q.getErrorMessage =
          "Indentation must be a multiple of 4 spaces at line 1") ↔ k % 4 ≠ 0) ∧
      ((q.hasError = true ∧ q.getErrorMessage =
          "Too many indentation levels at line 1") ↔ (k % 4 = 0 ∧ k / 4 > 1)) ∧
      (k = 0 ∨ k = 4 →
        q.getErrorMessage ≠ "Indentation must be a multiple of 4 spaces at line 1" ∧
        q.getErrorMessage ≠ "Too many indentation levels at line 1") ∧
      q.currentLine ≤ intMax) ∧
    (∀ input : List Char, input.length < intMax →
      (∃ q, Parser.parse (input.length + 1) (Parser.new input) = some q) ∧
      ∀ fuel q x, Parser.parse fuel (Parser.new input) = some q →
        q.getErrorMessage ≠ "Expected indented block" ++ x ∧ q.currentLine ≤ intMax) := by
  have hf := parse_indentation_facts k c r hsp hc
  refine ⟨?_, hf.1, ?_, ?_⟩
  · have hk : (List.replicate k ' ' ++ c :: r).length = k + (r.length + 1) := by simp
    omega
  · intro fuel q hp
    obtain ⟨h1, h2, h3⟩ := hf.2.1 fuel q hp
    exact ⟨h1, h2, h3, parse_line_bound hlen hp⟩
  · intro input hi
    exact ⟨(hf.2.2 input).1, fun fuel q x hp =>
      ⟨(hf.2.2 input).2 fuel q x hp, parse_line_bound hi hp⟩⟩

/-- The input of two spaces and `x` is shorter than `intMax` and begins with
spaces followed by a character that is neither whitespace nor `#`, so
`parse_indentation_check` applies: the run returns, and so does the run on the
input `x`. -/
theorem parse_indentation_check_witness :
    (∃ q, Parser.parse ((List.replicate 2 ' ' ++ ['x']).length + 1)
        (Parser.new (List.replicate 2 ' ' ++ ['x'])) = some q) ∧
    ∃ q, Parser.parse (['x'].length + 1) (Parser.new ['x']) = some q :=
  ⟨(parse_indentation_check 2 'x' [] (by decide) (by decide) (by decide)).2.1,
   ((parse_indentation_check 2 'x' [] (by decide) (by decide) (by decide)).2.2.2 ['x']
      (by decide)).1⟩

end PyLexer

